import Mathlib

/-!
# NDVI benchmark: calculator, colour gradient, colorizer, metrics collector, aggregator and
reports, and the legacy program

A shallow embedding of the Go functions `ndvi.Calculate` (pkg/ndvi/calculator.go),
`config.GetNDVIColor` (config/gradient.go), `ndvi.Colorize` (pkg/ndvi/colorizer.go),
`metrics.InitializeAccumulatedMetrics`, `metrics.AggregateMetrics`, `metrics.AverageMetrics`,
`metrics.PrintScalabilityAnalysis`, `getMagnitudeAndUnit` and the bottleneck rows of
`metrics.PrintMetricsTable` (pkg/metrics/reporter.go), of the methods of `metrics.Collector`
(pkg/metrics/collector.go), of the collector calls and the accumulation loop of `runBenchmark`
(cmd/benchmark/main.go), and of `ndviColorOptimized`, `CalculateNDVI`, the accumulation
functions and the repetition loop of the legacy program (C_go_implementation/benchmark.go),
followed by theorems about them.

Modelling conventions.

* In `Calculate`, `GetNDVIColor` and `Colorize` a `float32` or `float64` value is the rational
  number it denotes, and the result of every `float64` operation is rounded to 53 significant
  bits, to nearest, ties to even (`round53`, `fadd`, `fsub`, `fmul`, `fdiv`).  The exponent
  range is not modelled there: on `float32` samples no result is subnormal or overflows, and in
  the range of the normal values `round53` is the IEEE 754 rounding (`roundFloat64_eq_round53`,
  `pixelNDVI_ieee`).  A product and a sum are rounded one after the other, not fused into one
  operation, as on amd64.  The widening `float64(x)` of a `float32` sample is exact in Go and
  is the identity here.  A decimal literal of the source denotes the nearest `float64`: `-1.0`,
  `0.0`, `0.5` and `1.0` are exact and `-0.2` is `-3602879701896397 / 2^54`.  The two zeros are
  not distinguished.  The only operation of that code whose result can be a special value is
  the average of an image without pixels, `0.0 / 0.0`; the field `Average` is a `Float64`.
* In the metrics records and the scalability report a `float64` is a value of the type
  `Float64`: NaN, an infinity or a finite rational, and every arithmetic result is rounded to
  the nearest binary64 value, ties to even, with the exponent range of IEEE 754
  (`roundFloat64`).  The two zeros are not distinguished.
* Go `int` values that are sizes or indices are natural numbers (64-bit overflow of
  `Width * Height` is not modelled); `numThreads`, which the code never checks, is an integer.
  The `int64` and `int` fields of a metrics record are integers, sums of them wrap around
  modulo `2^64` and quotients truncate towards zero.
* `uint8` values are natural numbers below 256; `uint8` subtraction wraps around modulo 256.
* A run-time panic of the Go code (integer division by zero, `make` with a negative length,
  index out of range, `nil` dereference) is the value `none`.
* The goroutines of `Calculate` and `Colorize` write to pairwise disjoint slots of their shared
  slices and are joined before the results are read, so the model runs the workers one after
  the other in index order.  The definitions `CalculatePar` and `ColorizePar` run them under an
  arbitrary schedule of interleaved steps instead; they are shown to return the same results.
* A pointer `*Metrics` is an address in an explicit heap of records, so that a statement about
  a record that is or is not modified is a statement about that heap.
* Text output is not modelled: the scalability report is the list of the values passed to
  `Printf`, a row of the bottleneck table the values passed to `formatNumber` and `Printf`.
* The readings of the clock (`time.Now`, `time.Since`) and the results of the readers and
  writers are inputs of the model.
-/

namespace NDVI

/-! ## `float64` arithmetic

A finite `float64` value is the rational number it denotes.  The result of every arithmetic
operation is rounded to 53 significant bits, to nearest, ties to even. -/

/-- The constant `math.MaxFloat64`, `2^1023 * (2 - 2^-52)`. -/
def MaxFloat64 : ℚ := 2 ^ 1024 - 2 ^ 971

/-- The largest finite `float32`, `math.MaxFloat32`, `2^127 * (2 - 2^-23)`. -/
def MaxFloat32 : ℚ := 2 ^ 128 - 2 ^ 104

/-- The number of halvings that bring `n` below 2, the binary logarithm of `n ≥ 1` rounded
down; the first argument bounds the number of steps. -/
def log2Fuel : Nat → Nat → Nat
  | 0, _ => 0
  | fuel + 1, n => if n < 2 then 0 else log2Fuel fuel (n / 2) + 1

/-- The greatest `e` with `2^e ≤ x`, for `x > 0`. -/
def floorLog2 (x : ℚ) : Int :=
  let e0 : Int := (log2Fuel x.num.natAbs x.num.natAbs : Int) - (log2Fuel x.den x.den : Int)
  if (2 : ℚ) ^ e0 ≤ x then e0 else e0 - 1

/-- Rounding of `q ≥ 0` to the nearest integer, a tie going to the even one. -/
def roundHalfEven (q : ℚ) : Int :=
  if q - ⌊q⌋ < 1 / 2 then ⌊q⌋
  else if 1 / 2 < q - ⌊q⌋ then ⌊q⌋ + 1
  else if ⌊q⌋ % 2 = 0 then ⌊q⌋ else ⌊q⌋ + 1

/-- Rounding of a real number to the precision of `float64`: 53 significant bits, round to
nearest, ties to even.  The exponent range is not modelled: on `float32` samples no result of
`Calculate` or `GetNDVIColor` is subnormal or overflows, and there the value is the one
`roundFloat64` gives. -/
def round53 (x : ℚ) : ℚ :=
  if x = 0 then 0
  else
    let ulp : ℚ := 2 ^ (floorLog2 |x| - 52)
    let y : ℚ := (roundHalfEven (|x| / ulp) : ℚ) * ulp
    if 0 < x then y else -y

/-- The `float64` sum `x + y`. -/
def fadd (x y : ℚ) : ℚ := round53 (x + y)

/-- The `float64` difference `x - y`. -/
def fsub (x y : ℚ) : ℚ := round53 (x - y)

/-- The `float64` product `x * y`. -/
def fmul (x y : ℚ) : ℚ := round53 (x * y)

/-- The `float64` quotient `x / y`, for `y ≠ 0`. -/
def fdiv (x y : ℚ) : ℚ := round53 (x / y)

/-- A `float64` value: NaN, an infinity, or a finite value given by the rational number it
denotes (the two zeros are not distinguished). -/
inductive Float64 where
  | nan
  | negInf
  | posInf
  | fin (q : ℚ)
deriving DecidableEq

/-- Rounding of a real result to `float64` (IEEE 754 binary64, round to nearest, ties to even):
53 significant bits, exponent at least `-1022`, overflow to an infinity. -/
def roundFloat64 (x : ℚ) : Float64 :=
  if x = 0 then Float64.fin 0
  else
    let e := max (floorLog2 |x|) (-1022)
    let ulp : ℚ := 2 ^ (e - 52)
    let y : ℚ := (roundHalfEven (|x| / ulp) : ℚ) * ulp
    if y > MaxFloat64 then (if 0 < x then Float64.posInf else Float64.negInf)
    else Float64.fin (if 0 < x then y else -y)

/-- The sum `x + y` of two `float64` values. -/
def Float64.add : Float64 → Float64 → Float64
  | Float64.nan, _ => Float64.nan
  | _, Float64.nan => Float64.nan
  | Float64.posInf, Float64.negInf => Float64.nan
  | Float64.negInf, Float64.posInf => Float64.nan
  | Float64.posInf, _ => Float64.posInf
  | _, Float64.posInf => Float64.posInf
  | Float64.negInf, _ => Float64.negInf
  | _, Float64.negInf => Float64.negInf
  | Float64.fin a, Float64.fin b => roundFloat64 (a + b)

/-- The difference `x - y` of two `float64` values. -/
def Float64.sub : Float64 → Float64 → Float64
  | Float64.nan, _ => Float64.nan
  | _, Float64.nan => Float64.nan
  | Float64.posInf, Float64.posInf => Float64.nan
  | Float64.negInf, Float64.negInf => Float64.nan
  | Float64.posInf, _ => Float64.posInf
  | _, Float64.negInf => Float64.posInf
  | Float64.negInf, _ => Float64.negInf
  | _, Float64.posInf => Float64.negInf
  | Float64.fin a, Float64.fin b => roundFloat64 (a - b)

/-- The quotient `x / y` of two `float64` values; a zero divisor is taken as `+0`. -/
def Float64.div : Float64 → Float64 → Float64
  | Float64.nan, _ => Float64.nan
  | _, Float64.nan => Float64.nan
  | Float64.posInf, Float64.fin b => if 0 ≤ b then Float64.posInf else Float64.negInf
  | Float64.negInf, Float64.fin b => if 0 ≤ b then Float64.negInf else Float64.posInf
  | Float64.fin _, Float64.posInf => Float64.fin 0
  | Float64.fin _, Float64.negInf => Float64.fin 0
  | Float64.fin a, Float64.fin b =>
    if b = 0 then (if a = 0 then Float64.nan else if 0 < a then Float64.posInf else Float64.negInf)
    else roundFloat64 (a / b)
  | _, _ => Float64.nan

/-- The conversion `float64(n)` of an integer. -/
def float64OfInt (n : Int) : Float64 := roundFloat64 (n : ℚ)

/-! ## Data model -/

/-- The Go struct `jp2.JP2Image`: `Data` holds one sample slice per component. -/
structure JP2Image where
  Width : Nat
  Height : Nat
  Components : Nat
  Data : List (List ℚ)

/-- The Go struct `jp2.BandResult` (the read timings play no role in the calculator). -/
structure BandResult where
  Image : JP2Image

/-- The Go struct `metrics.NDVIMetrics`; `Time` is a duration in nanoseconds. -/
structure NDVIMetrics where
  Time : Int
  TotalPixels : Nat
  NoDataPixels : Nat
  Min : ℚ
  Max : ℚ
  Average : Float64
deriving DecidableEq

/-- The Go struct `ndvi.ImageDimensionError`. -/
structure ImageDimensionError where
  NIRWidth : Nat
  NIRHeight : Nat
  REDWidth : Nat
  REDHeight : Nat
deriving DecidableEq

/-- The three results of `Calculate`; `none` is Go's `nil`. -/
structure CalcReturn where
  metrics : Option NDVIMetrics
  data : Option (List ℚ)
  err : Option ImageDimensionError
deriving DecidableEq

/-- The local variables a worker goroutine of `Calculate` keeps. -/
structure WorkerLocal where
  localMin : ℚ
  localMax : ℚ
  localSum : ℚ
  localNoData : Nat
deriving DecidableEq

/-- The slices the workers of `Calculate` share. -/
structure CalcState where
  ndviData : List ℚ
  minVals : List ℚ
  maxVals : List ℚ
  sums : List ℚ
  pixelsWithoutData : List Nat
deriving DecidableEq

/-! ## `Calculate` (pkg/ndvi/calculator.go) -/

/-- The value `ndviValue` the worker loop computes for one pixel (calculator.go, 67-71). -/
def pixelNDVI (nirVal redVal : ℚ) : ℚ :=
  let sum := fadd nirVal redVal
  if sum > 0 then fdiv (fsub nirVal redVal) sum else 0

/-- One iteration of the worker loop (calculator.go, 63-84) at pixel index `i`. -/
def pixelStep (nirData redData : List ℚ) (st : List ℚ × WorkerLocal) (i : Nat) :
    Option (List ℚ × WorkerLocal) :=
  match nirData[i]?, redData[i]? with
  | some nirVal, some redVal =>
    let sum := fadd nirVal redVal
    let ndviValue : ℚ := if sum > 0 then fdiv (fsub nirVal redVal) sum else 0
    let localNoData := if sum > 0 then st.2.localNoData else st.2.localNoData + 1
    if i < st.1.length then
      some (st.1.set i ndviValue,
        { localMin := if ndviValue < st.2.localMin then ndviValue else st.2.localMin
          localMax := if ndviValue > st.2.localMax then ndviValue else st.2.localMax
          localSum := fadd st.2.localSum ndviValue
          localNoData := localNoData })
    else none
  | _, _ => none

/-- The body of one worker goroutine (calculator.go, 56-90): the loop over `[start, end)`. -/
def runWorker (nirData redData : List ℚ) (start end_ : Nat) (ndviData : List ℚ) :
    Option (List ℚ × WorkerLocal) :=
  (List.range' start (end_ - start)).foldlM (pixelStep nirData redData)
    (ndviData, { localMin := MaxFloat64, localMax := -MaxFloat64, localSum := 0, localNoData := 0 })

/-- One iteration of the loop that launches the workers (calculator.go, 52-91). -/
def workerStep (nirData redData : List ℚ) (chunkSize pixelCount : Nat) (st : CalcState)
    (w : Nat) : Option CalcState :=
  let start := w * chunkSize
  let end_ := min (start + chunkSize) pixelCount
  match runWorker nirData redData start end_ st.ndviData with
  | none => none
  | some (ndviData, loc) =>
    some { ndviData := ndviData
           minVals := st.minVals.set w loc.localMin
           maxVals := st.maxVals.set w loc.localMax
           sums := st.sums.set w loc.localSum
           pixelsWithoutData := st.pixelsWithoutData.set w loc.localNoData }

/-- One iteration of the reduction loop (calculator.go, 100-108) on `(Min, Max, totalSum)`. -/
def reduceStep (minVals maxVals sums : List ℚ) (acc : ℚ × ℚ × ℚ) (i : Nat) :
    Option (ℚ × ℚ × ℚ) :=
  match minVals[i]?, maxVals[i]?, sums[i]? with
  | some mn, some mx, some s =>
    some (if mn < acc.1 then mn else acc.1, if mx > acc.2.1 then mx else acc.2.1,
      fadd acc.2.2 s)
  | _, _, _ => none

/-- The Go function `ndvi.Calculate`. -/
def Calculate (nirBand redBand : BandResult) (numThreads : Int) : Option CalcReturn :=
  if nirBand.Image.Width ≠ redBand.Image.Width ∨ nirBand.Image.Height ≠ redBand.Image.Height then
    some { metrics := none, data := none,
           err := some { NIRWidth := nirBand.Image.Width, NIRHeight := nirBand.Image.Height,
                         REDWidth := redBand.Image.Width, REDHeight := redBand.Image.Height } }
  else
    let width := nirBand.Image.Width
    let height := redBand.Image.Height
    let pixelCount := width * height
    if numThreads ≤ 0 then none
    else
      let numWorkers := numThreads.toNat
      let chunkSize := (pixelCount + numWorkers - 1) / numWorkers
      match nirBand.Image.Data[0]?, redBand.Image.Data[0]? with
      | some nirData, some redData =>
        let st0 : CalcState :=
          { ndviData := List.replicate pixelCount 0
            minVals := List.replicate numWorkers 0
            maxVals := List.replicate numWorkers 0
            sums := List.replicate numWorkers 0
            pixelsWithoutData := List.replicate numWorkers 0 }
        match (List.range numWorkers).foldlM (workerStep nirData redData chunkSize pixelCount) st0 with
        | none => none
        | some st =>
          match st.minVals[0]?, st.maxVals[0]?, st.sums[0]? with
          | some mn0, some mx0, some s0 =>
            match (List.range' 1 (numWorkers - 1)).foldlM
                (reduceStep st.minVals st.maxVals st.sums) (mn0, mx0, s0) with
            | none => none
            | some (mn, mx, totalSum) =>
              some { metrics := some { Time := 0
                                       TotalPixels := pixelCount
                                       NoDataPixels := st.pixelsWithoutData.foldl (· + ·) 0
                                       Min := mn
                                       Max := mx
                                       Average := (Float64.fin totalSum).div (float64OfInt (pixelCount : Int)) }
                     data := some st.ndviData
                     err := none }
          | _, _, _ => none
      | _, _ => none

/-! ## `GetNDVIColor` (config/gradient.go) -/

/-- The Go struct `color.RGBA`; every channel is a `uint8`, a natural number below 256. -/
structure RGBA where
  R : Nat
  G : Nat
  B : Nat
  A : Nat
deriving DecidableEq

/-- An entry of the gradient table: an NDVI value and its colour. -/
structure GradientPoint where
  Value : ℚ
  Color : RGBA
deriving DecidableEq

/-- The table `ndviGradientPoints` (gradient.go, 8-17).  The literals `-1.0`, `0.0`, `0.5` and
`1.0` are `float64` values; the literal `-0.2` denotes the nearest `float64`,
`-3602879701896397 / 2^54`. -/
def ndviGradientPoints : List GradientPoint :=
  [ ⟨-1, ⟨0, 0, 128, 255⟩⟩,
    ⟨-(3602879701896397 / 2 ^ 54), ⟨65, 105, 225, 255⟩⟩,
    ⟨0, ⟨255, 0, 0, 255⟩⟩,
    ⟨1 / 2, ⟨255, 255, 0, 255⟩⟩,
    ⟨1, ⟨0, 128, 0, 255⟩⟩ ]

/-- Subtraction of two `uint8` values in Go: the result wraps around modulo 256. -/
def uint8Sub (a b : Nat) : Nat := (a + 256 - b) % 256

/-- Truncation of a `float64` towards zero, as the conversion to an integer type does. -/
def truncFloat64 (x : ℚ) : Int := if 0 ≤ x then ⌊x⌋ else ⌈x⌉

/-- The conversion `uint8(x)` of a `float64`.  When the truncated value is in `[0, 255]` it is
the result.  Otherwise Go leaves the result to the implementation; the model keeps the low
eight bits of the truncated value, which is what the gc compiler produces on amd64. -/
def uint8OfFloat64 (x : ℚ) : Nat := (truncFloat64 x % 256).toNat

/-- The floating-point value of one channel before its conversion to `uint8`
(gradient.go, 50-52): `float64(c1) + t*float64(c2-c1)`, the difference taken in `uint8`, the
product and the sum each rounded (they are not fused into one operation, as on amd64). -/
def channelFloat (c1 c2 : Nat) (t : ℚ) : ℚ :=
  fadd (c1 : ℚ) (fmul t ((uint8Sub c2 c1 : Nat) : ℚ))

/-- The binary search loop of `GetNDVIColor` (gradient.go, 31-39) on `(lo, hi, idx)`; the first
argument bounds the number of iterations and `none` is returned when it does not suffice or
an index is out of range. -/
def searchLoop (table : List GradientPoint) (ndviValue : ℚ) : Nat → Int → Int → Int → Option Int
  | 0, lo, hi, idx => if lo ≤ hi then none else some idx
  | fuel + 1, lo, hi, idx =>
    if lo ≤ hi then
      let mid := (lo + hi).tdiv 2
      if mid < 0 then none
      else
        match table[mid.toNat]? with
        | none => none
        | some p =>
          if p.Value > ndviValue then searchLoop table ndviValue fuel lo (mid - 1) idx
          else searchLoop table ndviValue fuel (mid + 1) hi mid
    else some idx

/-- The interpolation parameter `t` (gradient.go, 48) between two table entries. -/
def interpT (ndviValue : ℚ) (p1 p2 : GradientPoint) : ℚ :=
  fdiv (fsub ndviValue p1.Value) (fsub p2.Value p1.Value)

/-- The Go function `config.GetNDVIColor`; `none` is a run-time panic. -/
def GetNDVIColor (ndviValue : ℚ) : Option RGBA :=
  let n := ndviGradientPoints.length
  if ndviValue ≤ -1 then ndviGradientPoints[0]?.map (fun p => p.Color)
  else if ndviValue ≥ 1 then ndviGradientPoints[n - 1]?.map (fun p => p.Color)
  else
    match searchLoop ndviGradientPoints ndviValue n 0 ((n : Int) - 1) 0 with
    | none => none
    | some idx =>
      if idx ≥ (n : Int) - 1 then ndviGradientPoints[n - 1]?.map (fun p => p.Color)
      else if idx < 0 then none
      else
        match ndviGradientPoints[idx.toNat]?, ndviGradientPoints[(idx + 1).toNat]? with
        | some p1, some p2 =>
          let t := interpT ndviValue p1 p2
          some { R := uint8OfFloat64 (channelFloat p1.Color.R p2.Color.R t)
                 G := uint8OfFloat64 (channelFloat p1.Color.G p2.Color.G t)
                 B := uint8OfFloat64 (channelFloat p1.Color.B p2.Color.B t)
                 A := 255 }
        | _, _ => none

/-! ## Auxiliary definitions used in the statements and proofs -/

/-- The NDVI value of pixel `i` of two sample slices. -/
def ndviAt (nirData redData : List ℚ) (i : Nat) : ℚ :=
  pixelNDVI (nirData.getD i 0) (redData.getD i 0)

/-- The effect of one iteration of the worker loop on the worker's local variables. -/
def localStep (nirData redData : List ℚ) (loc : WorkerLocal) (i : Nat) : WorkerLocal :=
  { localMin := if ndviAt nirData redData i < loc.localMin then ndviAt nirData redData i
                else loc.localMin
    localMax := if ndviAt nirData redData i > loc.localMax then ndviAt nirData redData i
                else loc.localMax
    localSum := fadd loc.localSum (ndviAt nirData redData i)
    localNoData := if fadd (nirData.getD i 0) (redData.getD i 0) > 0 then loc.localNoData
                   else loc.localNoData + 1 }

/-- The initial local variables of a worker (calculator.go, 58-61). -/
def localInit : WorkerLocal :=
  { localMin := MaxFloat64, localMax := -MaxFloat64, localSum := 0, localNoData := 0 }

/-- The pixel indices worker `w` visits: `[w*chunkSize, min (w*chunkSize + chunkSize) pixelCount)`. -/
def chunkIdx (chunkSize pixelCount w : Nat) : List Nat :=
  List.range' (w * chunkSize) (min (w * chunkSize + chunkSize) pixelCount - w * chunkSize)

/-- The local variables of worker `w` when its loop ends. -/
def workerLocal (nirData redData : List ℚ) (chunkSize pixelCount w : Nat) : WorkerLocal :=
  (chunkIdx chunkSize pixelCount w).foldl (localStep nirData redData) localInit

/-- The effect of one iteration of the reduction loop on `(Min, Max, totalSum)`. -/
def reducePure (minVals maxVals sums : List ℚ) (acc : ℚ × ℚ × ℚ) (i : Nat) : ℚ × ℚ × ℚ :=
  (if minVals.getD i 0 < acc.1 then minVals.getD i 0 else acc.1,
   if maxVals.getD i 0 > acc.2.1 then maxVals.getD i 0 else acc.2.1,
   fadd acc.2.2 (sums.getD i 0))

/-- The sum worker `w` stores for its chunk of a raster: the running `float64` sum, started at
`0.0`, of the values at the indices `w * chunkSize, ..., w * chunkSize + chunkSize - 1` that
exist. -/
def chunkSum (data : List ℚ) (chunkSize w : Nat) : ℚ :=
  ((data.drop (w * chunkSize)).take chunkSize).foldl fadd 0

/-- The step of the running minimum: `if x < a then x else a`. -/
def minStep (a x : ℚ) : ℚ := if x < a then x else a

/-- The step of the running maximum: `if x > a then x else a`. -/
def maxStep (a x : ℚ) : ℚ := if x > a then x else a

/-- What is used of a finite `float32` value: it is a multiple of `2^-149` of magnitude at most
`MaxFloat32`. -/
def IsFloat32 (x : ℚ) : Prop := (∃ k : Int, x = (k : ℚ) / 2 ^ 149) ∧ |x| ≤ MaxFloat32

/-- The index the binary search of `GetNDVIColor` finds for a value strictly inside `(-1, 1)`. -/
def segmentIndex (v : ℚ) : Int :=
  if v < -(3602879701896397 / 2 ^ 54) then 0 else if v < 0 then 1 else if v < 1 / 2 then 2
  else 3

/-- The channel value the specification describes: `c1 + t * (c2 - c1)` with the true (possibly
negative) difference of the two channels, truncated to `uint8`. -/
def specChannel (c1 c2 : Nat) (t : ℚ) : Nat :=
  uint8OfFloat64 ((c1 : ℚ) + t * ((c2 : ℚ) - (c1 : ℚ)))

/-! ## `Colorize` (pkg/ndvi/colorizer.go) -/

/-- The Go struct `metrics.ColorMetrics`; `Time` is a duration in nanoseconds. -/
structure ColorMetrics where
  Time : Int
  ImageSize : Int
deriving DecidableEq

/-- The Go struct `image.RGBA` of an image whose bounds are `image.Rect(0, 0, Width, Height)`:
`Pix` holds the bytes R, G, B, A of the pixels in row-major order. -/
structure RGBAImage where
  Pix : List Nat
  Stride : Nat
  Width : Nat
  Height : Nat
deriving DecidableEq

/-- The call `image.NewRGBA(image.Rect(0, 0, width, height))`: a zeroed buffer of
`4 * width * height` bytes. -/
def NewRGBA (width height : Nat) : RGBAImage :=
  { Pix := List.replicate (4 * width * height) 0, Stride := 4 * width, Width := width,
    Height := height }

/-- One iteration of the worker loop of `Colorize` (colorizer.go, 34-41) at pixel index `i`. -/
def colorPixelStep (ndviData : List ℚ) (colorPix : List Nat) (i : Nat) : Option (List Nat) :=
  match ndviData[i]? with
  | none => none
  | some v =>
    match GetNDVIColor v with
    | none => none
    | some rgba =>
      let idx := i * 4
      if idx + 3 < colorPix.length then
        some ((((colorPix.set idx rgba.R).set (idx + 1) rgba.G).set (idx + 2) rgba.B).set
          (idx + 3) 255)
      else none

/-- One iteration of the loop that launches the workers of `Colorize` (colorizer.go, 28-43):
worker `w` runs over `[start, end)`. -/
def colorWorkerStep (ndviData : List ℚ) (chunkSize pixelCount : Nat) (colorPix : List Nat)
    (w : Nat) : Option (List Nat) :=
  let start := w * chunkSize
  let end_ := min (start + chunkSize) pixelCount
  (List.range' start (end_ - start)).foldlM (colorPixelStep ndviData) colorPix

/-- The Go function `ndvi.Colorize`; `none` is a run-time panic. -/
def Colorize (ndviData : List ℚ) (width height : Nat) (numThreads : Int) :
    Option (ColorMetrics × RGBAImage) :=
  let ndviColorImg := NewRGBA width height
  let pixelCount := width * height
  if numThreads ≤ 0 then none
  else
    let numWorkers := numThreads.toNat
    let chunkSize := (pixelCount + numWorkers - 1) / numWorkers
    match (List.range numWorkers).foldlM (colorWorkerStep ndviData chunkSize pixelCount)
        ndviColorImg.Pix with
    | none => none
    | some colorPix =>
      some ({ Time := 0, ImageSize := ((width * height * 4 : Nat) : Int) },
            { ndviColorImg with Pix := colorPix })

/-- The colour `GetNDVIColor` returns, with a default for the panic that never happens. -/
def colorOf (v : ℚ) : RGBA := (GetNDVIColor v).getD ⟨0, 0, 0, 0⟩

/-- The byte `Colorize` stores at offset `j` of the pixel buffer. -/
def byteAt (ndviData : List ℚ) (j : Nat) : Nat :=
  if j % 4 = 0 then (colorOf (ndviData.getD (j / 4) 0)).R
  else if j % 4 = 1 then (colorOf (ndviData.getD (j / 4) 0)).G
  else if j % 4 = 2 then (colorOf (ndviData.getD (j / 4) 0)).B
  else 255

/-- The four byte offsets of pixel `i`. -/
def pixelBytes (i : Nat) : List Nat := [i * 4, i * 4 + 1, i * 4 + 2, i * 4 + 3]

/-! ## `float64` and `int64` arithmetic of the metrics records (pkg/metrics)

In the aggregator and the reporter a `float64` is a value of the type `Float64`, with the
special values and the exponent range, and `int64` sums wrap around. -/

/-- The function `math.Min` of Go: `-Inf` wins over NaN, NaN over the rest. -/
def mathMin (x y : Float64) : Float64 :=
  match x, y with
  | Float64.negInf, _ => Float64.negInf
  | _, Float64.negInf => Float64.negInf
  | Float64.nan, _ => Float64.nan
  | _, Float64.nan => Float64.nan
  | Float64.posInf, y => y
  | x, Float64.posInf => x
  | Float64.fin a, Float64.fin b => if a < b then Float64.fin a else Float64.fin b

/-- The function `math.Max` of Go: `+Inf` wins over NaN, NaN over the rest. -/
def mathMax (x y : Float64) : Float64 :=
  match x, y with
  | Float64.posInf, _ => Float64.posInf
  | _, Float64.posInf => Float64.posInf
  | Float64.nan, _ => Float64.nan
  | _, Float64.nan => Float64.nan
  | Float64.negInf, y => y
  | x, Float64.negInf => x
  | Float64.fin a, Float64.fin b => if a > b then Float64.fin a else Float64.fin b

/-- Wrap-around of an integer into the range of `int64`. -/
def wrapInt64 (x : Int) : Int := (x + 2 ^ 63) % 2 ^ 64 - 2 ^ 63

/-- The sum `a + b` of two `int64` (or 64-bit `int`) values. -/
def int64Add (a b : Int) : Int := wrapInt64 (a + b)

/-- The quotient `a / b` of two `int64` (or 64-bit `int`) values for `b ≠ 0`: it truncates
towards zero, and the most negative value divided by `-1` is itself. -/
def int64Div (a b : Int) : Int := if a = -2 ^ 63 ∧ b = -1 then -2 ^ 63 else a.tdiv b

/-- The method `time.Duration.Seconds`: `float64(d / Second) + float64(d % Second) / 1e9`. -/
def durationSeconds (d : Int) : Float64 :=
  (float64OfInt (d.tdiv 1000000000)).add
    ((float64OfInt (d.tmod 1000000000)).div (Float64.fin 1000000000))

/-! ## The metrics aggregator (pkg/metrics/reporter.go, cmd/benchmark/main.go) -/

/-- The Go struct `metrics.CPUMetrics`; durations are in nanoseconds. -/
structure CPUMetrics where
  FileTime : Int
  DecodeTime : Int
  TotalTime : Int
deriving DecidableEq

/-- The Go struct `metrics.Metrics`; durations are `int64` nanoseconds. -/
structure Metrics where
  Resolution : String
  ProcessorType : String
  NumThreads : Int
  TotalTime : Int
  ReadingTime : Int
  NDVITime : Int
  ColorTime : Int
  SaveTime : Int
  FileTimeNIR : Int
  DecodeTimeNIR : Int
  FileTimeRED : Int
  DecodeTimeRED : Int
  Pixels : Int
  NoDataPixels : Int
  ImageSize : Int
  NDVIMin : Float64
  NDVIMax : Float64
  NDVIAverage : Float64
  NumTilesNIR : Int
  NumTilesRED : Int
  CPUMetrics : CPUMetrics
deriving DecidableEq

/-- The memory that holds the `Metrics` records. -/
abbrev MetricsHeap := List Metrics

/-- A pointer `*Metrics`: `none` is `nil`, `some a` the record at address `a`. -/
abbrev MetricsPtr := Option Nat

/-- The record `*p`; `none` when `p` is `nil` or not allocated. -/
def deref (h : MetricsHeap) (p : MetricsPtr) : Option Metrics :=
  match p with
  | none => none
  | some a => h[a]?

/-- The heap after the assignment `*p = m`. -/
def store (h : MetricsHeap) (p : MetricsPtr) (m : Metrics) : MetricsHeap :=
  match p with
  | none => h
  | some a => h.set a m

/-- The Go function `metrics.CopyMetrics`: the copy is a new record. -/
def CopyMetrics (h : MetricsHeap) (m : MetricsPtr) : Option (MetricsHeap × MetricsPtr) :=
  match deref h m with
  | none => none
  | some copy => some (h ++ [copy], some h.length)

/-- The Go function `metrics.InitializeAccumulatedMetrics`. -/
def InitializeAccumulatedMetrics (h : MetricsHeap) (original : MetricsPtr) :
    Option (MetricsHeap × MetricsPtr) :=
  match CopyMetrics h original with
  | none => none
  | some (h1, accumulated) =>
    match deref h1 accumulated with
    | none => none
    | some a =>
      some (store h1 accumulated
        { a with NDVIMin := Float64.fin MaxFloat64, NDVIMax := Float64.fin (-MaxFloat64) },
        accumulated)

/-- The record `accumulated` points to after the statements of `AggregateMetrics`.  Every
statement reads and writes one field only, so the fields are computed from the two records as
they are at the call. -/
def aggregateFields (accumulated new : Metrics) : Metrics :=
  { accumulated with
    TotalTime := int64Add accumulated.TotalTime new.TotalTime
    ReadingTime := int64Add accumulated.ReadingTime new.ReadingTime
    NDVITime := int64Add accumulated.NDVITime new.NDVITime
    ColorTime := int64Add accumulated.ColorTime new.ColorTime
    SaveTime := int64Add accumulated.SaveTime new.SaveTime
    FileTimeNIR := int64Add accumulated.FileTimeNIR new.FileTimeNIR
    DecodeTimeNIR := int64Add accumulated.DecodeTimeNIR new.DecodeTimeNIR
    FileTimeRED := int64Add accumulated.FileTimeRED new.FileTimeRED
    DecodeTimeRED := int64Add accumulated.DecodeTimeRED new.DecodeTimeRED
    NoDataPixels := int64Add accumulated.NoDataPixels new.NoDataPixels
    NDVIMin := mathMin accumulated.NDVIMin new.NDVIMin
    NDVIMax := mathMax accumulated.NDVIMax new.NDVIMax
    NDVIAverage := accumulated.NDVIAverage.add new.NDVIAverage }

/-- The Go function `metrics.AggregateMetrics`: it updates the record `accumulated` points to. -/
def AggregateMetrics (h : MetricsHeap) (accumulated new : MetricsPtr) : Option MetricsHeap :=
  match deref h accumulated, deref h new with
  | some a, some n => some (store h accumulated (aggregateFields a n))
  | _, _ => none

/-- The local `result` of `AverageMetrics` after its divisions, for `numRuns ≠ 0`. -/
def averageFields (result : Metrics) (numRuns : Int) : Metrics :=
  { result with
    TotalTime := int64Div result.TotalTime numRuns
    ReadingTime := int64Div result.ReadingTime numRuns
    NDVITime := int64Div result.NDVITime numRuns
    ColorTime := int64Div result.ColorTime numRuns
    SaveTime := int64Div result.SaveTime numRuns
    FileTimeNIR := int64Div result.FileTimeNIR numRuns
    DecodeTimeNIR := int64Div result.DecodeTimeNIR numRuns
    FileTimeRED := int64Div result.FileTimeRED numRuns
    DecodeTimeRED := int64Div result.DecodeTimeRED numRuns
    NoDataPixels := int64Div result.NoDataPixels numRuns
    NDVIAverage := result.NDVIAverage.div (float64OfInt numRuns) }

/-- The Go function `metrics.AverageMetrics`: the result is a new record; a `nil` argument and
`numRuns = 0` (integer division by zero) panic. -/
def AverageMetrics (h : MetricsHeap) (accumulated : MetricsPtr) (numRuns : Int) :
    Option (MetricsHeap × MetricsPtr) :=
  match deref h accumulated with
  | none => none
  | some result =>
    if numRuns = 0 then none
    else some (h ++ [averageFields result numRuns], some h.length)

/-- The accumulation step at the end of an iteration of `runBenchmark` (main.go, 182-187) on
the heap, the pointer `accumulatedMetrics` and the loop counter `i`. -/
def accumulateStep (st : MetricsHeap × MetricsPtr × Nat) (iterationMetrics : MetricsPtr) :
    Option (MetricsHeap × MetricsPtr × Nat) :=
  if st.2.2 = 0 then
    match InitializeAccumulatedMetrics st.1 iterationMetrics with
    | none => none
    | some (h, accumulatedMetrics) => some (h, accumulatedMetrics, st.2.2 + 1)
  else
    match AggregateMetrics st.1 st.2.1 iterationMetrics with
    | none => none
    | some h => some (h, st.2.1, st.2.2 + 1)

/-- The accumulation and averaging of `runBenchmark` (main.go, 116-197), given the records the
collectors of its iterations return, in order; `iterations` is their number. -/
def runBenchmarkAverage (h : MetricsHeap) (iterationRecords : List MetricsPtr) :
    Option (MetricsHeap × MetricsPtr) :=
  match iterationRecords.foldlM accumulateStep (h, none, 0) with
  | none => none
  | some (h1, accumulatedMetrics, _) =>
    AverageMetrics h1 accumulatedMetrics (iterationRecords.length : Int)

/-- A record used in examples: CPU, 4 threads, NDVI statistics `-0.5`, `0.875`, `0.25`. -/
def sampleMetrics : Metrics :=
  { Resolution := "10m", ProcessorType := "CPU", NumThreads := 4,
    TotalTime := 3000000000, ReadingTime := 1500000000, NDVITime := 400000000,
    ColorTime := 300000000, SaveTime := 700000000, FileTimeNIR := 100000000,
    DecodeTimeNIR := 600000000, FileTimeRED := 110000000, DecodeTimeRED := 610000000,
    Pixels := 120560400, NoDataPixels := 1234, ImageSize := 482241600,
    NDVIMin := Float64.fin (-(1 / 2)), NDVIMax := Float64.fin (7 / 8),
    NDVIAverage := Float64.fin (1 / 4), NumTilesNIR := 1, NumTilesRED := 1,
    CPUMetrics := ⟨0, 0, 0⟩ }

/-- The record `sampleMetrics` with the `float64` nearest to `0.1` as NDVI average. -/
def tenthMetrics : Metrics :=
  { sampleMetrics with NDVIAverage := Float64.fin (3602879701896397 / 2 ^ 55) }

/-- The record `sampleMetrics` with the NDVI extremes `-0.25` and `0.75`. -/
def innerMetrics : Metrics :=
  { sampleMetrics with NDVIMin := Float64.fin (-(1 / 4)), NDVIMax := Float64.fin (3 / 4) }

/-! ## The scalability analysis (pkg/metrics/reporter.go) -/

/-- A row of a scalability table: the values `PrintScalabilityAnalysis` passes to `Printf`. -/
structure ScalabilityRow where
  procLabel : String
  time : Float64
  speedup : Float64
  efficiency : Float64
deriving DecidableEq

/-- The group of a resolution: the records with that `Resolution`, in the order of the input
(reporter.go, 98-104). -/
def resolutionGroup (metricas : List Metrics) (res : String) : List Metrics :=
  metricas.filter (fun m => decide (m.Resolution = res))

/-- The search for the reference record (reporter.go, 116-122): `baseTime` is the total time in
seconds of the first record with processor `CPU` and one thread, and stays `0` without one. -/
def findBaseTime : List Metrics → Float64
  | [] => Float64.fin 0
  | m :: ms =>
    if m.ProcessorType = "CPU" ∧ m.NumThreads = 1 then durationSeconds m.TotalTime
    else findBaseTime ms

/-- The variable `baseTime` after the fallback (reporter.go, 116-127). -/
def baselineTime (ms : List Metrics) : Float64 :=
  let baseTime := findBaseTime ms
  if baseTime = Float64.fin 0 ∧ 0 < ms.length then
    match ms with
    | [] => baseTime
    | m :: _ => durationSeconds m.TotalTime
  else baseTime

/-- The row of one record (reporter.go, 130-147). -/
def scalabilityRow (baseTime : Float64) (m : Metrics) : ScalabilityRow :=
  let time := durationSeconds m.TotalTime
  let speedup := baseTime.div time
  { procLabel := if m.ProcessorType = "GPU" then "GPU"
                 else m.ProcessorType ++ " " ++ toString m.NumThreads
    time := time
    speedup := speedup
    efficiency := if m.ProcessorType = "CPU" then speedup.div (float64OfInt m.NumThreads)
                  else speedup }

/-- The rows `PrintScalabilityAnalysis` prints for the resolution `res`. -/
def scalabilityTable (metricas : List Metrics) (res : String) : List ScalabilityRow :=
  (resolutionGroup metricas res).map (scalabilityRow (baselineTime (resolutionGroup metricas res)))

/-- The Go function `metrics.PrintScalabilityAnalysis`: one table for every resolution that
occurs.  Go iterates over the map of the groups in an unspecified order; the model lists the
resolutions in the order of their first occurrence.  The parameter `groupByResolution` is not
used by the code and is left out. -/
def PrintScalabilityAnalysis (metricas : List Metrics) : List (String × List ScalabilityRow) :=
  (metricas.map (fun m => m.Resolution)).eraseDups.map
    (fun res => (res, scalabilityTable metricas res))

/-- A GPU record of total time 5 s. -/
def gpuFiveSeconds : Metrics :=
  { sampleMetrics with ProcessorType := "GPU", NumThreads := 1, TotalTime := 5000000000 }

/-- A record of processor `CPU` and one thread whose total time is zero. -/
def cpuOneZero : Metrics :=
  { sampleMetrics with ProcessorType := "CPU", NumThreads := 1, TotalTime := 0 }

/-- A record of processor `CPU` and one thread of total time 10 s. -/
def cpuOneTenSeconds : Metrics :=
  { sampleMetrics with ProcessorType := "CPU", NumThreads := 1, TotalTime := 10000000000 }

/-! ## The metrics collector (pkg/metrics/collector.go) and the bottleneck table
(pkg/metrics/reporter.go) -/

/-- The product `x * y` of two `float64` values; zero times an infinity is NaN. -/
def Float64.mul : Float64 → Float64 → Float64
  | Float64.nan, _ => Float64.nan
  | _, Float64.nan => Float64.nan
  | Float64.posInf, Float64.posInf => Float64.posInf
  | Float64.posInf, Float64.negInf => Float64.negInf
  | Float64.negInf, Float64.posInf => Float64.negInf
  | Float64.negInf, Float64.negInf => Float64.posInf
  | Float64.posInf, Float64.fin b =>
    if b = 0 then Float64.nan else if 0 < b then Float64.posInf else Float64.negInf
  | Float64.negInf, Float64.fin b =>
    if b = 0 then Float64.nan else if 0 < b then Float64.negInf else Float64.posInf
  | Float64.fin a, Float64.posInf =>
    if a = 0 then Float64.nan else if 0 < a then Float64.posInf else Float64.negInf
  | Float64.fin a, Float64.negInf =>
    if a = 0 then Float64.nan else if 0 < a then Float64.negInf else Float64.posInf
  | Float64.fin a, Float64.fin b => roundFloat64 (a * b)

/-- The Go function `getMagnitudeAndUnit` (reporter.go, 154-165); the duration `d` is a number
of nanoseconds, which is what `d.Nanoseconds()` returns. -/
def getMagnitudeAndUnit (d : Int) : Float64 × String :=
  if d < 1000 then (float64OfInt d, "ns")
  else if d < 1000000 then ((float64OfInt d).div (Float64.fin 1000), "µs")
  else if d < 1000000000 then ((float64OfInt d).div (Float64.fin 1000000), "ms")
  else (durationSeconds d, "s")

/-- The Go struct `metrics.ReadMetrics`; durations are `int64` nanoseconds. -/
structure ReadMetrics where
  FileTime : Int
  DecodeTime : Int
  NumTiles : Int
  TotalTime : Int
  ParseTime : Int
  GetInfoTime : Int
deriving DecidableEq

/-- The Go struct `metrics.Collector`.  Its three fields are set by `NewCollector` and never
assigned afterwards, so the methods, whose receiver is a `*Collector`, take the struct itself;
the record `metrics` points to lives in the heap. -/
structure Collector where
  metrics : MetricsPtr
  processorType : String
  numThreads : Int
deriving DecidableEq

/-- The zero value of the Go struct `Metrics`. -/
def zeroMetrics : Metrics :=
  { Resolution := "", ProcessorType := "", NumThreads := 0, TotalTime := 0, ReadingTime := 0,
    NDVITime := 0, ColorTime := 0, SaveTime := 0, FileTimeNIR := 0, DecodeTimeNIR := 0,
    FileTimeRED := 0, DecodeTimeRED := 0, Pixels := 0, NoDataPixels := 0, ImageSize := 0,
    NDVIMin := Float64.fin 0, NDVIMax := Float64.fin 0, NDVIAverage := Float64.fin 0,
    NumTilesNIR := 0, NumTilesRED := 0, CPUMetrics := ⟨0, 0, 0⟩ }

/-- The Go function `metrics.NewCollector`: it allocates a record with the processor type and
the number of threads, every other field zero. -/
def NewCollector (h : MetricsHeap) (processorType : String) (numThreads : Int) :
    MetricsHeap × Collector :=
  (h ++ [{ zeroMetrics with ProcessorType := processorType, NumThreads := numThreads }],
    { metrics := some h.length, processorType := processorType, numThreads := numThreads })

/-- The duration `time.Since(start)` when the clock reads `now`, both instants in nanoseconds:
the difference, which `Time.Sub` saturates at the bounds of `int64`. -/
def timeSince (start now : Int) : Int := max (-2 ^ 63) (min (2 ^ 63 - 1) (now - start))

/-- The method `Collector.StartTiming`: it returns `time.Now()`, the reading `now` of the
clock. -/
def Collector.StartTiming (_c : Collector) (now : Int) : Int := now

/-- The method `Collector.StopTiming`, called when the clock reads `now`. -/
def Collector.StopTiming (c : Collector) (h : MetricsHeap) (start now : Int) :
    Option MetricsHeap :=
  match deref h c.metrics with
  | none => none
  | some m => some (store h c.metrics { m with TotalTime := timeSince start now })

/-- The method `Collector.SetNumTiles`. -/
def Collector.SetNumTiles (c : Collector) (h : MetricsHeap) (nirTiles redTiles : Int) :
    Option MetricsHeap :=
  match deref h c.metrics with
  | none => none
  | some m => some (store h c.metrics { m with NumTilesNIR := nirTiles, NumTilesRED := redTiles })

/-- The method `Collector.SetBandReadMetrics`; its two arguments are only read. -/
def Collector.SetBandReadMetrics (c : Collector) (h : MetricsHeap)
    (nirMetrics redMetrics : ReadMetrics) : Option MetricsHeap :=
  match deref h c.metrics with
  | none => none
  | some m =>
    some (store h c.metrics
      { m with FileTimeNIR := nirMetrics.FileTime
               DecodeTimeNIR := nirMetrics.DecodeTime
               FileTimeRED := redMetrics.FileTime
               DecodeTimeRED := redMetrics.DecodeTime
               ReadingTime := int64Add nirMetrics.TotalTime redMetrics.TotalTime })

/-- The method `Collector.SetNDVIMetrics`; the statistics of the calculator are stored as they
are (the minimum and the maximum are finite values). -/
def Collector.SetNDVIMetrics (c : Collector) (h : MetricsHeap) (ndviMetrics : NDVIMetrics)
    (time : Int) : Option MetricsHeap :=
  match deref h c.metrics with
  | none => none
  | some m =>
    some (store h c.metrics
      { m with NDVITime := time
               Pixels := (ndviMetrics.TotalPixels : Int)
               NoDataPixels := (ndviMetrics.NoDataPixels : Int)
               NDVIMin := Float64.fin ndviMetrics.Min
               NDVIMax := Float64.fin ndviMetrics.Max
               NDVIAverage := ndviMetrics.Average })

/-- The method `Collector.SetColorMetrics`. -/
def Collector.SetColorMetrics (c : Collector) (h : MetricsHeap) (colorMetrics : ColorMetrics)
    (time : Int) : Option MetricsHeap :=
  match deref h c.metrics with
  | none => none
  | some m =>
    some (store h c.metrics { m with ColorTime := time, ImageSize := colorMetrics.ImageSize })

/-- The method `Collector.SetSaveTime`. -/
def Collector.SetSaveTime (c : Collector) (h : MetricsHeap) (time : Int) : Option MetricsHeap :=
  match deref h c.metrics with
  | none => none
  | some m => some (store h c.metrics { m with SaveTime := time })

/-- The method `Collector.GetMetrics`: it returns the pointer the collector holds. -/
def Collector.GetMetrics (c : Collector) : MetricsPtr := c.metrics

/-- What an iteration of `runBenchmark` obtains from outside the collector: the readings of the
clock at `StartTiming` and `StopTiming`, the metrics of the two band reads, the results of the
calculator and the colorizer with the durations measured around them, and the duration the
writer returns. -/
structure IterationInputs where
  startNow : Int
  nirMetrics : ReadMetrics
  redMetrics : ReadMetrics
  ndviMetrics : NDVIMetrics
  ndviTime : Int
  colorMetrics : ColorMetrics
  colorTime : Int
  saveTime : Int
  stopNow : Int

/-- The calls an iteration of `runBenchmark` makes on its collector (main.go, 122-179), in
order; the result is the heap and the pointer `iterationMetrics`. -/
def collectIteration (h : MetricsHeap) (processorType : String) (numThreads : Int)
    (x : IterationInputs) : Option (MetricsHeap × MetricsPtr) :=
  let (h0, collector) := NewCollector h processorType numThreads
  let startTime := collector.StartTiming x.startNow
  (collector.SetBandReadMetrics h0 x.nirMetrics x.redMetrics).bind fun h1 =>
  (collector.SetNumTiles h1 x.nirMetrics.NumTiles x.redMetrics.NumTiles).bind fun h2 =>
  (collector.SetNDVIMetrics h2 x.ndviMetrics x.ndviTime).bind fun h3 =>
  (collector.SetColorMetrics h3 x.colorMetrics x.colorTime).bind fun h4 =>
  (collector.SetSaveTime h4 x.saveTime).bind fun h5 =>
  (collector.StopTiming h5 startTime x.stopNow).bind fun h6 =>
  some (h6, collector.GetMetrics)

/-- The values of a row of the bottleneck table that `PrintMetricsTable` passes to its
formatting (reporter.go, 24-45): for every stage the magnitude and unit of its duration and its
share of the total time; the share of the total is the string literal `100.0`. -/
structure BottleneckRow where
  nir : Float64 × String
  porcNIR : Float64
  red : Float64 × String
  porcRED : Float64
  ndvi : Float64 × String
  porcNDVI : Float64
  color : Float64 × String
  porcColor : Float64
  save : Float64 × String
  porcSave : Float64
  total : Float64 × String
  porcTotal : String
deriving DecidableEq

/-- The row of the bottleneck table for one record (reporter.go, 24-45). -/
def bottleneckRow (m : Metrics) : BottleneckRow :=
  { nir := getMagnitudeAndUnit (int64Add m.FileTimeNIR m.DecodeTimeNIR)
    porcNIR := ((float64OfInt (int64Add m.FileTimeNIR m.DecodeTimeNIR)).div
      (float64OfInt m.TotalTime)).mul (Float64.fin 100)
    red := getMagnitudeAndUnit (int64Add m.FileTimeRED m.DecodeTimeRED)
    porcRED := ((float64OfInt (int64Add m.FileTimeRED m.DecodeTimeRED)).div
      (float64OfInt m.TotalTime)).mul (Float64.fin 100)
    ndvi := getMagnitudeAndUnit m.NDVITime
    porcNDVI := ((float64OfInt m.NDVITime).div (float64OfInt m.TotalTime)).mul (Float64.fin 100)
    color := getMagnitudeAndUnit m.ColorTime
    porcColor := ((float64OfInt m.ColorTime).div (float64OfInt m.TotalTime)).mul
      (Float64.fin 100)
    save := getMagnitudeAndUnit m.SaveTime
    porcSave := ((float64OfInt m.SaveTime).div (float64OfInt m.TotalTime)).mul (Float64.fin 100)
    total := getMagnitudeAndUnit m.TotalTime
    porcTotal := "100.0" }

/-- The inputs of an iteration whose stages take one second each (two seconds of reading, the
NIR and RED shares one second each) while eight seconds pass between `StartTiming` and
`StopTiming`. -/
def eightSecondIteration : IterationInputs :=
  { startNow := 1000000000000
    nirMetrics := ⟨400000000, 600000000, 1, 1000000000, 0, 0⟩
    redMetrics := ⟨400000000, 600000000, 1, 1000000000, 0, 0⟩
    ndviMetrics := ⟨0, 4, 0, -(1 / 2), 7 / 8, Float64.fin (1 / 4)⟩
    ndviTime := 1000000000
    colorMetrics := ⟨0, 16⟩
    colorTime := 1000000000
    saveTime := 1000000000
    stopNow := 1008000000000 }

/-- The record the collector of the iteration `eightSecondIteration` holds at the end, for the
processor `CPU` and 4 threads. -/
def eightSecondRecord : Metrics :=
  { zeroMetrics with
    ProcessorType := "CPU", NumThreads := 4, TotalTime := 8000000000,
    ReadingTime := 2000000000, NDVITime := 1000000000, ColorTime := 1000000000,
    SaveTime := 1000000000, FileTimeNIR := 400000000, DecodeTimeNIR := 600000000,
    FileTimeRED := 400000000, DecodeTimeRED := 600000000, Pixels := 4, NoDataPixels := 0,
    ImageSize := 16, NDVIMin := Float64.fin (-(1 / 2)), NDVIMax := Float64.fin (7 / 8),
    NDVIAverage := Float64.fin (1 / 4), NumTilesNIR := 1, NumTilesRED := 1 }

/-! ## The legacy program (C_go_implementation/benchmark.go)

The monolithic program the packages were split from.  Its struct `JP2Image` has the fields of
`jp2.JP2Image` and is modelled by the same structure; so are the colour and image types of the
standard library. -/

namespace Legacy

/-- The table `ndviGradientPoints` of the legacy file (benchmark.go, 46-55); the literal `-0.2`
denotes the nearest `float64`. -/
def ndviGradientPoints : List GradientPoint :=
  [ ⟨-1, ⟨0, 0, 128, 255⟩⟩,
    ⟨-(3602879701896397 / 2 ^ 54), ⟨65, 105, 225, 255⟩⟩,
    ⟨0, ⟨255, 0, 0, 255⟩⟩,
    ⟨1 / 2, ⟨255, 255, 0, 255⟩⟩,
    ⟨1, ⟨0, 128, 0, 255⟩⟩ ]

/-- The Go function `ndviColorOptimized` (benchmark.go, 158-193); `none` is a run-time panic.
Its binary search loop is `searchLoop` on the legacy table. -/
def ndviColorOptimized (ndviValue : ℚ) : Option RGBA :=
  let n := ndviGradientPoints.length
  if ndviValue ≤ -1 then ndviGradientPoints[0]?.map (fun p => p.Color)
  else if ndviValue ≥ 1 then ndviGradientPoints[n - 1]?.map (fun p => p.Color)
  else
    match searchLoop ndviGradientPoints ndviValue n 0 ((n : Int) - 1) 0 with
    | none => none
    | some idx =>
      if idx ≥ (n : Int) - 1 then ndviGradientPoints[n - 1]?.map (fun p => p.Color)
      else if idx < 0 then none
      else
        match ndviGradientPoints[idx.toNat]?, ndviGradientPoints[(idx + 1).toNat]? with
        | some p1, some p2 =>
          let t := fdiv (fsub ndviValue p1.Value) (fsub p2.Value p1.Value)
          some { R := uint8OfFloat64
                   (fadd (p1.Color.R : ℚ) (fmul t ((uint8Sub p2.Color.R p1.Color.R : Nat) : ℚ)))
                 G := uint8OfFloat64
                   (fadd (p1.Color.G : ℚ) (fmul t ((uint8Sub p2.Color.G p1.Color.G : Nat) : ℚ)))
                 B := uint8OfFloat64
                   (fadd (p1.Color.B : ℚ) (fmul t ((uint8Sub p2.Color.B p1.Color.B : Nat) : ℚ)))
                 A := 255 }
        | _, _ => none

/-- The Go struct `ResultadoBanda` (the read timings play no role in `CalculateNDVI`). -/
structure ResultadoBanda where
  Imagen : JP2Image

/-- The Go struct `MetricasNDVI`; `Tiempo` is a duration in nanoseconds. -/
structure MetricasNDVI where
  Tiempo : Int
  PixelesTotales : Nat
  PixelesSinDatos : Nat
  Min : ℚ
  Max : ℚ
  Promedio : Float64
deriving DecidableEq

/-- The Go struct `MetricasColor`; `Tiempo` is a duration in nanoseconds. -/
structure MetricasColor where
  Tiempo : Int
  TamanoImagen : Int
deriving DecidableEq

/-- The four results of `CalculateNDVI`; `none` is Go's `nil`, and an error made by
`fmt.Errorf` is its message. -/
structure CalculateNDVIReturn where
  metricasNDVI : Option MetricasNDVI
  metricasColor : Option MetricasColor
  ndviColorImg : Option RGBAImage
  err : Option String
deriving DecidableEq

/-- One iteration of the colour loop of `CalculateNDVI` (benchmark.go, 868-875) at pixel
index `i`. -/
def colorPixelStep (ndviData : List ℚ) (colorPix : List Nat) (i : Nat) : Option (List Nat) :=
  match ndviData[i]? with
  | none => none
  | some v =>
    match ndviColorOptimized v with
    | none => none
    | some rgba =>
      let idx := i * 4
      if idx + 3 < colorPix.length then
        some ((((colorPix.set idx rgba.R).set (idx + 1) rgba.G).set (idx + 2) rgba.B).set
          (idx + 3) 255)
      else none

/-- One iteration of the loop that launches the colour workers (benchmark.go, 862-877). -/
def colorWorkerStep (ndviData : List ℚ) (chunkSize pixelCount : Nat) (colorPix : List Nat)
    (w : Nat) : Option (List Nat) :=
  let start := w * chunkSize
  let end_ := min (start + chunkSize) pixelCount
  (List.range' start (end_ - start)).foldlM (colorPixelStep ndviData) colorPix

/-- The Go function `CalculateNDVI` (benchmark.go, 753-889); `none` is a run-time panic.  The
worker loop (784-821) and the reduction loop (827-839) are, statement by statement, those of
`ndvi.Calculate`, and the model uses the step functions `workerStep` and `reduceStep` for them,
the slice `pixelesSinDatos` being the field `pixelsWithoutData` of the state.  The arguments
`tiempoNDVI` and `tiempoColor` are the durations the two calls of `time.Since` return. -/
def CalculateNDVI (nirResultado redResultado : ResultadoBanda) (numCPUs : Int)
    (tiempoNDVI tiempoColor : Int) : Option CalculateNDVIReturn :=
  if nirResultado.Imagen.Width ≠ redResultado.Imagen.Width ∨
      nirResultado.Imagen.Height ≠ redResultado.Imagen.Height then
    some { metricasNDVI := none, metricasColor := none, ndviColorImg := none,
           err := some "las dimensiones de las imágenes NIR y RED no coinciden" }
  else
    let width := nirResultado.Imagen.Width
    let height := redResultado.Imagen.Height
    let pixelCount := width * height
    if numCPUs ≤ 0 then none
    else
      let numWorkers := numCPUs.toNat
      let chunkSize := (pixelCount + numWorkers - 1) / numWorkers
      match nirResultado.Imagen.Data[0]?, redResultado.Imagen.Data[0]? with
      | some nirData, some redData =>
        let st0 : CalcState :=
          { ndviData := List.replicate pixelCount 0
            minVals := List.replicate numWorkers 0
            maxVals := List.replicate numWorkers 0
            sums := List.replicate numWorkers 0
            pixelsWithoutData := List.replicate numWorkers 0 }
        match (List.range numWorkers).foldlM (workerStep nirData redData chunkSize pixelCount) st0 with
        | none => none
        | some st =>
          match st.minVals[0]?, st.maxVals[0]?, st.sums[0]? with
          | some mn0, some mx0, some s0 =>
            match (List.range' 1 (numWorkers - 1)).foldlM
                (reduceStep st.minVals st.maxVals st.sums) (mn0, mx0, s0) with
            | none => none
            | some (mn, mx, totalSum) =>
              let ndviColorImg := NewRGBA width height
              match (List.range numWorkers).foldlM
                  (colorWorkerStep st.ndviData chunkSize pixelCount) ndviColorImg.Pix with
              | none => none
              | some colorPix =>
                some { metricasNDVI := some { Tiempo := tiempoNDVI
                                              PixelesTotales := pixelCount
                                              PixelesSinDatos :=
                                                st.pixelsWithoutData.foldl (· + ·) 0
                                              Min := mn
                                              Max := mx
                                              Promedio :=
                                                (Float64.fin totalSum).div
                                                  (float64OfInt (pixelCount : Int)) }
                       metricasColor := some { Tiempo := tiempoColor
                                               TamanoImagen := ((width * height * 4 : Nat) : Int) }
                       ndviColorImg := some { ndviColorImg with Pix := colorPix }
                       err := none }
          | _, _, _ => none
      | _, _ => none

/-- The Go struct `Metricas` of the legacy file; durations are `int64` nanoseconds. -/
structure Metricas where
  Resolucion : String
  TipoProcesador : String
  NumHilos : Int
  TiempoTotal : Int
  TiempoLectura : Int
  TiempoNDVI : Int
  TiempoColor : Int
  TiempoGuardado : Int
  TiempoArchivoNIR : Int
  TiempoDecodifNIR : Int
  TiempoArchivoRED : Int
  TiempoDecodifRED : Int
  Pixeles : Int
  PixelesSinDatos : Int
  TamanoImagen : Int
  NDVIMin : Float64
  NDVIMax : Float64
  NDVIPromedio : Float64
  NumTilesNIR : Int
  NumTilesRED : Int
deriving DecidableEq

/-- The Go function `AgregarMetricas`: the record `acumulado` points to after the call.  In
`main` the two pointers designate different records. -/
def AgregarMetricas (acumulado nuevo : Metricas) : Metricas :=
  { acumulado with
    TiempoTotal := int64Add acumulado.TiempoTotal nuevo.TiempoTotal
    TiempoLectura := int64Add acumulado.TiempoLectura nuevo.TiempoLectura
    TiempoNDVI := int64Add acumulado.TiempoNDVI nuevo.TiempoNDVI
    TiempoColor := int64Add acumulado.TiempoColor nuevo.TiempoColor
    TiempoGuardado := int64Add acumulado.TiempoGuardado nuevo.TiempoGuardado
    TiempoArchivoNIR := int64Add acumulado.TiempoArchivoNIR nuevo.TiempoArchivoNIR
    TiempoDecodifNIR := int64Add acumulado.TiempoDecodifNIR nuevo.TiempoDecodifNIR
    TiempoArchivoRED := int64Add acumulado.TiempoArchivoRED nuevo.TiempoArchivoRED
    TiempoDecodifRED := int64Add acumulado.TiempoDecodifRED nuevo.TiempoDecodifRED
    PixelesSinDatos := int64Add acumulado.PixelesSinDatos nuevo.PixelesSinDatos
    NDVIMin := mathMin acumulado.NDVIMin nuevo.NDVIMin
    NDVIMax := mathMax acumulado.NDVIMax nuevo.NDVIMax
    NDVIPromedio := acumulado.NDVIPromedio.add nuevo.NDVIPromedio }

/-- The Go function `PromediarMetricas`: the record it returns; `numEjecuciones = 0` is an
integer division by zero, a panic. -/
def PromediarMetricas (acumulado : Metricas) (numEjecuciones : Int) : Option Metricas :=
  if numEjecuciones = 0 then none
  else
    some { acumulado with
      TiempoTotal := int64Div acumulado.TiempoTotal numEjecuciones
      TiempoLectura := int64Div acumulado.TiempoLectura numEjecuciones
      TiempoNDVI := int64Div acumulado.TiempoNDVI numEjecuciones
      TiempoColor := int64Div acumulado.TiempoColor numEjecuciones
      TiempoGuardado := int64Div acumulado.TiempoGuardado numEjecuciones
      TiempoArchivoNIR := int64Div acumulado.TiempoArchivoNIR numEjecuciones
      TiempoDecodifNIR := int64Div acumulado.TiempoDecodifNIR numEjecuciones
      TiempoArchivoRED := int64Div acumulado.TiempoArchivoRED numEjecuciones
      TiempoDecodifRED := int64Div acumulado.TiempoDecodifRED numEjecuciones
      PixelesSinDatos := int64Div acumulado.PixelesSinDatos numEjecuciones
      NDVIPromedio := acumulado.NDVIPromedio.div (float64OfInt numEjecuciones) }

/-- The Go function `CopiarMetricas`: the record of the copy. -/
def CopiarMetricas (m : Metricas) : Metricas := m

/-- The Go function `InicializarMetricasAcumuladas`: the record of the new accumulator. -/
def InicializarMetricasAcumuladas (original : Metricas) : Metricas :=
  { CopiarMetricas original with
    NDVIMin := Float64.fin MaxFloat64, NDVIMax := Float64.fin (-MaxFloat64) }

/-- One iteration of the CPU repetition loop of `main` (benchmark.go, 1249-1274) on the
variables `metricasAcumuladas` (`none` is `nil`) and `errAcumulado`, given the outcome of the
call of `ProcessNDVI`: an error message or the record of the run. -/
def repetitionStep (st : Option Metricas × Option String) (outcome : Except String Metricas) :
    Option Metricas × Option String :=
  match outcome with
  | Except.error err => (st.1, some err)
  | Except.ok metricaCPU =>
    match st.1 with
    | none => (some (InicializarMetricasAcumuladas metricaCPU), st.2)
    | some metricasAcumuladas => (some (AgregarMetricas metricasAcumuladas metricaCPU), st.2)

/-- The CPU repetition loop of `main` and the averaging that follows it (benchmark.go,
1245-1286), given the outcomes of the `*numRepeticiones` calls of `ProcessNDVI` in order.  The
result is the record appended to `metricasPromedio`, `some none` when nothing is appended; the
outer `none` is a panic. -/
def cpuRepetitions (outcomes : List (Except String Metricas)) : Option (Option Metricas) :=
  let numRepeticiones : Int := (outcomes.length : Int)
  match (outcomes.foldl repetitionStep (none, none)).1 with
  | some metricasAcumuladas => (PromediarMetricas metricasAcumuladas numRepeticiones).map some
  | none => some none

/-- The records of the calls of `ProcessNDVI` that returned without error, in order. -/
def completedRuns (outcomes : List (Except String Metricas)) : List Metricas :=
  outcomes.filterMap (fun outcome =>
    match outcome with
    | Except.error _ => none
    | Except.ok metricaCPU => some metricaCPU)

/-- A legacy record used in examples: CPU, 4 threads, total time 3 s. -/
def sampleMetricas : Metricas :=
  { Resolucion := "10m", TipoProcesador := "CPU", NumHilos := 4,
    TiempoTotal := 3000000000, TiempoLectura := 1500000000, TiempoNDVI := 400000000,
    TiempoColor := 300000000, TiempoGuardado := 800000000, TiempoArchivoNIR := 100000000,
    TiempoDecodifNIR := 600000000, TiempoArchivoRED := 110000000,
    TiempoDecodifRED := 610000000, Pixeles := 120560400, PixelesSinDatos := 1200,
    TamanoImagen := 482241600, NDVIMin := Float64.fin (-(1 / 2)),
    NDVIMax := Float64.fin (7 / 8), NDVIPromedio := Float64.fin (1 / 4), NumTilesNIR := 1,
    NumTilesRED := 1 }

end Legacy

/-! ## The goroutines of `Calculate` and `Colorize` under a schedule

The worker goroutines are run by interleaving their steps: a schedule is the list of the
workers in the order in which they take a step.  A step of a worker of `Calculate` is one
iteration of its loop, or, when the loop has ended, the four assignments to its result slots
followed by its return; a step of a worker of `Colorize` is one iteration of its loop.  A step
of a goroutine that has returned changes nothing. -/

/-- A worker goroutine of `Calculate` between two steps: its loop variable `i`, its local
variables, and whether it has stored its results and returned. -/
structure Goroutine where
  i : Nat
  loc : WorkerLocal
  done : Bool
deriving DecidableEq

/-- The slices the goroutines of `Calculate` share, and the goroutines. -/
structure ParState where
  shared : CalcState
  workers : List Goroutine
deriving DecidableEq

/-- One step of the goroutine of worker `w` of `Calculate` (calculator.go, 56-90). -/
def goroutineStep (nirData redData : List ℚ) (chunkSize pixelCount : Nat) (s : ParState)
    (w : Nat) : Option ParState :=
  match s.workers[w]? with
  | none => none
  | some g =>
    if g.done then some s
    else if g.i < min (w * chunkSize + chunkSize) pixelCount then
      match pixelStep nirData redData (s.shared.ndviData, g.loc) g.i with
      | none => none
      | some (ndviData, loc) =>
        some { shared := { s.shared with ndviData := ndviData }
               workers := s.workers.set w { i := g.i + 1, loc := loc, done := false } }
    else
      some { shared := { s.shared with
                         minVals := s.shared.minVals.set w g.loc.localMin
                         maxVals := s.shared.maxVals.set w g.loc.localMax
                         sums := s.shared.sums.set w g.loc.localSum
                         pixelsWithoutData := s.shared.pixelsWithoutData.set w g.loc.localNoData }
             workers := s.workers.set w { g with done := true } }

/-- The function `Calculate` with its goroutines run under the schedule `sched`.  The call
`wg.Wait()` returns when every goroutine has returned; a schedule after which some goroutine
has not returned is not an execution of the function, and the value is then `none`. -/
def CalculatePar (nirBand redBand : BandResult) (numThreads : Int) (sched : List Nat) :
    Option CalcReturn :=
  if nirBand.Image.Width ≠ redBand.Image.Width ∨ nirBand.Image.Height ≠ redBand.Image.Height then
    some { metrics := none, data := none,
           err := some { NIRWidth := nirBand.Image.Width, NIRHeight := nirBand.Image.Height,
                         REDWidth := redBand.Image.Width, REDHeight := redBand.Image.Height } }
  else
    let width := nirBand.Image.Width
    let height := redBand.Image.Height
    let pixelCount := width * height
    if numThreads ≤ 0 then none
    else
      let numWorkers := numThreads.toNat
      let chunkSize := (pixelCount + numWorkers - 1) / numWorkers
      match nirBand.Image.Data[0]?, redBand.Image.Data[0]? with
      | some nirData, some redData =>
        let s0 : ParState :=
          { shared := { ndviData := List.replicate pixelCount 0
                        minVals := List.replicate numWorkers 0
                        maxVals := List.replicate numWorkers 0
                        sums := List.replicate numWorkers 0
                        pixelsWithoutData := List.replicate numWorkers 0 }
            workers := (List.range numWorkers).map (fun w =>
              { i := w * chunkSize
                loc := { localMin := MaxFloat64, localMax := -MaxFloat64, localSum := 0,
                         localNoData := 0 }
                done := false }) }
        match sched.foldlM (goroutineStep nirData redData chunkSize pixelCount) s0 with
        | none => none
        | some s =>
          if s.workers.all (fun g => g.done) then
            match s.shared.minVals[0]?, s.shared.maxVals[0]?, s.shared.sums[0]? with
            | some mn0, some mx0, some s0 =>
              match (List.range' 1 (numWorkers - 1)).foldlM
                  (reduceStep s.shared.minVals s.shared.maxVals s.shared.sums) (mn0, mx0, s0) with
              | none => none
              | some (mn, mx, totalSum) =>
                some { metrics := some { Time := 0
                                         TotalPixels := pixelCount
                                         NoDataPixels := s.shared.pixelsWithoutData.foldl (· + ·) 0
                                         Min := mn
                                         Max := mx
                                         Average := (Float64.fin totalSum).div (float64OfInt (pixelCount : Int)) }
                       data := some s.shared.ndviData
                       err := none }
            | _, _, _ => none
          else none
      | _, _ => none

/-- The pixel buffer the goroutines of `Colorize` share, and the loop variable `i` of every
goroutine. -/
structure ColorPar where
  colorPix : List Nat
  next : List Nat
deriving DecidableEq

/-- One step of the goroutine of worker `w` of `Colorize` (colorizer.go, 32-42). -/
def colorGoroutineStep (ndviData : List ℚ) (chunkSize pixelCount : Nat) (s : ColorPar)
    (w : Nat) : Option ColorPar :=
  match s.next[w]? with
  | none => none
  | some i =>
    if i < min (w * chunkSize + chunkSize) pixelCount then
      match colorPixelStep ndviData s.colorPix i with
      | none => none
      | some colorPix => some { colorPix := colorPix, next := s.next.set w (i + 1) }
    else some s

/-- The function `Colorize` with its goroutines run under the schedule `sched`; the value is
`none` when the loop of some goroutine has not ended after the schedule. -/
def ColorizePar (ndviData : List ℚ) (width height : Nat) (numThreads : Int)
    (sched : List Nat) : Option (ColorMetrics × RGBAImage) :=
  let ndviColorImg := NewRGBA width height
  let pixelCount := width * height
  if numThreads ≤ 0 then none
  else
    let numWorkers := numThreads.toNat
    let chunkSize := (pixelCount + numWorkers - 1) / numWorkers
    let s0 : ColorPar :=
      { colorPix := ndviColorImg.Pix
        next := (List.range numWorkers).map (fun w => w * chunkSize) }
    match sched.foldlM (colorGoroutineStep ndviData chunkSize pixelCount) s0 with
    | none => none
    | some s =>
      if (List.range numWorkers).all (fun w =>
          decide (¬ s.next.getD w 0 < min (w * chunkSize + chunkSize) pixelCount)) then
        some ({ Time := 0, ImageSize := ((width * height * 4 : Nat) : Int) },
              { ndviColorImg with Pix := s.colorPix })
      else none

/-- The invariant of the goroutines of `Calculate` after the steps of the schedule `pre`. -/
def ParInv (nirData redData : List ℚ) (c p n : Nat) (pre : List Nat) (s : ParState) : Prop :=
  s.workers.length = n ∧ s.shared.ndviData.length = p ∧ s.shared.minVals.length = n ∧
    s.shared.maxVals.length = n ∧ s.shared.sums.length = n ∧
    s.shared.pixelsWithoutData.length = n ∧
    ∀ (w : Nat) (g : Goroutine), s.workers[w]? = some g →
      w * c ≤ g.i ∧ (g.i ≤ min (w * c + c) p ∨ g.i = w * c) ∧
      g.loc = (List.range' (w * c) (g.i - w * c)).foldl (localStep nirData redData) localInit ∧
      (g.done = true → ¬ g.i < min (w * c + c) p) ∧
      (g.done = true ∨ g.i = w * c + pre.count w) ∧
      s.shared.minVals[w]? = some (if g.done then g.loc.localMin else 0) ∧
      s.shared.maxVals[w]? = some (if g.done then g.loc.localMax else 0) ∧
      s.shared.sums[w]? = some (if g.done then g.loc.localSum else 0) ∧
      s.shared.pixelsWithoutData[w]? = some (if g.done then g.loc.localNoData else 0) ∧
      ∀ j : Nat, w * c ≤ j → j < min (w * c + c) p →
        s.shared.ndviData[j]? = some (if j < g.i then ndviAt nirData redData j else 0)

/-- The invariant of the goroutines of `Colorize` after the steps of the schedule `pre`. -/
def ColorInv (ndviData : List ℚ) (c p n : Nat) (pre : List Nat) (s : ColorPar) : Prop :=
  s.next.length = n ∧ s.colorPix.length = 4 * p ∧
    ∀ (w i : Nat), s.next[w]? = some i →
      w * c ≤ i ∧ (i ≤ min (w * c + c) p ∨ i = w * c) ∧
      (¬ i < min (w * c + c) p ∨ i = w * c + pre.count w) ∧
      ∀ j k : Nat, w * c ≤ j → j < min (w * c + c) p → k < 4 →
        s.colorPix[j * 4 + k]? = some (if j < i then byteAt ndviData (j * 4 + k) else 0)

/-- The shared slices of `Calculate` when all its workers have returned. -/
def joinedState (nirData redData : List ℚ) (c p n : Nat) : CalcState :=
  { ndviData := (List.range p).map (ndviAt nirData redData)
    minVals := (List.range n).map (fun w => (workerLocal nirData redData c p w).localMin)
    maxVals := (List.range n).map (fun w => (workerLocal nirData redData c p w).localMax)
    sums := (List.range n).map (fun w => (workerLocal nirData redData c p w).localSum)
    pixelsWithoutData :=
      (List.range n).map (fun w => (workerLocal nirData redData c p w).localNoData) }

/-! ## Lemmas -/

/-- With enough steps `log2Fuel` is the binary logarithm rounded down. -/
theorem log2Fuel_spec (fuel : Nat) :
    ∀ n : Nat, 1 ≤ n → n ≤ fuel →
      2 ^ log2Fuel fuel n ≤ n ∧ n < 2 ^ (log2Fuel fuel n + 1) := by
  induction fuel with
  | zero => intro n h1 h2; omega
  | succ fuel ih =>
    intro n h1 h2
    unfold log2Fuel
    by_cases hn : n < 2
    · rw [if_pos hn]
      have : n = 1 := by omega
      subst this
      decide
    · rw [if_neg hn]
      obtain ⟨hlo, hhi⟩ := ih (n / 2) (by omega) (by omega)
      constructor
      · rw [pow_succ]; omega
      · rw [pow_succ]; omega

/-- `floorLog2 x` is an exponent with `2 ^ floorLog2 x ≤ x`. -/
theorem floorLog2_le (x : ℚ) (hx : 0 < x) : (2 : ℚ) ^ floorLog2 x ≤ x := by
  unfold floorLog2
  simp only
  split_ifs with h
  · exact h
  · have hnum : 0 < x.num := Rat.num_pos.mpr hx
    have hna : 1 ≤ x.num.natAbs := by omega
    obtain ⟨hlo, _⟩ := log2Fuel_spec x.num.natAbs x.num.natAbs hna le_rfl
    obtain ⟨_, hhi⟩ := log2Fuel_spec x.den x.den x.den_pos le_rfl
    generalize log2Fuel x.num.natAbs x.num.natAbs = la at hlo ⊢
    generalize log2Fuel x.den x.den = lb at hhi ⊢
    have hx' : x = (x.num.natAbs : ℚ) / (x.den : ℚ) := by
      have h1 : ((x.num.natAbs : Int) : ℚ) = (x.num : ℚ) := by
        rw [Int.natAbs_of_nonneg hnum.le]
      have h2 : ((x.num.natAbs : Int) : ℚ) = (x.num.natAbs : ℚ) := Int.cast_natCast _
      rw [← h2, h1, Rat.num_div_den]
    have hden : (0 : ℚ) < (x.den : ℚ) := by exact_mod_cast x.den_pos
    have e : (2 : ℚ) ^ ((la : Int) - (lb : Int) - 1) = (2 : ℚ) ^ la / (2 : ℚ) ^ (lb + 1) := by
      have : ((la : Int) - (lb : Int) - 1) = (la : Int) - ((lb + 1 : Nat) : Int) := by
        push_cast; ring
      rw [this, zpow_sub₀ (by norm_num), zpow_natCast, zpow_natCast]
    rw [e, hx', div_le_div_iff₀ (by positivity) hden]
    have h1 : ((2 : ℚ) ^ la) ≤ (x.num.natAbs : ℚ) := by exact_mod_cast hlo
    have h2 : (x.den : ℚ) ≤ (2 : ℚ) ^ (lb + 1) := by exact_mod_cast hhi.le
    calc (2 : ℚ) ^ la * (x.den : ℚ) ≤ (x.num.natAbs : ℚ) * (x.den : ℚ) :=
          mul_le_mul_of_nonneg_right h1 hden.le
      _ ≤ (x.num.natAbs : ℚ) * (2 : ℚ) ^ (lb + 1) :=
          mul_le_mul_of_nonneg_left h2 (by positivity)

/-- Rounding to the nearest integer moves a value by at most one half. -/
theorem roundHalfEven_bounds (q : ℚ) :
    q - 1 / 2 ≤ (roundHalfEven q : ℚ) ∧ (roundHalfEven q : ℚ) ≤ q + 1 / 2 := by
  have h1 := Int.floor_le q
  have h2 := Int.lt_floor_add_one q
  unfold roundHalfEven
  split_ifs with ha hb hc
  · constructor <;> linarith
  · push_cast; constructor <;> linarith
  · constructor <;> linarith
  · push_cast; constructor <;> linarith

/-- An integer is rounded to itself. -/
theorem roundHalfEven_intCast (z : Int) : roundHalfEven (z : ℚ) = z := by
  unfold roundHalfEven
  rw [Int.floor_intCast, sub_self, if_pos (by norm_num)]

/-- `floorLog2 x` is an exponent with `x < 2 ^ (floorLog2 x + 1)`. -/
theorem floorLog2_lt (x : ℚ) (hx : 0 < x) : x < (2 : ℚ) ^ (floorLog2 x + 1) := by
  unfold floorLog2
  simp only
  have hnum : 0 < x.num := Rat.num_pos.mpr hx
  have hna : 1 ≤ x.num.natAbs := by omega
  obtain ⟨_, hhi⟩ := log2Fuel_spec x.num.natAbs x.num.natAbs hna le_rfl
  obtain ⟨hlo, _⟩ := log2Fuel_spec x.den x.den x.den_pos le_rfl
  generalize log2Fuel x.num.natAbs x.num.natAbs = la at hhi ⊢
  generalize log2Fuel x.den x.den = lb at hlo ⊢
  split_ifs with h
  · have hx' : x = (x.num.natAbs : ℚ) / (x.den : ℚ) := by
      have h1 : ((x.num.natAbs : Int) : ℚ) = (x.num : ℚ) := by
        rw [Int.natAbs_of_nonneg hnum.le]
      have h2 : ((x.num.natAbs : Int) : ℚ) = (x.num.natAbs : ℚ) := Int.cast_natCast _
      rw [← h2, h1, Rat.num_div_den]
    have hden : (0 : ℚ) < (x.den : ℚ) := by exact_mod_cast x.den_pos
    have e : (2 : ℚ) ^ ((la : Int) - (lb : Int) + 1) = (2 : ℚ) ^ (la + 1) / (2 : ℚ) ^ lb := by
      have : ((la : Int) - (lb : Int) + 1) = ((la + 1 : Nat) : Int) - ((lb : Nat) : Int) := by
        push_cast; ring
      rw [this, zpow_sub₀ (by norm_num), zpow_natCast, zpow_natCast]
    rw [e]
    nth_rewrite 1 [hx']
    rw [div_lt_div_iff₀ hden (by positivity)]
    have h1 : (x.num.natAbs : ℚ) < (2 : ℚ) ^ (la + 1) := by exact_mod_cast hhi
    have h2 : ((2 : ℚ) ^ lb) ≤ (x.den : ℚ) := by exact_mod_cast hlo
    calc (x.num.natAbs : ℚ) * (2 : ℚ) ^ lb ≤ (x.num.natAbs : ℚ) * (x.den : ℚ) :=
          mul_le_mul_of_nonneg_left h2 (by positivity)
      _ < (2 : ℚ) ^ (la + 1) * (x.den : ℚ) := mul_lt_mul_of_pos_right h1 hden
  · have : (la : Int) - (lb : Int) - 1 + 1 = (la : Int) - (lb : Int) := by ring
    rw [this]
    exact lt_of_not_le h

/-- The exponent `floorLog2 x` is the only `e` with `2^e ≤ x < 2^(e+1)`. -/
theorem floorLog2_unique (x : ℚ) (e : Int) (h1 : (2 : ℚ) ^ e ≤ x) (h2 : x < (2 : ℚ) ^ (e + 1)) :
    floorLog2 x = e := by
  have hx : 0 < x := lt_of_lt_of_le (by positivity) h1
  have a := floorLog2_le x hx
  have b := floorLog2_lt x hx
  have c1 : (2 : ℚ) ^ e < 2 ^ (floorLog2 x + 1) := lt_of_le_of_lt h1 b
  have c2 : (2 : ℚ) ^ (floorLog2 x) < 2 ^ (e + 1) := lt_of_le_of_lt a h2
  have d1 := (zpow_lt_zpow_iff_right₀ (by norm_num : (1 : ℚ) < 2)).mp c1
  have d2 := (zpow_lt_zpow_iff_right₀ (by norm_num : (1 : ℚ) < 2)).mp c2
  omega

/-- Rounding to the nearest integer is monotone. -/
theorem roundHalfEven_mono (a b : ℚ) (h : a ≤ b) : roundHalfEven a ≤ roundHalfEven b := by
  have hf : ⌊a⌋ ≤ ⌊b⌋ := Int.floor_mono h
  have ha1 := Int.floor_le a
  have ha2 := Int.lt_floor_add_one a
  have hb1 := Int.floor_le b
  have hb2 := Int.lt_floor_add_one b
  rcases hf.eq_or_lt with he | hl
  · unfold roundHalfEven
    rw [← he]
    rw [← he] at hb1 hb2
    split_ifs <;> first | omega | (exfalso; linarith)
  · have h1 : roundHalfEven a ≤ ⌊a⌋ + 1 := by unfold roundHalfEven; split_ifs <;> omega
    have h2 : ⌊b⌋ ≤ roundHalfEven b := by unfold roundHalfEven; split_ifs <;> omega
    omega

theorem round53_zero : round53 0 = 0 := by
  simp [round53]

theorem round53_of_pos (x : ℚ) (hx : 0 < x) :
    round53 x =
      (roundHalfEven (x / (2 : ℚ) ^ (floorLog2 x - 52)) : ℚ) * (2 : ℚ) ^ (floorLog2 x - 52) := by
  unfold round53
  simp only [if_neg hx.ne', abs_of_pos hx, if_pos hx]

/-- Rounding commutes with the change of sign. -/
theorem round53_neg (x : ℚ) : round53 (-x) = -round53 x := by
  rcases lt_trichotomy x 0 with h | h | h
  · have h1 : 0 < -x := by linarith
    unfold round53
    simp only [if_neg h1.ne', if_neg h.ne, abs_neg, if_pos h1, if_neg (not_lt.mpr h.le), neg_neg]
  · subst h
    simp [round53_zero]
  · have h1 : -x < 0 := by linarith
    unfold round53
    simp only [if_neg h1.ne, if_neg h.ne', abs_neg, if_pos h, if_neg (not_lt.mpr h1.le)]

theorem zpow_sub_52 (e : Int) : (2 : ℚ) ^ (e - 52) = (2 : ℚ) ^ e / 2 ^ 52 := by
  rw [zpow_sub₀ (by norm_num)]
  norm_cast

/-- The significand of a positive value: an integer between `2^52` and `2^53`. -/
theorem significand_bounds (x : ℚ) (hx : 0 < x) :
    (2 : Int) ^ 52 ≤ roundHalfEven (x / (2 : ℚ) ^ (floorLog2 x - 52)) ∧
      roundHalfEven (x / (2 : ℚ) ^ (floorLog2 x - 52)) ≤ (2 : Int) ^ 53 := by
  have h1 := floorLog2_le x hx
  have h2 := floorLog2_lt x hx
  generalize floorLog2 x = e at h1 h2 ⊢
  have hE : (0 : ℚ) < (2 : ℚ) ^ e := by positivity
  rw [zpow_add_one₀ (by norm_num)] at h2
  rw [zpow_sub_52]
  have e1 : (((2 : Int) ^ 52 : Int) : ℚ) ≤ x / ((2 : ℚ) ^ e / 2 ^ 52) := by
    rw [le_div_iff₀ (by positivity)]
    push_cast
    have : (2 : ℚ) ^ 52 * ((2 : ℚ) ^ e / 2 ^ 52) = (2 : ℚ) ^ e := by field_simp
    linarith
  have e2 : x / ((2 : ℚ) ^ e / 2 ^ 52) ≤ (((2 : Int) ^ 53 : Int) : ℚ) := by
    rw [div_le_iff₀ (by positivity)]
    push_cast
    have : (2 : ℚ) ^ 53 * ((2 : ℚ) ^ e / 2 ^ 52) = (2 : ℚ) ^ e * 2 := by field_simp; ring
    linarith
  have m1 := roundHalfEven_mono _ _ e1
  have m2 := roundHalfEven_mono _ _ e2
  rw [roundHalfEven_intCast] at m1 m2
  exact ⟨m1, m2⟩

/-- The rounded value of `x > 0` lies in the binade of `x`, ends included. -/
theorem round53_bounds (x : ℚ) (hx : 0 < x) :
    (2 : ℚ) ^ floorLog2 x ≤ round53 x ∧ round53 x ≤ (2 : ℚ) ^ (floorLog2 x + 1) := by
  obtain ⟨s1, s2⟩ := significand_bounds x hx
  rw [round53_of_pos x hx]
  generalize roundHalfEven (x / (2 : ℚ) ^ (floorLog2 x - 52)) = N at s1 s2 ⊢
  generalize floorLog2 x = e
  have hE : (0 : ℚ) < (2 : ℚ) ^ e := by positivity
  have q1 : ((2 : ℚ) ^ 52) ≤ (N : ℚ) := by exact_mod_cast s1
  have q2 : (N : ℚ) ≤ ((2 : ℚ) ^ 53) := by exact_mod_cast s2
  rw [zpow_sub_52, zpow_add_one₀ (by norm_num)]
  constructor
  · have : (2 : ℚ) ^ e = 2 ^ 52 * ((2 : ℚ) ^ e / 2 ^ 52) := by field_simp
    calc (2 : ℚ) ^ e = 2 ^ 52 * ((2 : ℚ) ^ e / 2 ^ 52) := this
      _ ≤ (N : ℚ) * ((2 : ℚ) ^ e / 2 ^ 52) := mul_le_mul_of_nonneg_right q1 (by positivity)
  · have : (2 : ℚ) ^ e * 2 = 2 ^ 53 * ((2 : ℚ) ^ e / 2 ^ 52) := by field_simp; ring
    calc (N : ℚ) * ((2 : ℚ) ^ e / 2 ^ 52) ≤ 2 ^ 53 * ((2 : ℚ) ^ e / 2 ^ 52) :=
          mul_le_mul_of_nonneg_right q2 (by positivity)
      _ = (2 : ℚ) ^ e * 2 := this.symm

theorem round53_pos (x : ℚ) (hx : 0 < x) : 0 < round53 x :=
  lt_of_lt_of_le (by positivity) (round53_bounds x hx).1

theorem round53_nonneg (x : ℚ) (hx : 0 ≤ x) : 0 ≤ round53 x := by
  rcases hx.eq_or_lt with h | h
  · rw [← h, round53_zero]
  · exact (round53_pos x h).le

theorem round53_nonpos (x : ℚ) (hx : x ≤ 0) : round53 x ≤ 0 := by
  have := round53_nonneg (-x) (by linarith)
  rw [round53_neg] at this
  linarith

/-- Rounding keeps the sign: the rounded value is positive exactly when the value is. -/
theorem round53_pos_iff (x : ℚ) : 0 < round53 x ↔ 0 < x := by
  constructor
  · intro h
    by_contra hc
    have := round53_nonpos x (not_lt.mp hc)
    linarith
  · exact round53_pos x

theorem fadd_pos_iff (x y : ℚ) : fadd x y > 0 ↔ x + y > 0 := round53_pos_iff (x + y)

theorem round53_mono_pos (x y : ℚ) (hx : 0 < x) (h : x ≤ y) : round53 x ≤ round53 y := by
  have hy : 0 < y := lt_of_lt_of_le hx h
  have x1 := floorLog2_le x hx
  have x2 := floorLog2_lt x hx
  have y1 := floorLog2_le y hy
  have y2 := floorLog2_lt y hy
  have hef : floorLog2 x < floorLog2 y + 1 :=
    (zpow_lt_zpow_iff_right₀ (by norm_num : (1 : ℚ) < 2)).mp (lt_of_le_of_lt (x1.trans h) y2)
  rcases (Int.lt_add_one_iff.mp hef).eq_or_lt with he | hl
  · rw [round53_of_pos x hx, round53_of_pos y hy, ← he]
    have hu : (0 : ℚ) < (2 : ℚ) ^ (floorLog2 x - 52) := by positivity
    have := roundHalfEven_mono (x / (2 : ℚ) ^ (floorLog2 x - 52)) (y / (2 : ℚ) ^ (floorLog2 x - 52))
      (div_le_div_of_nonneg_right h hu.le)
    exact mul_le_mul_of_nonneg_right (by exact_mod_cast this) hu.le
  · have b1 := (round53_bounds x hx).2
    have b2 := (round53_bounds y hy).1
    have : (2 : ℚ) ^ (floorLog2 x + 1) ≤ (2 : ℚ) ^ floorLog2 y :=
      zpow_le_zpow_right₀ (by norm_num) (by omega)
    linarith

/-- Rounding is monotone. -/
theorem round53_mono (x y : ℚ) (h : x ≤ y) : round53 x ≤ round53 y := by
  rcases lt_trichotomy 0 x with hx | hx | hx
  · exact round53_mono_pos x y hx h
  · rw [← hx, round53_zero]
    exact round53_nonneg y (by linarith)
  · rcases le_or_lt 0 y with hy | hy
    · exact (round53_nonpos x hx.le).trans (round53_nonneg y hy)
    · have := round53_mono_pos (-y) (-x) (by linarith) (by linarith)
      rw [round53_neg, round53_neg] at this
      linarith

/-- A value of magnitude at most `b` is rounded to a value of magnitude at most the rounded
`b`. -/
theorem round53_abs_le (x b : ℚ) (h : |x| ≤ b) : |round53 x| ≤ round53 b := by
  rw [abs_le] at h ⊢
  have h1 := round53_mono _ _ h.1
  rw [round53_neg] at h1
  exact ⟨h1, round53_mono _ _ h.2⟩

/-- A significand between `2^52` and `2^53` times a power of two is a `float64` value: rounding
leaves it as it is. -/
theorem round53_significand (N e : Int) (h1 : (2 : Int) ^ 52 ≤ N) (h2 : N ≤ (2 : Int) ^ 53) :
    round53 ((N : ℚ) * (2 : ℚ) ^ (e - 52)) = (N : ℚ) * (2 : ℚ) ^ (e - 52) := by
  have q1 : ((2 : ℚ) ^ 52) ≤ (N : ℚ) := by exact_mod_cast h1
  have q2 : (N : ℚ) ≤ ((2 : ℚ) ^ 53) := by exact_mod_cast h2
  have hE : (0 : ℚ) < (2 : ℚ) ^ e := by positivity
  have hu : (0 : ℚ) < (2 : ℚ) ^ (e - 52) := by positivity
  have hpos : 0 < (N : ℚ) * (2 : ℚ) ^ (e - 52) := mul_pos (by linarith [show (0:ℚ) < 2 ^ 52 by positivity]) hu
  rcases h2.eq_or_lt with h3 | h3
  · have hval : (N : ℚ) * (2 : ℚ) ^ (e - 52) = (2 : ℚ) ^ (e + 1) := by
      rw [h3, zpow_sub_52, zpow_add_one₀ (by norm_num)]
      push_cast
      field_simp
      ring
    have hfl : floorLog2 ((N : ℚ) * (2 : ℚ) ^ (e - 52)) = e + 1 := by
      apply floorLog2_unique
      · rw [hval]
      · rw [hval]
        exact zpow_lt_zpow_right₀ (by norm_num) (by omega)
    rw [round53_of_pos _ hpos, hfl, hval]
    have : (2 : ℚ) ^ (e + 1) / (2 : ℚ) ^ (e + 1 - 52) = (((2 : Int) ^ 52 : Int) : ℚ) := by
      rw [zpow_sub_52]
      push_cast
      field_simp
      norm_num
    rw [this, roundHalfEven_intCast, zpow_sub_52]
    push_cast
    field_simp
    ring
  · have q3 : (N : ℚ) < ((2 : ℚ) ^ 53) := by exact_mod_cast h3
    have hfl : floorLog2 ((N : ℚ) * (2 : ℚ) ^ (e - 52)) = e := by
      apply floorLog2_unique
      · rw [zpow_sub_52]
        have : (2 : ℚ) ^ e = 2 ^ 52 * ((2 : ℚ) ^ e / 2 ^ 52) := by field_simp
        calc (2 : ℚ) ^ e = 2 ^ 52 * ((2 : ℚ) ^ e / 2 ^ 52) := this
          _ ≤ (N : ℚ) * ((2 : ℚ) ^ e / 2 ^ 52) := mul_le_mul_of_nonneg_right q1 (by positivity)
      · rw [zpow_sub_52, zpow_add_one₀ (by norm_num)]
        have : (2 : ℚ) ^ e * 2 = 2 ^ 53 * ((2 : ℚ) ^ e / 2 ^ 52) := by field_simp; ring
        calc (N : ℚ) * ((2 : ℚ) ^ e / 2 ^ 52) < 2 ^ 53 * ((2 : ℚ) ^ e / 2 ^ 52) :=
              mul_lt_mul_of_pos_right q3 (by positivity)
          _ = (2 : ℚ) ^ e * 2 := this.symm
    rw [round53_of_pos _ hpos, hfl, mul_div_assoc, div_self hu.ne', mul_one,
      roundHalfEven_intCast]

/-- Rounding a rounded value changes nothing: the result of an operation is a `float64`
value. -/
theorem round53_idem (x : ℚ) : round53 (round53 x) = round53 x := by
  have key : ∀ y : ℚ, 0 < y → round53 (round53 y) = round53 y := by
    intro y hy
    obtain ⟨s1, s2⟩ := significand_bounds y hy
    rw [round53_of_pos y hy]
    exact round53_significand _ _ s1 s2
  rcases lt_trichotomy 0 x with hx | hx | hx
  · exact key x hx
  · rw [← hx, round53_zero, round53_zero]
  · have := key (-x) (by linarith)
    rw [round53_neg, round53_neg] at this
    linarith

theorem round53_one : round53 1 = 1 := by decide!

theorem round53_neg_one : round53 (-1) = -1 := by decide!

theorem round53_abs (x : ℚ) : |round53 x| = round53 |x| := by
  rcases le_or_lt 0 x with h | h
  · rw [abs_of_nonneg h, abs_of_nonneg (round53_nonneg x h)]
  · rw [abs_of_neg h, round53_neg, abs_of_nonpos (round53_nonpos x h.le)]

/-- In the range of the normal `float64` values, from `2^-1022` to `2^1023`, the rounding with
the exponent range of IEEE 754 returns the finite value `round53` returns. -/
theorem roundFloat64_eq_round53 (x : ℚ) (h1 : 1 / 2 ^ 1022 ≤ |x|) (h2 : |x| ≤ 2 ^ 1023) :
    roundFloat64 x = Float64.fin (round53 x) := by
  have hx0 : x ≠ 0 := by
    intro h
    rw [h, abs_zero] at h1
    exact absurd h1 (not_le.mpr (by positivity))
  have habs : 0 < |x| := abs_pos.mpr hx0
  have e0 : (2 : ℚ) ^ (-1022 : Int) = 1 / 2 ^ 1022 := by
    rw [show (-1022 : Int) = -((1022 : Nat) : Int) by norm_num, zpow_neg, zpow_natCast]
    norm_num
  have hfl : -1022 ≤ floorLog2 |x| := by
    have h3 := lt_of_le_of_lt h1 (floorLog2_lt |x| habs)
    rw [← e0] at h3
    have := (zpow_lt_zpow_iff_right₀ (by norm_num : (1 : ℚ) < 2)).mp h3
    omega
  have e5 : round53 (2 ^ 1023) = 2 ^ 1023 := by decide!
  have hy : round53 |x| ≤ MaxFloat64 := by
    have := round53_mono _ _ h2
    rw [e5] at this
    have hM : (2 : ℚ) ^ 1023 ≤ MaxFloat64 := by unfold MaxFloat64; norm_num
    exact this.trans hM
  rw [round53_of_pos _ habs] at hy
  unfold roundFloat64 round53
  simp only [if_neg hx0, max_eq_left hfl]
  rw [if_neg (not_lt.mpr hy)]

theorem roundFloat64_round53_zero : roundFloat64 0 = Float64.fin (round53 0) := by
  rw [round53_zero]
  simp [roundFloat64]

theorem pixelStep_eq (nirData redData : List ℚ) (st : List ℚ × WorkerLocal) (i : Nat)
    (hn : i < nirData.length) (hr : i < redData.length) (hd : i < st.1.length) :
    pixelStep nirData redData st i =
      some (st.1.set i (ndviAt nirData redData i), localStep nirData redData st.2 i) := by
  simp [pixelStep, localStep, ndviAt, pixelNDVI, List.getElem?_eq_getElem, hn, hr, hd,
    List.getD_eq_getElem]

theorem foldlM_pixelStep (nirData redData : List ℚ) (is : List Nat) :
    ∀ (data : List ℚ) (loc : WorkerLocal),
      (∀ i ∈ is, i < nirData.length ∧ i < redData.length ∧ i < data.length) →
      is.foldlM (pixelStep nirData redData) (data, loc) =
        some (is.foldl (fun d i => d.set i (ndviAt nirData redData i)) data,
              is.foldl (localStep nirData redData) loc) := by
  induction is with
  | nil => intro data loc _; rfl
  | cons i is ih =>
    intro data loc h
    have hi := h i (List.mem_cons_self _ _)
    rw [List.foldlM_cons, pixelStep_eq _ _ _ _ hi.1 hi.2.1 hi.2.2]
    simp only [Option.some_bind, List.foldl_cons]
    apply ih
    intro j hj
    have := h j (List.mem_cons_of_mem _ hj)
    simpa using this

theorem getElem?_foldl_set {α : Type} (f : Nat → α) (is : List Nat) :
    ∀ (l : List α) (j : Nat),
      (is.foldl (fun d i => d.set i (f i)) l)[j]? =
        if j ∈ is ∧ j < l.length then some (f j) else l[j]? := by
  induction is with
  | nil => intro l j; simp
  | cons i is ih =>
    intro l j
    rw [List.foldl_cons, ih]
    simp only [List.length_set, List.mem_cons, List.getElem?_set]
    by_cases hl : j < l.length
    · by_cases hj : j ∈ is
      · simp [hj, hl]
      · by_cases hij : i = j
        · subst hij; simp [hj, hl]
        · have : ¬ j = i := fun h => hij h.symm
          simp [hj, hl, hij, this]
    · have : l[j]? = none := by simp [List.getElem?_eq_none_iff]; omega
      by_cases hij : i = j
      · subst hij; simp [hl, this]
      · simp [hl, this, hij]

theorem length_foldl_set {α : Type} (f : Nat → α) (is : List Nat) :
    ∀ (l : List α), (is.foldl (fun d i => d.set i (f i)) l).length = l.length := by
  induction is with
  | nil => intro l; rfl
  | cons i is ih => intro l; rw [List.foldl_cons, ih, List.length_set]

theorem mem_chunkIdx_lt {chunkSize pixelCount w i : Nat} (h : i ∈ chunkIdx chunkSize pixelCount w) :
    i < pixelCount := by
  unfold chunkIdx at h
  rw [List.mem_range'_1] at h
  omega

theorem foldlM_workerStep (nirData redData : List ℚ) (chunkSize pixelCount : Nat)
    (hn : pixelCount ≤ nirData.length) (hr : pixelCount ≤ redData.length) (ws : List Nat) :
    ∀ st : CalcState, pixelCount ≤ st.ndviData.length →
      ws.foldlM (workerStep nirData redData chunkSize pixelCount) st =
        some { ndviData := (ws.flatMap (chunkIdx chunkSize pixelCount)).foldl
                 (fun d i => d.set i (ndviAt nirData redData i)) st.ndviData
               minVals := ws.foldl (fun l w => l.set w
                 (workerLocal nirData redData chunkSize pixelCount w).localMin) st.minVals
               maxVals := ws.foldl (fun l w => l.set w
                 (workerLocal nirData redData chunkSize pixelCount w).localMax) st.maxVals
               sums := ws.foldl (fun l w => l.set w
                 (workerLocal nirData redData chunkSize pixelCount w).localSum) st.sums
               pixelsWithoutData := ws.foldl (fun l w => l.set w
                 (workerLocal nirData redData chunkSize pixelCount w).localNoData)
                 st.pixelsWithoutData } := by
  induction ws with
  | nil => intro st _; rfl
  | cons w ws ih =>
    intro st hst
    have hrun : runWorker nirData redData (w * chunkSize)
        (min (w * chunkSize + chunkSize) pixelCount) st.ndviData =
        some ((chunkIdx chunkSize pixelCount w).foldl
            (fun d i => d.set i (ndviAt nirData redData i)) st.ndviData,
          workerLocal nirData redData chunkSize pixelCount w) := by
      unfold runWorker
      apply foldlM_pixelStep
      intro i hi
      have := mem_chunkIdx_lt hi
      omega
    rw [List.foldlM_cons]
    simp only [workerStep, hrun]
    change List.foldlM _ _ ws = _
    rw [ih]
    · simp only [List.flatMap_cons, List.foldl_append, List.foldl_cons]
    · simp only [length_foldl_set]; exact hst

theorem foldlM_reduceStep (minVals maxVals sums : List ℚ) (is : List Nat)
    (h : ∀ i ∈ is, i < minVals.length ∧ i < maxVals.length ∧ i < sums.length) :
    ∀ acc, is.foldlM (reduceStep minVals maxVals sums) acc =
      some (is.foldl (reducePure minVals maxVals sums) acc) := by
  induction is with
  | nil => intro acc; rfl
  | cons i is ih =>
    intro acc
    have hi := h i (List.mem_cons_self _ _)
    have hstep : reduceStep minVals maxVals sums acc i =
        some (reducePure minVals maxVals sums acc i) := by
      simp [reduceStep, reducePure, List.getElem?_eq_getElem, hi.1, hi.2.1, hi.2.2,
        List.getD_eq_getElem]
    rw [List.foldlM_cons, hstep]
    change List.foldlM _ _ is = _
    rw [ih (fun j hj => h j (List.mem_cons_of_mem _ hj)), List.foldl_cons]

/-- The chunks of the workers `0 .. k-1` are, in order, the indices below `min (k*chunkSize)
pixelCount`. -/
theorem flatMap_chunkIdx (chunkSize pixelCount : Nat) (k : Nat) :
    (List.range k).flatMap (chunkIdx chunkSize pixelCount) =
      List.range (min (k * chunkSize) pixelCount) := by
  induction k with
  | zero => simp
  | succ k ih =>
    rw [List.range_succ, List.flatMap_append, ih]
    simp only [List.flatMap_cons, List.flatMap_nil, List.append_nil, chunkIdx]
    rcases Nat.lt_or_ge pixelCount (k * chunkSize) with h | h
    · have e1 : min (k * chunkSize) pixelCount = pixelCount := by omega
      have e2 : min (k * chunkSize + chunkSize) pixelCount - k * chunkSize = 0 := by omega
      have e3 : min ((k + 1) * chunkSize) pixelCount = pixelCount := by
        rw [Nat.succ_mul]; omega
      rw [e1, e2, e3]; simp
    · have e1 : min (k * chunkSize) pixelCount = k * chunkSize := by omega
      rw [e1, List.range_eq_range', List.range_eq_range']
      have := List.range'_append 0 (k * chunkSize)
        (min (k * chunkSize + chunkSize) pixelCount - k * chunkSize) 1
      simp only [Nat.zero_add, Nat.one_mul] at this
      rw [this]
      congr 1
      rw [Nat.succ_mul]; omega

/-- With `chunkSize = ceil(pixelCount / numWorkers)` the chunks cover every pixel. -/
theorem pixelCount_le_chunks (pixelCount numWorkers : Nat) (h : 0 < numWorkers) :
    pixelCount ≤ numWorkers * ((pixelCount + numWorkers - 1) / numWorkers) := by
  have h1 := Nat.div_add_mod (pixelCount + numWorkers - 1) numWorkers
  have h2 := Nat.mod_lt (pixelCount + numWorkers - 1) h
  omega

theorem foldl_set_replicate {α : Type} (g : Nat → α) (a : α) (n : Nat) :
    (List.range n).foldl (fun l w => l.set w (g w)) (List.replicate n a) =
      (List.range n).map g := by
  apply List.ext_getElem?
  intro j
  rw [getElem?_foldl_set, List.getElem?_map, List.getElem?_replicate, List.length_replicate]
  by_cases hj : j < n
  · simp [hj, List.getElem?_range hj]
  · have : (List.range n)[j]? = none := by
      rw [List.getElem?_eq_none_iff]; simp; omega
    simp [hj, this]

theorem foldl_reducePure (minVals maxVals sums : List ℚ) (is : List Nat) :
    ∀ acc : ℚ × ℚ × ℚ, is.foldl (reducePure minVals maxVals sums) acc =
      ((is.map (fun i => minVals.getD i 0)).foldl minStep acc.1,
       (is.map (fun i => maxVals.getD i 0)).foldl maxStep acc.2.1,
       (is.map (fun i => sums.getD i 0)).foldl fadd acc.2.2) := by
  induction is with
  | nil => intro acc; rfl
  | cons i is ih =>
    intro acc
    rw [List.foldl_cons, ih]
    rfl

theorem getD_map_range {α : Type} (g : Nat → α) (a : α) (n i : Nat) (h : i < n) :
    ((List.range n).map g).getD i a = g i := by
  rw [List.getD_eq_getElem?_getD, List.getElem?_map, List.getElem?_range h]
  rfl

theorem map_getD_range' {α : Type} (g : Nat → α) (a : α) (n : Nat) :
    (List.range' 1 (n - 1)).map (fun i => ((List.range n).map g).getD i a) =
      (List.range' 1 (n - 1)).map g := by
  apply List.map_congr_left
  intro i hi
  rw [List.mem_range'_1] at hi
  exact getD_map_range g a n i (by omega)

/-- The value `Calculate` returns on well-formed input, in terms of the workers' local results. -/
theorem Calculate_eq (nirBand redBand : BandResult) (numThreads : Int) (nirData redData : List ℚ)
    (hW : nirBand.Image.Width = redBand.Image.Width)
    (hH : nirBand.Image.Height = redBand.Image.Height)
    (hn : nirBand.Image.Data[0]? = some nirData) (hr : redBand.Image.Data[0]? = some redData)
    (hln : nirBand.Image.Width * nirBand.Image.Height ≤ nirData.length)
    (hlr : nirBand.Image.Width * nirBand.Image.Height ≤ redData.length)
    (hw : 1 ≤ numThreads) :
    Calculate nirBand redBand numThreads =
      some
        { metrics := some
            { Time := 0
              TotalPixels := nirBand.Image.Width * nirBand.Image.Height
              NoDataPixels := ((List.range numThreads.toNat).map (fun w =>
                (workerLocal nirData redData
                  ((nirBand.Image.Width * nirBand.Image.Height + numThreads.toNat - 1) /
                    numThreads.toNat)
                  (nirBand.Image.Width * nirBand.Image.Height) w).localNoData)).foldl (· + ·) 0
              Min := ((List.range' 1 (numThreads.toNat - 1)).map (fun w =>
                (workerLocal nirData redData
                  ((nirBand.Image.Width * nirBand.Image.Height + numThreads.toNat - 1) /
                    numThreads.toNat)
                  (nirBand.Image.Width * nirBand.Image.Height) w).localMin)).foldl minStep
                (workerLocal nirData redData
                  ((nirBand.Image.Width * nirBand.Image.Height + numThreads.toNat - 1) /
                    numThreads.toNat)
                  (nirBand.Image.Width * nirBand.Image.Height) 0).localMin
              Max := ((List.range' 1 (numThreads.toNat - 1)).map (fun w =>
                (workerLocal nirData redData
                  ((nirBand.Image.Width * nirBand.Image.Height + numThreads.toNat - 1) /
                    numThreads.toNat)
                  (nirBand.Image.Width * nirBand.Image.Height) w).localMax)).foldl maxStep
                (workerLocal nirData redData
                  ((nirBand.Image.Width * nirBand.Image.Height + numThreads.toNat - 1) /
                    numThreads.toNat)
                  (nirBand.Image.Width * nirBand.Image.Height) 0).localMax
              Average := (Float64.fin (((List.range' 1 (numThreads.toNat - 1)).map (fun w =>
                (workerLocal nirData redData
                  ((nirBand.Image.Width * nirBand.Image.Height + numThreads.toNat - 1) /
                    numThreads.toNat)
                  (nirBand.Image.Width * nirBand.Image.Height) w).localSum)).foldl fadd
                (workerLocal nirData redData
                  ((nirBand.Image.Width * nirBand.Image.Height + numThreads.toNat - 1) /
                    numThreads.toNat)
                  (nirBand.Image.Width * nirBand.Image.Height) 0).localSum)).div
                (float64OfInt ((nirBand.Image.Width * nirBand.Image.Height : Nat) : Int)) }
          data := some ((List.range (nirBand.Image.Width * nirBand.Image.Height)).map
            (ndviAt nirData redData))
          err := none } := by
  obtain ⟨n, rfl⟩ : ∃ n : Nat, numThreads = n := ⟨numThreads.toNat, by omega⟩
  have hn0 : 0 < n := by omega
  simp only [Int.toNat_ofNat]
  generalize hp : nirBand.Image.Width * nirBand.Image.Height = p at *
  generalize hcs : (p + n - 1) / n = cs
  have hcover : min (n * cs) p = p := by
    have := pixelCount_le_chunks p n hn0
    rw [hcs] at this; omega
  unfold Calculate
  have hcond : ¬ (nirBand.Image.Width ≠ redBand.Image.Width ∨
      nirBand.Image.Height ≠ redBand.Image.Height) := by simp [hW, hH]
  have hnt : ¬ ((n : Int) ≤ 0) := by omega
  rw [if_neg hcond]
  simp only [hnt, if_false, hn, hr, Int.toNat_ofNat, ← hH, hp, hcs]
  rw [foldlM_workerStep nirData redData cs p hln hlr (List.range n) _ (by simp)]
  simp only [flatMap_chunkIdx, hcover, foldl_set_replicate]
  have h0 : ∀ g : Nat → ℚ, ((List.range n).map g)[0]? = some (g 0) := by
    intro g; rw [List.getElem?_map, List.getElem?_range hn0]; rfl
  simp only [h0]
  rw [foldlM_reduceStep]
  · simp only [foldl_reducePure, map_getD_range']
  · intro i hi
    rw [List.mem_range'_1] at hi
    simp only [List.length_map, List.length_range]
    omega

theorem foldl_localStep (nirData redData : List ℚ) (is : List Nat) :
    ∀ loc : WorkerLocal, is.foldl (localStep nirData redData) loc =
      { localMin := (is.map (ndviAt nirData redData)).foldl minStep loc.localMin
        localMax := (is.map (ndviAt nirData redData)).foldl maxStep loc.localMax
        localSum := (is.map (ndviAt nirData redData)).foldl fadd loc.localSum
        localNoData := loc.localNoData +
          is.countP (fun i => decide (¬ nirData.getD i 0 + redData.getD i 0 > 0)) } := by
  induction is with
  | nil => intro loc; rfl
  | cons i is ih =>
    intro loc
    rw [List.foldl_cons, ih]
    by_cases h : nirData.getD i 0 + redData.getD i 0 > 0
    · have hf := (fadd_pos_iff _ _).mpr h
      simp [localStep, minStep, maxStep, h, hf, List.countP_cons, -List.getD_eq_getElem?_getD]
    · have h' : nirData.getD i 0 + redData.getD i 0 ≤ 0 := not_lt.mp h
      have hf : ¬ fadd (nirData.getD i 0) (redData.getD i 0) > 0 :=
        fun hc => h ((fadd_pos_iff _ _).mp hc)
      have hf' : fadd (nirData.getD i 0) (redData.getD i 0) ≤ 0 := not_lt.mp hf
      simp [localStep, minStep, maxStep, h, h', hf, hf', List.countP_cons,
        -List.getD_eq_getElem?_getD]
      omega

theorem zipWith_eq_map_range {α : Type} (f : ℚ → ℚ → α) (nirData redData : List ℚ) (p : Nat)
    (hn : nirData.length = p) (hr : redData.length = p) :
    List.zipWith f nirData redData =
      (List.range p).map (fun i => f (nirData.getD i 0) (redData.getD i 0)) := by
  apply List.ext_getElem?
  intro j
  rw [List.getElem?_zipWith, List.getElem?_map]
  by_cases hj : j < p
  · rw [List.getElem?_range hj, List.getElem?_eq_getElem (by omega),
      List.getElem?_eq_getElem (by omega)]
    simp [List.getD_eq_getElem, hn, hr, hj]
  · have h1 : nirData[j]? = none := by rw [List.getElem?_eq_none_iff]; omega
    have h2 : (List.range p)[j]? = none := by rw [List.getElem?_eq_none_iff]; simp; omega
    rw [h1, h2]; rfl

theorem ndviAt_eq (nirData redData : List ℚ) (i : Nat) (n r : ℚ)
    (hn : nirData[i]? = some n) (hr : redData[i]? = some r) :
    ndviAt nirData redData i = if n + r > 0 then fdiv (fsub n r) (fadd n r) else 0 := by
  by_cases h : n + r > 0
  · have hf := (fadd_pos_iff _ _).mpr h
    simp [ndviAt, pixelNDVI, List.getD_eq_getElem?_getD, hn, hr, h, hf]
  · have hf : ¬ fadd n r > 0 := fun hc => h ((fadd_pos_iff _ _).mp hc)
    simp only [ndviAt, pixelNDVI, List.getD_eq_getElem?_getD, hn, hr, Option.getD_some, if_neg h,
      if_neg hf]

theorem nodata_sum (nirData redData : List ℚ) (cs p n : Nat) (hcover : min (n * cs) p = p) :
    ((List.range n).map (fun w => (workerLocal nirData redData cs p w).localNoData)).foldl
        (· + ·) 0 =
      (List.range p).countP (fun i => decide (¬ nirData.getD i 0 + redData.getD i 0 > 0)) := by
  have h := List.countP_flatMap
    (fun i => decide (¬ nirData.getD i 0 + redData.getD i 0 > 0)) (List.range n) (chunkIdx cs p)
  rw [flatMap_chunkIdx, hcover] at h
  rw [h, List.sum_eq_foldl]
  congr 1
  apply List.map_congr_left
  intro w _
  simp [workerLocal, foldl_localStep, localInit]

theorem range_eq_cons (n : Nat) (h : 0 < n) : List.range n = 0 :: List.range' 1 (n - 1) := by
  obtain ⟨k, rfl⟩ : ∃ k, n = k + 1 := ⟨n - 1, by omega⟩
  rw [List.range_eq_range', List.range'_succ]
  simp

theorem take_drop_range (p s cs : Nat) :
    ((List.range p).drop s).take cs = List.range' s (min (s + cs) p - s) := by
  apply List.ext_getElem?
  intro j
  rw [List.getElem?_take, List.getElem?_drop]
  by_cases h : j < cs ∧ s + j < p
  · rw [if_pos h.1, List.getElem?_range h.2, List.getElem?_range' _ _ (by omega)]
    simp
  · have hnone : (List.range' s (min (s + cs) p - s))[j]? = none := by
      rw [List.getElem?_eq_none_iff]; simp; omega
    rw [hnone]
    by_cases hj : j < cs
    · rw [if_pos hj, List.getElem?_eq_none_iff]; simp; omega
    · rw [if_neg hj]

/-- The values of worker `w`'s chunk are a segment of the raster. -/
theorem map_chunkIdx {α : Type} (f : Nat → α) (cs p w : Nat) :
    (chunkIdx cs p w).map f = (((List.range p).map f).drop (w * cs)).take cs := by
  rw [← List.map_drop, ← List.map_take, take_drop_range]
  rfl

theorem foldl_add_eq (l : List ℚ) (a : ℚ) : l.foldl (· + ·) a = a + l.sum := by
  induction l generalizing a with
  | nil => simp
  | cons x l ih => rw [List.foldl_cons, ih, List.sum_cons]; ring

theorem sum_flatMap_chunkIdx (f : Nat → ℚ) (cs p n : Nat) (hcover : min (n * cs) p = p) :
    ((List.range n).map (fun w => ((chunkIdx cs p w).map f).sum)).sum =
      ((List.range p).map f).sum := by
  have h := flatMap_chunkIdx cs p n
  rw [hcover] at h
  rw [← h]
  generalize List.range n = ws
  induction ws with
  | nil => rfl
  | cons w ws ih => simp [List.flatMap_cons, ih]

theorem minStep_eq (a x : ℚ) : minStep a x = min a x := by
  unfold minStep
  by_cases h : x < a
  · rw [if_pos h, min_eq_right h.le]
  · rw [if_neg h, min_eq_left (not_lt.mp h)]

theorem maxStep_eq (a x : ℚ) : maxStep a x = max a x := by
  unfold maxStep
  by_cases h : x > a
  · rw [if_pos h, max_eq_right h.le]
  · rw [if_neg h, max_eq_left (not_lt.mp h)]

theorem foldl_minStep_le (l : List ℚ) : ∀ a : ℚ, l.foldl minStep a ≤ a := by
  induction l with
  | nil => intro a; exact le_refl a
  | cons x l ih =>
    intro a
    rw [List.foldl_cons, minStep_eq]
    exact (ih _).trans (min_le_left a x)

theorem foldl_minStep_le_mem (l : List ℚ) : ∀ a : ℚ, ∀ v ∈ l, l.foldl minStep a ≤ v := by
  induction l with
  | nil => intro a v hv; simp at hv
  | cons x l ih =>
    intro a v hv
    rw [List.foldl_cons, minStep_eq]
    rcases List.mem_cons.mp hv with rfl | hv
    · exact (foldl_minStep_le l _).trans (min_le_right a v)
    · exact ih _ v hv

theorem foldl_minStep_mem (l : List ℚ) : ∀ a : ℚ, l.foldl minStep a = a ∨ l.foldl minStep a ∈ l := by
  induction l with
  | nil => intro a; exact Or.inl rfl
  | cons x l ih =>
    intro a
    rw [List.foldl_cons]
    rcases ih (minStep a x) with h | h
    · rw [h]
      unfold minStep
      by_cases hx : x < a
      · rw [if_pos hx]; exact Or.inr (List.mem_cons_self _ _)
      · rw [if_neg hx]; exact Or.inl rfl
    · exact Or.inr (List.mem_cons_of_mem _ h)

theorem foldl_maxStep_ge (l : List ℚ) : ∀ a : ℚ, a ≤ l.foldl maxStep a := by
  induction l with
  | nil => intro a; exact le_refl a
  | cons x l ih =>
    intro a
    rw [List.foldl_cons, maxStep_eq]
    exact (le_max_left a x).trans (ih _)

theorem foldl_maxStep_ge_mem (l : List ℚ) : ∀ a : ℚ, ∀ v ∈ l, v ≤ l.foldl maxStep a := by
  induction l with
  | nil => intro a v hv; simp at hv
  | cons x l ih =>
    intro a v hv
    rw [List.foldl_cons, maxStep_eq]
    rcases List.mem_cons.mp hv with rfl | hv
    · exact (le_max_right a v).trans (foldl_maxStep_ge l _)
    · exact ih _ v hv

theorem foldl_maxStep_mem (l : List ℚ) : ∀ a : ℚ, l.foldl maxStep a = a ∨ l.foldl maxStep a ∈ l := by
  induction l with
  | nil => intro a; exact Or.inl rfl
  | cons x l ih =>
    intro a
    rw [List.foldl_cons]
    rcases ih (maxStep a x) with h | h
    · rw [h]
      unfold maxStep
      by_cases hx : x > a
      · rw [if_pos hx]; exact Or.inr (List.mem_cons_self _ _)
      · rw [if_neg hx]; exact Or.inl rfl
    · exact Or.inr (List.mem_cons_of_mem _ h)

/-- Merging the local minima of the workers gives the running minimum over all their chunks. -/
theorem foldl_minStep_chunks (c : Nat → List ℚ) (M : ℚ) (ws : List Nat) :
    ∀ a : ℚ, a ≤ M →
      (ws.map (fun w => (c w).foldl minStep M)).foldl minStep a =
        (ws.flatMap c).foldl minStep a := by
  induction ws with
  | nil => intro a _; rfl
  | cons w ws ih =>
    intro a ha
    have key : ∀ (l : List ℚ) (a b : ℚ), a ≤ b → minStep a (l.foldl minStep b) = l.foldl minStep a := by
      intro l
      induction l with
      | nil => intro a b hab; simp [minStep_eq, hab]
      | cons x l ihl =>
        intro a b hab
        rw [List.foldl_cons, List.foldl_cons]
        rcases le_total a x with hax | hxa
        · have e1 : minStep a x = a := by rw [minStep_eq, min_eq_left hax]
          rw [e1]
          apply ihl
          rw [minStep_eq]; exact le_min hab hax
        · have e1 : minStep a x = x := by rw [minStep_eq, min_eq_right hxa]
          rw [e1]
          have e2 : minStep a (List.foldl minStep (minStep b x) l) =
              List.foldl minStep (minStep b x) l := by
            rw [minStep_eq, min_eq_right]
            exact (foldl_minStep_le l _).trans (by rw [minStep_eq]; exact (min_le_right b x).trans hxa)
          rw [e2]
          have e3 : minStep b x = x := by rw [minStep_eq, min_eq_right (hxa.trans hab)]
          rw [e3]
    rw [List.map_cons, List.foldl_cons, List.flatMap_cons, List.foldl_append, key _ _ _ ha]
    exact ih _ ((foldl_minStep_le _ _).trans ha)

/-- Merging the local maxima of the workers gives the running maximum over all their chunks. -/
theorem foldl_maxStep_chunks (c : Nat → List ℚ) (M : ℚ) (ws : List Nat) :
    ∀ a : ℚ, M ≤ a →
      (ws.map (fun w => (c w).foldl maxStep M)).foldl maxStep a =
        (ws.flatMap c).foldl maxStep a := by
  induction ws with
  | nil => intro a _; rfl
  | cons w ws ih =>
    intro a ha
    have key : ∀ (l : List ℚ) (a b : ℚ), b ≤ a → maxStep a (l.foldl maxStep b) = l.foldl maxStep a := by
      intro l
      induction l with
      | nil => intro a b hab; simp [maxStep_eq, hab]
      | cons x l ihl =>
        intro a b hab
        rw [List.foldl_cons, List.foldl_cons]
        rcases le_total x a with hxa | hax
        · have e1 : maxStep a x = a := by rw [maxStep_eq, max_eq_left hxa]
          rw [e1]
          apply ihl
          rw [maxStep_eq]; exact max_le hab hxa
        · have e1 : maxStep a x = x := by rw [maxStep_eq, max_eq_right hax]
          rw [e1]
          have e2 : maxStep a (List.foldl maxStep (maxStep b x) l) =
              List.foldl maxStep (maxStep b x) l := by
            rw [maxStep_eq, max_eq_right]
            exact (by rw [maxStep_eq]; exact hax.trans (le_max_right b x) :
              a ≤ maxStep b x).trans (foldl_maxStep_ge l _)
          rw [e2]
          have e3 : maxStep b x = x := by rw [maxStep_eq, max_eq_right (hab.trans hax)]
          rw [e3]
    rw [List.map_cons, List.foldl_cons, List.flatMap_cons, List.foldl_append, key _ _ _ ha]
    exact ih _ (ha.trans (foldl_maxStep_ge _ _))

theorem flatMap_chunkIdx_map {α : Type} (f : Nat → α) (cs p n : Nat) (hn0 : 0 < n)
    (hcover : min (n * cs) p = p) :
    (chunkIdx cs p 0).map f ++ (List.range' 1 (n - 1)).flatMap (fun w => (chunkIdx cs p w).map f) =
      (List.range p).map f := by
  have h := flatMap_chunkIdx cs p n
  rw [hcover, range_eq_cons n hn0, List.flatMap_cons] at h
  rw [← h, List.map_append, List.map_flatMap]

/-- The `Min` statistic is the running minimum over the whole raster, started at `MaxFloat64`. -/
theorem globalMin_eq (nirData redData : List ℚ) (cs p n : Nat) (hn0 : 0 < n)
    (hcover : min (n * cs) p = p) :
    ((List.range' 1 (n - 1)).map (fun w => (workerLocal nirData redData cs p w).localMin)).foldl
        minStep (workerLocal nirData redData cs p 0).localMin =
      ((List.range p).map (ndviAt nirData redData)).foldl minStep MaxFloat64 := by
  have hloc : ∀ w, (workerLocal nirData redData cs p w).localMin =
      ((chunkIdx cs p w).map (ndviAt nirData redData)).foldl minStep MaxFloat64 := by
    intro w; simp [workerLocal, foldl_localStep, localInit]
  simp only [hloc]
  rw [foldl_minStep_chunks (fun w => (chunkIdx cs p w).map (ndviAt nirData redData)) MaxFloat64 _ _
    (foldl_minStep_le _ _), ← List.foldl_append, flatMap_chunkIdx_map _ cs p n hn0 hcover]

/-- The `Max` statistic is the running maximum over the whole raster, started at `-MaxFloat64`. -/
theorem globalMax_eq (nirData redData : List ℚ) (cs p n : Nat) (hn0 : 0 < n)
    (hcover : min (n * cs) p = p) :
    ((List.range' 1 (n - 1)).map (fun w => (workerLocal nirData redData cs p w).localMax)).foldl
        maxStep (workerLocal nirData redData cs p 0).localMax =
      ((List.range p).map (ndviAt nirData redData)).foldl maxStep (-MaxFloat64) := by
  have hloc : ∀ w, (workerLocal nirData redData cs p w).localMax =
      ((chunkIdx cs p w).map (ndviAt nirData redData)).foldl maxStep (-MaxFloat64) := by
    intro w; simp [workerLocal, foldl_localStep, localInit]
  simp only [hloc]
  rw [foldl_maxStep_chunks (fun w => (chunkIdx cs p w).map (ndviAt nirData redData)) (-MaxFloat64)
    _ _ (foldl_maxStep_ge _ _), ← List.foldl_append, flatMap_chunkIdx_map _ cs p n hn0 hcover]

/-- The sum a worker stores is the running `float64` sum, started at `0`, of its chunk of the
raster. -/
theorem localSum_eq (nirData redData : List ℚ) (cs p w : Nat) :
    (workerLocal nirData redData cs p w).localSum =
      chunkSum ((List.range p).map (ndviAt nirData redData)) cs w := by
  simp only [workerLocal, foldl_localStep, localInit, map_chunkIdx, chunkSum]

/-- The average depends on the number of workers, because every addition is rounded: on the four
pixels `(float32(0.8), float32(0.2))`, `(float32(0.1), float32(0.3))`,
`(float32(0.3), float32(0.1))`, `(1, 0)` one worker returns `3602879701896397 / 2^53` and two
workers return `7205759403792793 / 2^54`. -/
theorem average_depends_on_workers :
    (Calculate
        ⟨⟨4, 1, 1, [[13421773 / 2 ^ 24, 13421773 / 2 ^ 27, 10066330 / 2 ^ 25, 1]]⟩⟩
        ⟨⟨4, 1, 1, [[13421773 / 2 ^ 26, 10066330 / 2 ^ 25, 13421773 / 2 ^ 27, 0]]⟩⟩ 1).bind
        (fun ret => ret.metrics.map (fun m => m.Average)) =
      some (Float64.fin (3602879701896397 / 2 ^ 53)) ∧
    (Calculate
        ⟨⟨4, 1, 1, [[13421773 / 2 ^ 24, 13421773 / 2 ^ 27, 10066330 / 2 ^ 25, 1]]⟩⟩
        ⟨⟨4, 1, 1, [[13421773 / 2 ^ 26, 10066330 / 2 ^ 25, 13421773 / 2 ^ 27, 0]]⟩⟩ 2).bind
        (fun ret => ret.metrics.map (fun m => m.Average)) =
      some (Float64.fin (7205759403792793 / 2 ^ 54)) := by
  decide!

/-- The NDVI value of a pixel with non-negative samples lies in `[-1, 1]`. -/
theorem pixelNDVI_mem_Icc (n r : ℚ) (hn : 0 ≤ n) (hr : 0 ≤ r) :
    -1 ≤ pixelNDVI n r ∧ pixelNDVI n r ≤ 1 := by
  unfold pixelNDVI
  by_cases h : fadd n r > 0
  · simp only [h, if_true]
    have hd : |fsub n r| ≤ fadd n r := round53_abs_le _ _ (by rw [abs_le]; constructor <;> linarith)
    rw [abs_le] at hd
    have h1 : -1 ≤ fsub n r / fadd n r := by rw [le_div_iff₀ h]; linarith
    have h2 : fsub n r / fadd n r ≤ 1 := by rw [div_le_iff₀ h]; linarith
    have r1 := round53_mono _ _ h1
    have r2 := round53_mono _ _ h2
    rw [round53_neg_one] at r1
    rw [round53_one] at r2
    exact ⟨r1, r2⟩
  · simp only [h, if_false]
    constructor <;> norm_num

/-- The NDVI value of two `float32` samples is within the range of the finite `float64` values:
its magnitude is at most `2^278`. -/
theorem pixelNDVI_abs_le (n r : ℚ) (hn : IsFloat32 n) (hr : IsFloat32 r) :
    -MaxFloat64 ≤ pixelNDVI n r ∧ pixelNDVI n r ≤ MaxFloat64 := by
  obtain ⟨⟨kn, hkn⟩, hbn⟩ := hn
  obtain ⟨⟨kr, hkr⟩, hbr⟩ := hr
  have hM : (0 : ℚ) ≤ MaxFloat64 := by unfold MaxFloat64; norm_num
  unfold pixelNDVI
  by_cases hf : fadd n r > 0
  · have h : n + r > 0 := (fadd_pos_iff _ _).mp hf
    simp only [hf, if_true]
    have hk : (1 : ℚ) ≤ (kn + kr : Int) := by
      have : (0 : ℚ) < ((kn + kr : Int) : ℚ) / 2 ^ 149 := by
        rw [hkn, hkr] at h; push_cast; rw [add_div]; exact h
      have h2 : (0 : ℚ) < ((kn + kr : Int) : ℚ) := by
        by_contra hc
        have := div_nonpos_of_nonpos_of_nonneg (not_lt.mp hc) (by positivity : (0 : ℚ) ≤ 2 ^ 149)
        linarith
      exact_mod_cast h2
    have hsum : (1 : ℚ) / 2 ^ 149 ≤ n + r := by
      rw [hkn, hkr, ← add_div]
      apply div_le_div_of_nonneg_right _ (by positivity)
      exact_mod_cast hk
    have hdiff : |n - r| ≤ 2 ^ 129 := by
      calc |n - r| ≤ |n| + |r| := abs_sub n r
        _ ≤ 2 * MaxFloat32 := by linarith
        _ ≤ 2 ^ 129 := by unfold MaxFloat32; norm_num
    have e1 : round53 (1 / 2 ^ 149) = 1 / 2 ^ 149 := by decide!
    have e2 : round53 (2 ^ 129) = 2 ^ 129 := by decide!
    have e3 : round53 (2 ^ 278) = 2 ^ 278 := by decide!
    have hs : (1 : ℚ) / 2 ^ 149 ≤ fadd n r := by
      have := round53_mono _ _ hsum
      rw [e1] at this
      exact this
    have hd : |fsub n r| ≤ 2 ^ 129 := by
      have := round53_abs_le _ _ hdiff
      rw [e2] at this
      exact this
    have hq : |fsub n r / fadd n r| ≤ 2 ^ 278 := by
      rw [abs_div, abs_of_pos hf, div_le_iff₀ hf]
      calc |fsub n r| ≤ 2 ^ 129 := hd
        _ = 2 ^ 278 * (1 / 2 ^ 149) := by norm_num
        _ ≤ 2 ^ 278 * fadd n r := mul_le_mul_of_nonneg_left hs (by positivity)
    have hr := round53_abs_le _ _ hq
    rw [e3] at hr
    have hle : (2 : ℚ) ^ 278 ≤ MaxFloat64 := by unfold MaxFloat64; norm_num
    have := abs_le.mp (hr.trans hle)
    exact this
  · simp only [hf, if_false]
    exact ⟨by linarith, hM⟩

/-- On `float32` samples with a positive sum the IEEE 754 evaluation of `(n - r) / (n + r)`,
with its exponent range and its special values, returns the finite values of the model: no
operation overflows or leaves the range of the normal values. -/
theorem pixelNDVI_ieee (n r : ℚ) (hn : IsFloat32 n) (hr : IsFloat32 r) (h : n + r > 0) :
    (Float64.fin n).add (Float64.fin r) = Float64.fin (fadd n r) ∧
      (Float64.fin n).sub (Float64.fin r) = Float64.fin (fsub n r) ∧
      (Float64.fin (fsub n r)).div (Float64.fin (fadd n r)) =
        Float64.fin (fdiv (fsub n r) (fadd n r)) := by
  obtain ⟨⟨kn, hkn⟩, hbn⟩ := hn
  obtain ⟨⟨kr, hkr⟩, hbr⟩ := hr
  have hk : (1 : ℚ) ≤ (kn + kr : Int) := by
    have : (0 : ℚ) < ((kn + kr : Int) : ℚ) / 2 ^ 149 := by
      rw [hkn, hkr] at h; push_cast; rw [add_div]; exact h
    have h2 : (0 : ℚ) < ((kn + kr : Int) : ℚ) := by
      by_contra hc
      have := div_nonpos_of_nonpos_of_nonneg (not_lt.mp hc) (by positivity : (0 : ℚ) ≤ 2 ^ 149)
      linarith
    exact_mod_cast h2
  have hsum : (1 : ℚ) / 2 ^ 149 ≤ n + r := by
    rw [hkn, hkr, ← add_div]
    apply div_le_div_of_nonneg_right _ (by positivity)
    exact_mod_cast hk
  have hM32 : 2 * MaxFloat32 ≤ 2 ^ 129 := by unfold MaxFloat32; norm_num
  have hsum2 : n + r ≤ 2 ^ 129 := by
    have h1 := le_abs_self n
    have h2 := le_abs_self r
    linarith
  have hdiff : |n - r| ≤ 2 ^ 129 := by
    calc |n - r| ≤ |n| + |r| := abs_sub n r
      _ ≤ 2 * MaxFloat32 := by linarith
      _ ≤ 2 ^ 129 := hM32
  have e1 : round53 (1 / 2 ^ 149) = 1 / 2 ^ 149 := by decide!
  have e2 : round53 (2 ^ 129) = 2 ^ 129 := by decide!
  have lo : (1 : ℚ) / 2 ^ 1022 ≤ 1 / 2 ^ 278 := by norm_num
  have lo2 : (1 : ℚ) / 2 ^ 278 ≤ 1 / 2 ^ 149 := by norm_num
  have hi : (2 : ℚ) ^ 129 ≤ 2 ^ 278 := by norm_num
  have hi2 : (2 : ℚ) ^ 278 ≤ 2 ^ 1023 := by norm_num
  have hb1 : (1 : ℚ) / 2 ^ 149 ≤ fadd n r := by
    have := round53_mono _ _ hsum
    rw [e1] at this
    exact this
  have hb2 : fadd n r ≤ 2 ^ 129 := by
    have := round53_mono _ _ hsum2
    rw [e2] at this
    exact this
  have hbpos : 0 < fadd n r := lt_of_lt_of_le (by positivity) hb1
  have ha2 : |fsub n r| ≤ 2 ^ 129 := by
    have := round53_abs_le _ _ hdiff
    rw [e2] at this
    exact this
  refine ⟨?_, ?_, ?_⟩
  · show roundFloat64 (n + r) = _
    exact roundFloat64_eq_round53 _ (by rw [abs_of_pos h]; linarith)
      (by rw [abs_of_pos h]; linarith)
  · show roundFloat64 (n - r) = _
    by_cases hd : n - r = 0
    · rw [fsub, hd]; exact roundFloat64_round53_zero
    · have hkd : (1 : ℚ) ≤ |((kn - kr : Int) : ℚ)| := by
        have : kn - kr ≠ 0 := by
          intro hc
          apply hd
          rw [hkn, hkr, ← sub_div]
          have : ((kn : ℚ) - (kr : ℚ)) = ((kn - kr : Int) : ℚ) := by push_cast; rfl
          rw [this, hc]; simp
        have h1 : (1 : Int) ≤ |kn - kr| := Int.one_le_abs this
        have h2 : ((1 : Int) : ℚ) ≤ ((|kn - kr| : Int) : ℚ) := by exact_mod_cast h1
        rw [Int.cast_abs] at h2
        exact_mod_cast h2
      have hlow : (1 : ℚ) / 2 ^ 149 ≤ |n - r| := by
        rw [hkn, hkr, ← sub_div, abs_div, abs_of_pos (by positivity : (0 : ℚ) < 2 ^ 149)]
        apply div_le_div_of_nonneg_right _ (by positivity)
        have : ((kn : ℚ) - (kr : ℚ)) = ((kn - kr : Int) : ℚ) := by push_cast; rfl
        rw [this]
        exact hkd
      exact roundFloat64_eq_round53 _ (by linarith) (by linarith)
  · have hb0 : fadd n r ≠ 0 := hbpos.ne'
    show (if fadd n r = 0 then _ else roundFloat64 (fsub n r / fadd n r)) = _
    rw [if_neg hb0]
    by_cases ha : fsub n r = 0
    · rw [fdiv, ha, zero_div]; exact roundFloat64_round53_zero
    · have hd : n - r ≠ 0 := by
        intro hc
        apply ha
        rw [fsub, hc, round53_zero]
      have hlow : (1 : ℚ) / 2 ^ 149 ≤ |n - r| := by
        have hkd : (1 : ℚ) ≤ |((kn - kr : Int) : ℚ)| := by
          have : kn - kr ≠ 0 := by
            intro hc
            apply hd
            rw [hkn, hkr, ← sub_div]
            have : ((kn : ℚ) - (kr : ℚ)) = ((kn - kr : Int) : ℚ) := by push_cast; rfl
            rw [this, hc]; simp
          have h1 : (1 : Int) ≤ |kn - kr| := Int.one_le_abs this
          have h2 : ((1 : Int) : ℚ) ≤ ((|kn - kr| : Int) : ℚ) := by exact_mod_cast h1
          rw [Int.cast_abs] at h2
          exact_mod_cast h2
        rw [hkn, hkr, ← sub_div, abs_div, abs_of_pos (by positivity : (0 : ℚ) < 2 ^ 149)]
        apply div_le_div_of_nonneg_right _ (by positivity)
        have : ((kn : ℚ) - (kr : ℚ)) = ((kn - kr : Int) : ℚ) := by push_cast; rfl
        rw [this]
        exact hkd
      have ha1 : (1 : ℚ) / 2 ^ 149 ≤ |fsub n r| := by
        have := round53_mono _ _ hlow
        rw [e1, ← round53_abs] at this
        exact this
      have q1 : (1 : ℚ) / 2 ^ 278 ≤ |fsub n r / fadd n r| := by
        rw [abs_div, abs_of_pos hbpos, le_div_iff₀ hbpos]
        calc (1 : ℚ) / 2 ^ 278 * fadd n r ≤ 1 / 2 ^ 278 * 2 ^ 129 :=
              mul_le_mul_of_nonneg_left hb2 (by positivity)
          _ = 1 / 2 ^ 149 := by norm_num
          _ ≤ |fsub n r| := ha1
      have q2 : |fsub n r / fadd n r| ≤ 2 ^ 278 := by
        rw [abs_div, abs_of_pos hbpos, div_le_iff₀ hbpos]
        calc |fsub n r| ≤ 2 ^ 129 := ha2
          _ = 2 ^ 278 * (1 / 2 ^ 149) := by norm_num
          _ ≤ 2 ^ 278 * fadd n r := mul_le_mul_of_nonneg_left hb1 (by positivity)
      exact roundFloat64_eq_round53 _ (by linarith) (by linarith)

theorem cover_of_pos (p : Nat) (numThreads : Int) (hw : 1 ≤ numThreads) :
    0 < numThreads.toNat ∧
      min (numThreads.toNat * ((p + numThreads.toNat - 1) / numThreads.toNat)) p = p := by
  have h0 : 0 < numThreads.toNat := by omega
  have := pixelCount_le_chunks p numThreads.toNat h0
  exact ⟨h0, by omega⟩

theorem getElem?_map_ndviAt (nirData redData : List ℚ) (p i : Nat) (n r : ℚ)
    (hln : nirData.length = p) (hn : nirData[i]? = some n) (hr : redData[i]? = some r) :
    ((List.range p).map (ndviAt nirData redData))[i]? =
      some (if n + r > 0 then fdiv (fsub n r) (fadd n r) else 0) := by
  have hi : i < p := by
    rw [← hln]
    by_contra hc
    rw [List.getElem?_eq_none_iff.mpr (by omega)] at hn
    cases hn
  rw [List.getElem?_map, List.getElem?_range hi, Option.map_some', ndviAt_eq _ _ _ _ _ hn hr]

theorem mem_map_ndviAt (nirData redData : List ℚ) (p : Nat) (v : ℚ)
    (hln : nirData.length = p) (hlr : redData.length = p)
    (hv : v ∈ (List.range p).map (ndviAt nirData redData)) :
    ∃ n ∈ nirData, ∃ r ∈ redData, v = pixelNDVI n r := by
  rw [List.mem_map] at hv
  obtain ⟨i, hi, rfl⟩ := hv
  rw [List.mem_range] at hi
  refine ⟨nirData[i], List.getElem_mem _, redData[i], List.getElem_mem _, ?_⟩
  simp [ndviAt, List.getD_eq_getElem, hln, hlr, hi]

theorem isFloat32_zero : IsFloat32 0 :=
  ⟨⟨0, by norm_num⟩, by unfold MaxFloat32; norm_num⟩

theorem isFloat32_quarter : IsFloat32 (1 / 4) :=
  ⟨⟨2 ^ 147, by norm_num⟩, by unfold MaxFloat32; rw [abs_of_pos (by norm_num)]; norm_num⟩

theorem isFloat32_three_quarters : IsFloat32 (3 / 4) :=
  ⟨⟨3 * 2 ^ 147, by norm_num⟩, by unfold MaxFloat32; rw [abs_of_pos (by norm_num)]; norm_num⟩

theorem searchLoop_gt (table : List GradientPoint) (v : ℚ) (fuel : Nat) (lo hi idx mid : Int)
    (p : GradientPoint) (hlo : lo ≤ hi) (hmid : (lo + hi).tdiv 2 = mid) (h0 : 0 ≤ mid)
    (hp : table[mid.toNat]? = some p) (hv : p.Value > v) :
    searchLoop table v (fuel + 1) lo hi idx = searchLoop table v fuel lo (mid - 1) idx := by
  simp [searchLoop, hlo, hmid, hp, hv, not_lt.mpr h0]

theorem searchLoop_le (table : List GradientPoint) (v : ℚ) (fuel : Nat) (lo hi idx mid : Int)
    (p : GradientPoint) (hlo : lo ≤ hi) (hmid : (lo + hi).tdiv 2 = mid) (h0 : 0 ≤ mid)
    (hp : table[mid.toNat]? = some p) (hv : p.Value ≤ v) :
    searchLoop table v (fuel + 1) lo hi idx = searchLoop table v fuel (mid + 1) hi mid := by
  simp [searchLoop, hlo, hmid, hp, not_lt.mpr hv, not_lt.mpr h0]

theorem searchLoop_done (table : List GradientPoint) (v : ℚ) (fuel : Nat) (lo hi idx : Int)
    (h : hi < lo) : searchLoop table v fuel lo hi idx = some idx := by
  cases fuel <;> simp [searchLoop, not_le.mpr h]

theorem searchLoop_table (v : ℚ) (h1 : -1 < v) (h2 : v < 1) :
    searchLoop ndviGradientPoints v 5 0 4 0 = some (segmentIndex v) := by
  unfold segmentIndex
  by_cases c0 : v < 0
  · rw [searchLoop_gt _ v 4 0 4 0 2 ⟨0, ⟨255, 0, 0, 255⟩⟩ (by decide) (by decide) (by decide) rfl c0,
      searchLoop_le _ v 3 0 (2 - 1) 0 0 ⟨-1, ⟨0, 0, 128, 255⟩⟩ (by decide) (by decide) (by decide)
        rfl h1.le]
    by_cases c1 : v < -(3602879701896397 / 2 ^ 54)
    · rw [searchLoop_gt _ v 2 (0 + 1) (2 - 1) 0 1 ⟨-(3602879701896397 / 2 ^ 54), ⟨65, 105, 225, 255⟩⟩ (by decide)
        (by decide) (by decide) rfl c1, searchLoop_done _ _ _ _ _ _ (by decide), if_pos c1]
    · rw [searchLoop_le _ v 2 (0 + 1) (2 - 1) 0 1 ⟨-(3602879701896397 / 2 ^ 54), ⟨65, 105, 225, 255⟩⟩ (by decide)
        (by decide) (by decide) rfl (not_lt.mp c1), searchLoop_done _ _ _ _ _ _ (by decide),
        if_neg c1, if_pos c0]
  · have c1 : ¬ v < -(3602879701896397 / 2 ^ 54) := by
      have : (0 : ℚ) < 3602879701896397 / 2 ^ 54 := by norm_num
      linarith
    rw [searchLoop_le _ v 4 0 4 0 2 ⟨0, ⟨255, 0, 0, 255⟩⟩ (by decide) (by decide) (by decide) rfl
      (not_lt.mp c0), if_neg c1, if_neg c0]
    by_cases c2 : v < 1 / 2
    · rw [searchLoop_gt _ v 3 (2 + 1) 4 2 3 ⟨1 / 2, ⟨255, 255, 0, 255⟩⟩ (by decide) (by decide)
        (by decide) rfl c2, searchLoop_done _ _ _ _ _ _ (by decide), if_pos c2]
    · rw [searchLoop_le _ v 3 (2 + 1) 4 2 3 ⟨1 / 2, ⟨255, 255, 0, 255⟩⟩ (by decide) (by decide)
        (by decide) rfl (not_lt.mp c2),
        searchLoop_gt _ v 2 (3 + 1) 4 3 4 ⟨1, ⟨0, 128, 0, 255⟩⟩ (by decide) (by decide)
        (by decide) rfl h2, searchLoop_done _ _ _ _ _ _ (by decide), if_neg c2]

/-- For `-1 < v < 1` the result of `GetNDVIColor` in terms of the two table entries around `v`:
the search finds them, the interpolation parameter lies in `[0, 1)` and no step panics. -/
theorem GetNDVIColor_inside (v : ℚ) (h1 : -1 < v) (h2 : v < 1) :
    ∃ p1 p2, ndviGradientPoints[(segmentIndex v).toNat]? = some p1 ∧
      ndviGradientPoints[(segmentIndex v).toNat + 1]? = some p2 ∧
      p1.Value ≤ v ∧ v < p2.Value ∧
      GetNDVIColor v = some
        { R := uint8OfFloat64 (channelFloat p1.Color.R p2.Color.R (interpT v p1 p2))
          G := uint8OfFloat64 (channelFloat p1.Color.G p2.Color.G (interpT v p1 p2))
          B := uint8OfFloat64 (channelFloat p1.Color.B p2.Color.B (interpT v p1 p2))
          A := 255 } := by
  have hs := searchLoop_table v h1 h2
  have hlen : ndviGradientPoints.length = 5 := rfl
  unfold GetNDVIColor
  simp only [hlen, not_le.mpr h1, ge_iff_le, not_le.mpr h2, if_false]
  have e4 : ((5 : Nat) : Int) - 1 = 4 := by decide
  rw [e4, hs]
  unfold segmentIndex
  by_cases c1 : v < -(3602879701896397 / 2 ^ 54)
  · simp only [if_pos c1]
    exact ⟨_, _, rfl, rfl, h1.le, c1, rfl⟩
  · simp only [if_neg c1]
    by_cases c0 : v < 0
    · simp only [if_pos c0]
      exact ⟨_, _, rfl, rfl, not_lt.mp c1, c0, rfl⟩
    · simp only [if_neg c0]
      by_cases c2 : v < 1 / 2
      · simp only [if_pos c2]
        exact ⟨_, _, rfl, rfl, not_lt.mp c0, c2, rfl⟩
      · simp only [if_neg c2]
        exact ⟨_, _, rfl, rfl, not_lt.mp c2, h2, rfl⟩

/-- On a channel that does not decrease, the value computed before the conversion is the
`float64` evaluation of the linear interpolation `c1 + t * (c2 - c1)`. -/
theorem channelFloat_of_le (c1 c2 : Nat) (t : ℚ) (h : c1 ≤ c2) (h2 : c2 < 256) :
    channelFloat c1 c2 t = fadd (c1 : ℚ) (fmul t ((c2 : ℚ) - (c1 : ℚ))) := by
  have e : uint8Sub c2 c1 = c2 - c1 := by unfold uint8Sub; omega
  rw [channelFloat, e, Nat.cast_sub h]

/-- On a channel that decreases, the `uint8` difference wraps around and the value computed
before the conversion is the `float64` evaluation of `c1 + t * (c2 + 256 - c1)`. -/
theorem channelFloat_of_gt (c1 c2 : Nat) (t : ℚ) (h : c2 < c1) (h1 : c1 < 256) :
    channelFloat c1 c2 t = fadd (c1 : ℚ) (fmul t ((c2 : ℚ) + 256 - (c1 : ℚ))) := by
  have e : uint8Sub c2 c1 = c2 + 256 - c1 := by unfold uint8Sub; omega
  rw [channelFloat, e, Nat.cast_sub (by omega)]
  push_cast
  rfl

/-- The interpolation parameter of a value between two table entries lies in `[0, 1]`. -/
theorem interpT_mem (v : ℚ) (p1 p2 : GradientPoint) (h1 : p1.Value ≤ v) (h2 : v < p2.Value) :
    0 ≤ interpT v p1 p2 ∧ interpT v p1 p2 ≤ 1 := by
  unfold interpT fdiv fsub
  have hb : 0 < round53 (p2.Value - p1.Value) := round53_pos _ (by linarith)
  have ha : 0 ≤ round53 (v - p1.Value) := round53_nonneg _ (by linarith)
  have hab : round53 (v - p1.Value) ≤ round53 (p2.Value - p1.Value) :=
    round53_mono _ _ (by linarith)
  constructor
  · exact round53_nonneg _ (div_nonneg ha hb.le)
  · have := round53_mono _ _ ((div_le_one hb).mpr hab)
    rw [round53_one] at this
    exact this

theorem GetNDVIColor_of_le (v : ℚ) (h : v ≤ -1) : GetNDVIColor v = some ⟨0, 0, 128, 255⟩ := by
  unfold GetNDVIColor
  simp only [h, if_true]
  rfl

theorem GetNDVIColor_of_ge (v : ℚ) (h : 1 ≤ v) : GetNDVIColor v = some ⟨0, 128, 0, 255⟩ := by
  have hv : ¬ v ≤ -1 := by linarith
  unfold GetNDVIColor
  simp only [hv, if_false, ge_iff_le, h, if_true]
  rfl

/-- `GetNDVIColor` never panics. -/
theorem GetNDVIColor_eq_colorOf (v : ℚ) : GetNDVIColor v = some (colorOf v) := by
  have hex : ∃ c, GetNDVIColor v = some c := by
    rcases le_or_lt v (-1) with h | h
    · exact ⟨_, GetNDVIColor_of_le v h⟩
    · rcases le_or_lt 1 v with h2 | h2
      · exact ⟨_, GetNDVIColor_of_ge v h2⟩
      · obtain ⟨p1, p2, _, _, _, _, hc⟩ := GetNDVIColor_inside v h h2
        exact ⟨_, hc⟩
  obtain ⟨c, hc⟩ := hex
  simp [colorOf, hc]

theorem colorPixelStep_eq (ndviData : List ℚ) (colorPix : List Nat) (i : Nat)
    (hi : i < ndviData.length) (hp : i * 4 + 3 < colorPix.length) :
    colorPixelStep ndviData colorPix i =
      some ((pixelBytes i).foldl (fun d j => d.set j (byteAt ndviData j)) colorPix) := by
  have e0 : byteAt ndviData (i * 4) = (colorOf ndviData[i]).R := by
    have h1 : i * 4 % 4 = 0 := by omega
    have h2 : i * 4 / 4 = i := by omega
    simp [byteAt, h1, h2, List.getD_eq_getElem, hi]
  have e1 : byteAt ndviData (i * 4 + 1) = (colorOf ndviData[i]).G := by
    have h1 : (i * 4 + 1) % 4 = 1 := by omega
    have h2 : (i * 4 + 1) / 4 = i := by omega
    simp [byteAt, h1, h2, List.getD_eq_getElem, hi]
  have e2 : byteAt ndviData (i * 4 + 2) = (colorOf ndviData[i]).B := by
    have h1 : (i * 4 + 2) % 4 = 2 := by omega
    have h2 : (i * 4 + 2) / 4 = i := by omega
    simp [byteAt, h1, h2, List.getD_eq_getElem, hi]
  have e3 : byteAt ndviData (i * 4 + 3) = 255 := by
    have h1 : (i * 4 + 3) % 4 = 3 := by omega
    simp [byteAt, h1]
  simp only [colorPixelStep, List.getElem?_eq_getElem hi, GetNDVIColor_eq_colorOf, hp, if_true,
    pixelBytes, List.foldl_cons, List.foldl_nil, e0, e1, e2, e3]

theorem foldlM_colorPixelStep (ndviData : List ℚ) (is : List Nat) :
    ∀ colorPix : List Nat, (∀ i ∈ is, i < ndviData.length ∧ i * 4 + 3 < colorPix.length) →
      is.foldlM (colorPixelStep ndviData) colorPix =
        some ((is.flatMap pixelBytes).foldl (fun d j => d.set j (byteAt ndviData j)) colorPix) := by
  induction is with
  | nil => intro colorPix _; rfl
  | cons i is ih =>
    intro colorPix h
    have hi := h i (List.mem_cons_self _ _)
    rw [List.foldlM_cons, colorPixelStep_eq _ _ _ hi.1 hi.2]
    change List.foldlM _ _ is = _
    rw [ih, List.flatMap_cons, List.foldl_append]
    intro j hj
    have := h j (List.mem_cons_of_mem _ hj)
    simpa [length_foldl_set] using this

theorem foldlM_colorWorkerStep (ndviData : List ℚ) (chunkSize pixelCount : Nat)
    (hn : pixelCount ≤ ndviData.length) (ws : List Nat) :
    ∀ colorPix : List Nat, 4 * pixelCount ≤ colorPix.length →
      ws.foldlM (colorWorkerStep ndviData chunkSize pixelCount) colorPix =
        some (((ws.flatMap (chunkIdx chunkSize pixelCount)).flatMap pixelBytes).foldl
          (fun d j => d.set j (byteAt ndviData j)) colorPix) := by
  induction ws with
  | nil => intro colorPix _; rfl
  | cons w ws ih =>
    intro colorPix hlen
    have hrun : colorWorkerStep ndviData chunkSize pixelCount colorPix w =
        some (((chunkIdx chunkSize pixelCount w).flatMap pixelBytes).foldl
          (fun d j => d.set j (byteAt ndviData j)) colorPix) := by
      unfold colorWorkerStep
      apply foldlM_colorPixelStep
      intro i hi
      have := mem_chunkIdx_lt hi
      omega
    rw [List.foldlM_cons, hrun]
    change List.foldlM _ _ ws = _
    rw [ih, List.flatMap_cons, List.flatMap_append, List.foldl_append]
    rw [length_foldl_set]; exact hlen

theorem mem_flatMap_pixelBytes (p j : Nat) :
    j ∈ (List.range p).flatMap pixelBytes ↔ j < 4 * p := by
  simp only [List.mem_flatMap, List.mem_range, pixelBytes, List.mem_cons, List.mem_singleton,
    List.not_mem_nil, or_false]
  constructor
  · rintro ⟨i, hi, h⟩; omega
  · intro h
    exact ⟨j / 4, by omega, by omega⟩

/-- The value `Colorize` returns when the raster holds at least `width * height` values. -/
theorem Colorize_eq (ndviData : List ℚ) (width height : Nat) (numThreads : Int)
    (hlen : width * height ≤ ndviData.length) (hw : 1 ≤ numThreads) :
    Colorize ndviData width height numThreads =
      some ({ Time := 0, ImageSize := ((width * height * 4 : Nat) : Int) },
            { Pix := (List.range (4 * (width * height))).map (byteAt ndviData)
              Stride := 4 * width, Width := width, Height := height }) := by
  obtain ⟨hn0, hcover⟩ := cover_of_pos (width * height) numThreads hw
  have hnt : ¬ numThreads ≤ 0 := by omega
  unfold Colorize
  simp only [hnt, if_false, NewRGBA]
  rw [foldlM_colorWorkerStep ndviData _ _ hlen _ _ (by simp [Nat.mul_assoc]),
    flatMap_chunkIdx, hcover]
  simp only
  congr 3
  apply List.ext_getElem?
  intro j
  have e4 : 4 * width * height = 4 * (width * height) := Nat.mul_assoc 4 width height
  rw [getElem?_foldl_set, List.getElem?_map, List.getElem?_replicate, List.length_replicate, e4]
  by_cases hj : j < 4 * (width * height)
  · have hm := (mem_flatMap_pixelBytes (width * height) j).mpr hj
    rw [if_pos ⟨hm, hj⟩, List.getElem?_range hj]
    rfl
  · have : (List.range (4 * (width * height)))[j]? = none := by
      rw [List.getElem?_eq_none_iff]; simp; omega
    simp [hj, this]

/-- What the launch step of worker `w` of `Calculate` does to the shared raster: it stores the
NDVI value at every index of `[w * chunkSize, min (w * chunkSize + chunkSize) pixelCount)` and
leaves the other entries as they are. -/
theorem workerStep_raster (nirData redData : List ℚ) (c p : Nat)
    (hn : p ≤ nirData.length) (hr : p ≤ redData.length) (st : CalcState)
    (hst : p ≤ st.ndviData.length) (w : Nat) :
    ∃ st2 : CalcState, workerStep nirData redData c p st w = some st2 ∧
      ∀ i : Nat, st2.ndviData[i]? =
        if w * c ≤ i ∧ i < min (w * c + c) p then some (ndviAt nirData redData i)
        else st.ndviData[i]? := by
  have hrun : runWorker nirData redData (w * c) (min (w * c + c) p) st.ndviData =
      some ((chunkIdx c p w).foldl (fun d i => d.set i (ndviAt nirData redData i)) st.ndviData,
        workerLocal nirData redData c p w) := by
    unfold runWorker
    apply foldlM_pixelStep
    intro i hi
    have := mem_chunkIdx_lt hi
    omega
  refine ⟨{ ndviData := (chunkIdx c p w).foldl
              (fun d i => d.set i (ndviAt nirData redData i)) st.ndviData
            minVals := st.minVals.set w (workerLocal nirData redData c p w).localMin
            maxVals := st.maxVals.set w (workerLocal nirData redData c p w).localMax
            sums := st.sums.set w (workerLocal nirData redData c p w).localSum
            pixelsWithoutData :=
              st.pixelsWithoutData.set w (workerLocal nirData redData c p w).localNoData },
    by simp only [workerStep, hrun], ?_⟩
  intro i
  simp only
  rw [getElem?_foldl_set]
  have hmem : i ∈ chunkIdx c p w ↔ w * c ≤ i ∧ i < min (w * c + c) p := by
    unfold chunkIdx
    rw [List.mem_range'_1]
    omega
  by_cases h : w * c ≤ i ∧ i < min (w * c + c) p
  · rw [if_pos ⟨hmem.mpr h, by omega⟩, if_pos h]
  · rw [if_neg (fun hc => h (hmem.mp hc.1)), if_neg h]

/-- What the launch step of worker `w` of `Colorize` does to the pixel buffer: it stores the
four bytes of every pixel of `[w * chunkSize, min (w * chunkSize + chunkSize) pixelCount)` and
leaves the other bytes as they are. -/
theorem colorWorkerStep_bytes (ndviData : List ℚ) (c p : Nat) (hn : p ≤ ndviData.length)
    (pix : List Nat) (hp : 4 * p ≤ pix.length) (w : Nat) :
    ∃ pix2 : List Nat, colorWorkerStep ndviData c p pix w = some pix2 ∧
      ∀ j : Nat, pix2[j]? =
        if w * c ≤ j / 4 ∧ j / 4 < min (w * c + c) p then some (byteAt ndviData j)
        else pix[j]? := by
  have hrun : colorWorkerStep ndviData c p pix w =
      some (((chunkIdx c p w).flatMap pixelBytes).foldl
        (fun d j => d.set j (byteAt ndviData j)) pix) := by
    unfold colorWorkerStep
    apply foldlM_colorPixelStep
    intro i hi
    have := mem_chunkIdx_lt hi
    omega
  refine ⟨_, hrun, ?_⟩
  intro j
  rw [getElem?_foldl_set]
  have hmem : j ∈ (chunkIdx c p w).flatMap pixelBytes ↔
      w * c ≤ j / 4 ∧ j / 4 < min (w * c + c) p := by
    simp only [List.mem_flatMap, chunkIdx, List.mem_range'_1, pixelBytes, List.mem_cons,
      List.mem_singleton, List.not_mem_nil, or_false]
    constructor
    · rintro ⟨i, hi, h⟩
      omega
    · intro h
      exact ⟨j / 4, by omega, by omega⟩
  by_cases h : w * c ≤ j / 4 ∧ j / 4 < min (w * c + c) p
  · rw [if_pos ⟨hmem.mpr h, by omega⟩, if_pos h]
  · rw [if_neg (fun hc => h (hmem.mp hc.1)), if_neg h]

/-- The raster the launch loop of `Calculate` leaves when it starts from the zeroed slices. -/
theorem launch_raster (nirData redData : List ℚ) (p n : Nat) (hn0 : 0 < n)
    (hln : p ≤ nirData.length) (hlr : p ≤ redData.length) :
    ∃ st : CalcState,
      (List.range n).foldlM (workerStep nirData redData ((p + n - 1) / n) p)
        { ndviData := List.replicate p 0, minVals := List.replicate n 0,
          maxVals := List.replicate n 0, sums := List.replicate n 0,
          pixelsWithoutData := List.replicate n 0 } = some st ∧
      st.ndviData = (List.range p).map (ndviAt nirData redData) := by
  have hcover : min (n * ((p + n - 1) / n)) p = p := by
    have := pixelCount_le_chunks p n hn0
    omega
  refine ⟨_, foldlM_workerStep nirData redData _ p hln hlr (List.range n) _ (by simp), ?_⟩
  simp only [flatMap_chunkIdx, hcover]
  exact foldl_set_replicate _ _ _

/-- The pixel buffer the launch loop of `Colorize` leaves when it starts from the new image. -/
theorem launch_pix (ndviData : List ℚ) (width height n : Nat) (hn0 : 0 < n)
    (hlen : width * height ≤ ndviData.length) :
    (List.range n).foldlM
        (colorWorkerStep ndviData ((width * height + n - 1) / n) (width * height))
        (NewRGBA width height).Pix =
      some ((List.range (4 * (width * height))).map (byteAt ndviData)) := by
  have hcover : min (n * ((width * height + n - 1) / n)) (width * height) = width * height := by
    have := pixelCount_le_chunks (width * height) n hn0
    omega
  rw [foldlM_colorWorkerStep ndviData _ _ hlen _ _ (by simp [NewRGBA, Nat.mul_assoc]),
    flatMap_chunkIdx, hcover]
  congr 1
  apply List.ext_getElem?
  intro j
  have e4 : 4 * width * height = 4 * (width * height) := Nat.mul_assoc 4 width height
  simp only [NewRGBA]
  rw [getElem?_foldl_set, List.getElem?_map, List.getElem?_replicate, List.length_replicate, e4]
  by_cases hj : j < 4 * (width * height)
  · have hm := (mem_flatMap_pixelBytes (width * height) j).mpr hj
    rw [if_pos ⟨hm, hj⟩, List.getElem?_range hj]
    rfl
  · have : (List.range (4 * (width * height)))[j]? = none := by
      rw [List.getElem?_eq_none_iff]; simp; omega
    simp [hj, this]

theorem deref_append (h l : MetricsHeap) (p : MetricsPtr) (r : Metrics)
    (hp : deref h p = some r) : deref (h ++ l) p = some r := by
  cases p with
  | none => cases hp
  | some a =>
    simp only [deref] at hp ⊢
    have ha : a < h.length := by
      by_contra hc
      rw [List.getElem?_eq_none_iff.mpr (by omega)] at hp
      cases hp
    rw [List.getElem?_append_left ha]
    exact hp

theorem deref_alloc (h : MetricsHeap) (m : Metrics) : deref (h ++ [m]) (some h.length) = some m := by
  simp [deref]

theorem deref_lt (h : MetricsHeap) (a : Nat) (r : Metrics) (hp : deref h (some a) = some r) :
    a < h.length := by
  by_contra hc
  simp only [deref] at hp
  rw [List.getElem?_eq_none_iff.mpr (by omega)] at hp
  cases hp

theorem deref_store_same (h : MetricsHeap) (p : MetricsPtr) (r m : Metrics)
    (hp : deref h p = some r) : deref (store h p m) p = some m := by
  cases p with
  | none => cases hp
  | some a =>
    have ha := deref_lt h a r hp
    simp [deref, store, List.getElem?_set, ha]

theorem deref_store_ne (h : MetricsHeap) (p q : MetricsPtr) (m : Metrics) (hne : p ≠ q) :
    deref (store h q m) p = deref h p := by
  cases q with
  | none => rfl
  | some b =>
    cases p with
    | none => rfl
    | some a =>
      have : b ≠ a := fun e => hne (by rw [e])
      simp [deref, store, List.getElem?_set, this]

/-- The record `InitializeAccumulatedMetrics` builds from the record `m`. -/
theorem InitializeAccumulatedMetrics_eq (h : MetricsHeap) (original : MetricsPtr) (m : Metrics)
    (hm : deref h original = some m) :
    InitializeAccumulatedMetrics h original =
      some (h ++ [{ m with NDVIMin := Float64.fin MaxFloat64,
                           NDVIMax := Float64.fin (-MaxFloat64) }], some h.length) := by
  simp [InitializeAccumulatedMetrics, CopyMetrics, hm, deref_alloc, store]

theorem AggregateMetrics_eq (h : MetricsHeap) (accumulated new : MetricsPtr) (a n : Metrics)
    (ha : deref h accumulated = some a) (hn : deref h new = some n) :
    AggregateMetrics h accumulated new = some (store h accumulated (aggregateFields a n)) := by
  simp [AggregateMetrics, ha, hn]

theorem AverageMetrics_eq (h : MetricsHeap) (accumulated : MetricsPtr) (a : Metrics)
    (numRuns : Int) (ha : deref h accumulated = some a) (hn : numRuns ≠ 0) :
    AverageMetrics h accumulated numRuns =
      some (h ++ [averageFields a numRuns], some h.length) := by
  simp [AverageMetrics, ha, hn]

theorem int64Add_eq (x y : Int) (h1 : -2 ^ 63 ≤ x + y) (h2 : x + y < 2 ^ 63) :
    int64Add x y = x + y := by
  unfold int64Add wrapInt64
  omega

theorem int64Div_eq (x n : Int) (hn : 1 ≤ n) : int64Div x n = x.tdiv n := by
  unfold int64Div
  rw [if_neg]
  omega

theorem mathMin_fin (x y : ℚ) : mathMin (Float64.fin x) (Float64.fin y) = Float64.fin (min x y) := by
  unfold mathMin
  by_cases h : x < y
  · simp [h, min_eq_left h.le]
  · simp [h, min_eq_right (not_lt.mp h)]

theorem mathMax_fin (x y : ℚ) : mathMax (Float64.fin x) (Float64.fin y) = Float64.fin (max x y) := by
  unfold mathMax
  by_cases h : x > y
  · simp [h, max_eq_left h.le]
  · simp [h, max_eq_right (not_lt.mp h)]

/-- The record `InitializeAccumulatedMetrics` stores for the record `m`. -/
theorem store_alloc (h : MetricsHeap) (a m : Metrics) :
    store (h ++ [a]) (some h.length) m = h ++ [m] := by
  simp [store, List.set_append_right]

/-- The iterations after the first one aggregate their records into the accumulator. -/
theorem foldlM_accumulateStep (h0 : MetricsHeap) (ps : List MetricsPtr) :
    ∀ (ns : List Metrics) (acc : Metrics) (i : Nat), i ≠ 0 →
      ps.map (deref h0) = ns.map some →
      ps.foldlM accumulateStep (h0 ++ [acc], some h0.length, i) =
        some (h0 ++ [ns.foldl aggregateFields acc], some h0.length, i + ps.length) := by
  induction ps with
  | nil =>
    intro ns acc i _ hmap
    cases ns with
    | nil => rfl
    | cons n ns => simp at hmap
  | cons p ps ih =>
    intro ns acc i hi hmap
    cases ns with
    | nil => simp at hmap
    | cons n ns =>
      simp only [List.map_cons, List.cons.injEq] at hmap
      have hp : deref (h0 ++ [acc]) p = some n := deref_append h0 _ p n hmap.1
      have hstep : accumulateStep (h0 ++ [acc], some h0.length, i) p =
          some (h0 ++ [aggregateFields acc n], some h0.length, i + 1) := by
        simp only [accumulateStep, if_neg hi,
          AggregateMetrics_eq _ _ _ acc n (deref_alloc h0 acc) hp, store_alloc]
      rw [List.foldlM_cons, hstep]
      change List.foldlM _ _ ps = _
      rw [ih ns _ (i + 1) (by omega) hmap.2, List.foldl_cons, List.length_cons]
      congr 3
      omega

/-- The record `runBenchmark` returns for the iteration records `n1, ns`: the first record
seeds the accumulator, the others are aggregated into it, and the result is averaged. -/
theorem runBenchmarkAverage_eq (h : MetricsHeap) (p1 : MetricsPtr) (ps : List MetricsPtr)
    (n1 : Metrics) (ns : List Metrics) (h1 : deref h p1 = some n1)
    (hmap : ps.map (deref h) = ns.map some) :
    runBenchmarkAverage h (p1 :: ps) =
      some (h ++ [ns.foldl aggregateFields
              { n1 with NDVIMin := Float64.fin MaxFloat64,
                        NDVIMax := Float64.fin (-MaxFloat64) }] ++
            [averageFields
              (ns.foldl aggregateFields
                { n1 with NDVIMin := Float64.fin MaxFloat64,
                          NDVIMax := Float64.fin (-MaxFloat64) })
              ((ps.length + 1 : Nat) : Int)],
            some (h.length + 1)) := by
  have hstep : accumulateStep (h, none, 0) p1 =
      some (h ++ [{ n1 with NDVIMin := Float64.fin MaxFloat64,
                            NDVIMax := Float64.fin (-MaxFloat64) }], some h.length, 1) := by
    simp [accumulateStep, InitializeAccumulatedMetrics_eq h p1 n1 h1]
  have hfold : List.foldlM accumulateStep (h, none, 0) (p1 :: ps) =
      some (h ++ [ns.foldl aggregateFields
              { n1 with NDVIMin := Float64.fin MaxFloat64,
                        NDVIMax := Float64.fin (-MaxFloat64) }], some h.length, 1 + ps.length) := by
    rw [List.foldlM_cons, hstep]
    change List.foldlM _ _ ps = _
    exact foldlM_accumulateStep h ps ns _ 1 (by decide) hmap
  unfold runBenchmarkAverage
  rw [hfold]
  simp only [List.length_cons]
  rw [AverageMetrics_eq _ _ _ _ (deref_alloc h _) (by omega)]
  simp

/-- Aggregating `k` copies of the record `r` iterates each field's operation `k` times. -/
theorem foldl_aggregateFields_replicate (r : Metrics) (k : Nat) :
    ∀ acc : Metrics, (List.replicate k r).foldl aggregateFields acc =
      { acc with
        TotalTime := (fun s => int64Add s r.TotalTime)^[k] acc.TotalTime
        ReadingTime := (fun s => int64Add s r.ReadingTime)^[k] acc.ReadingTime
        NDVITime := (fun s => int64Add s r.NDVITime)^[k] acc.NDVITime
        ColorTime := (fun s => int64Add s r.ColorTime)^[k] acc.ColorTime
        SaveTime := (fun s => int64Add s r.SaveTime)^[k] acc.SaveTime
        FileTimeNIR := (fun s => int64Add s r.FileTimeNIR)^[k] acc.FileTimeNIR
        DecodeTimeNIR := (fun s => int64Add s r.DecodeTimeNIR)^[k] acc.DecodeTimeNIR
        FileTimeRED := (fun s => int64Add s r.FileTimeRED)^[k] acc.FileTimeRED
        DecodeTimeRED := (fun s => int64Add s r.DecodeTimeRED)^[k] acc.DecodeTimeRED
        NoDataPixels := (fun s => int64Add s r.NoDataPixels)^[k] acc.NoDataPixels
        NDVIMin := (fun s => mathMin s r.NDVIMin)^[k] acc.NDVIMin
        NDVIMax := (fun s => mathMax s r.NDVIMax)^[k] acc.NDVIMax
        NDVIAverage := (fun s => Float64.add s r.NDVIAverage)^[k] acc.NDVIAverage } := by
  induction k with
  | zero => intro acc; rfl
  | succ k ih =>
    intro acc
    rw [List.replicate_succ, List.foldl_cons, ih]
    simp only [Function.iterate_succ_apply, aggregateFields]

/-- Adding `x` to itself `k` times in `int64` gives `(k + 1) * x` when `N * x` fits in 64 bits
and `k < N`. -/
theorem iterate_int64Add (x : Int) (N : Nat) (h1 : -2 ^ 63 ≤ (N : Int) * x)
    (h2 : (N : Int) * x < 2 ^ 63) (k : Nat) (hk : k < N) :
    (fun s => int64Add s x)^[k] x = ((k : Int) + 1) * x := by
  induction k with
  | zero => simp
  | succ k ih =>
    rw [Function.iterate_succ_apply', ih (by omega)]
    have hkN : ((k : Int) + 1 + 1) ≤ (N : Int) := by omega
    have hpos : (0 : Int) ≤ (k : Int) + 1 + 1 := by omega
    have e : ((k : Int) + 1) * x + x = ((k : Int) + 1 + 1) * x := by ring
    have b1 : -2 ^ 63 ≤ ((k : Int) + 1 + 1) * x := by
      rcases le_or_lt 0 x with hx | hx
      · have := mul_nonneg hpos hx; omega
      · have := mul_le_mul_of_nonpos_right hkN hx.le; omega
    have b2 : ((k : Int) + 1 + 1) * x < 2 ^ 63 := by
      rcases le_or_lt 0 x with hx | hx
      · have := mul_le_mul_of_nonneg_right hkN hx; omega
      · have := mul_nonpos_of_nonneg_of_nonpos hpos hx.le; omega
    rw [int64Add_eq _ _ (by rw [e]; exact b1) (by rw [e]; exact b2), e]
    push_cast
    ring

/-- The `int64` sum of `N ≥ 1` copies of `x`, divided by `N`, is `x` when the sum fits. -/
theorem average_iterate_int64Add (x : Int) (N : Nat) (hN : 1 ≤ N)
    (h1 : -2 ^ 63 ≤ (N : Int) * x) (h2 : (N : Int) * x < 2 ^ 63) :
    int64Div ((fun s => int64Add s x)^[N - 1] x) (N : Int) = x := by
  rw [iterate_int64Add x N h1 h2 (N - 1) (by omega), int64Div_eq _ _ (by omega)]
  have e : ((N - 1 : Nat) : Int) + 1 = (N : Int) := by omega
  rw [e]
  exact Int.mul_tdiv_cancel_left x (by omega)

theorem deref_alloc_two (h : MetricsHeap) (a b : Metrics) :
    deref (h ++ [a] ++ [b]) (some (h.length + 1)) = some b := by
  have := deref_alloc (h ++ [a]) b
  simpa using this

/-- The extremes of the accumulator come from the seed and the aggregated records only. -/
theorem foldl_aggregateFields_extremes (ns : List Metrics) :
    ∀ acc : Metrics,
      (ns.foldl aggregateFields acc).NDVIMin =
        (ns.map (fun n => n.NDVIMin)).foldl mathMin acc.NDVIMin ∧
      (ns.foldl aggregateFields acc).NDVIMax =
        (ns.map (fun n => n.NDVIMax)).foldl mathMax acc.NDVIMax := by
  induction ns with
  | nil => intro acc; exact ⟨rfl, rfl⟩
  | cons n ns ih =>
    intro acc
    simp only [List.foldl_cons, List.map_cons]
    exact ih (aggregateFields acc n)

/-- What `runBenchmark` returns as `NDVIMin` and `NDVIMax`: the running `math.Min` from
`MaxFloat64` and `math.Max` from `-MaxFloat64` over the records of the iterations after the
first; the extremes of the first record do not enter. -/
theorem runBenchmarkAverage_extremes (h : MetricsHeap) (p1 : MetricsPtr) (ps : List MetricsPtr)
    (n1 : Metrics) (ns : List Metrics) (h1 : deref h p1 = some n1)
    (hmap : ps.map (deref h) = ns.map some) :
    ∃ (h' : MetricsHeap) (result : MetricsPtr) (res : Metrics),
      runBenchmarkAverage h (p1 :: ps) = some (h', result) ∧ deref h' result = some res ∧
      res.NDVIMin = (ns.map (fun n => n.NDVIMin)).foldl mathMin (Float64.fin MaxFloat64) ∧
      res.NDVIMax = (ns.map (fun n => n.NDVIMax)).foldl mathMax (Float64.fin (-MaxFloat64)) := by
  refine ⟨_, _, _, runBenchmarkAverage_eq h p1 ps n1 ns h1 hmap, deref_alloc_two h _ _, ?_, ?_⟩
  · exact (foldl_aggregateFields_extremes ns _).1
  · exact (foldl_aggregateFields_extremes ns _).2

/-- In the range `[2^-1022, 2^1022]` rounding returns a finite value between `x / 2` and
`2 * x`. -/
theorem roundFloat64_of_range (x : ℚ) (h1 : (2 : ℚ) ^ (-1022 : Int) ≤ x)
    (h2 : x ≤ (2 : ℚ) ^ (1022 : Int)) :
    ∃ y : ℚ, roundFloat64 x = Float64.fin y ∧ x / 2 ≤ y ∧ y ≤ 2 * x := by
  have hx : 0 < x := lt_of_lt_of_le (by positivity) h1
  have habs : |x| = x := abs_of_pos hx
  unfold roundFloat64
  simp only [if_neg hx.ne', habs, if_pos hx]
  generalize he : max (floorLog2 x) (-1022) = e
  have hle : (2 : ℚ) ^ e ≤ x := by
    rw [← he]
    rcases le_total (floorLog2 x) (-1022) with hc | hc
    · rw [max_eq_right hc]; exact h1
    · rw [max_eq_left hc]; exact floorLog2_le x hx
  have hulp : (0 : ℚ) < (2 : ℚ) ^ (e - 52) := by positivity
  have hulp_le : (2 : ℚ) ^ (e - 52) ≤ x := by
    refine le_trans ?_ hle
    exact zpow_le_zpow_right₀ (by norm_num) (by omega)
  obtain ⟨hb1, hb2⟩ := roundHalfEven_bounds (x / (2 : ℚ) ^ (e - 52))
  have hy1 : x / 2 ≤ (roundHalfEven (x / (2 : ℚ) ^ (e - 52)) : ℚ) * (2 : ℚ) ^ (e - 52) := by
    have := mul_le_mul_of_nonneg_right hb1 hulp.le
    rw [sub_mul, div_mul_cancel₀ _ hulp.ne'] at this
    linarith
  have hy2 : (roundHalfEven (x / (2 : ℚ) ^ (e - 52)) : ℚ) * (2 : ℚ) ^ (e - 52) ≤ 2 * x := by
    have := mul_le_mul_of_nonneg_right hb2 hulp.le
    rw [add_mul, div_mul_cancel₀ _ hulp.ne'] at this
    linarith
  have hmax : ¬ (roundHalfEven (x / (2 : ℚ) ^ (e - 52)) : ℚ) * (2 : ℚ) ^ (e - 52) > MaxFloat64 := by
    have hM : 2 * (2 : ℚ) ^ (1022 : Int) ≤ MaxFloat64 := by
      unfold MaxFloat64
      norm_num
    linarith
  rw [if_neg hmax]
  exact ⟨_, rfl, hy1, hy2⟩

theorem roundFloat64_zero : roundFloat64 0 = Float64.fin 0 := by
  simp [roundFloat64]

/-- The conversion to `float64` of an integer in `[0, 2^63]` is finite, zero for zero and
positive otherwise. -/
theorem float64OfInt_nonneg (n : Int) (h0 : 0 ≤ n) (h1 : n ≤ 2 ^ 63) :
    ∃ y : ℚ, float64OfInt n = Float64.fin y ∧ (n : ℚ) / 2 ≤ y ∧ y ≤ 2 * (n : ℚ) := by
  unfold float64OfInt
  rcases eq_or_lt_of_le h0 with h | h
  · rw [← h]
    exact ⟨0, by simpa using roundFloat64_zero, by norm_num, by norm_num⟩
  · have hn1 : (1 : ℚ) ≤ (n : ℚ) := by exact_mod_cast (by omega : (1 : Int) ≤ n)
    have hn2 : (n : ℚ) ≤ 2 ^ 63 := by exact_mod_cast h1
    apply roundFloat64_of_range
    · refine le_trans ?_ hn1
      rw [← zpow_zero (2 : ℚ)]
      exact zpow_le_zpow_right₀ (by norm_num) (by norm_num)
    · refine le_trans hn2 ?_
      have : ((2 : ℚ) ^ (63 : Nat)) = (2 : ℚ) ^ (63 : Int) := by norm_cast
      rw [this]
      exact zpow_le_zpow_right₀ (by norm_num) (by norm_num)

/-- The number of seconds of a positive duration is a finite positive `float64`. -/
theorem durationSeconds_pos (d : Int) (h0 : 0 < d) (h1 : d < 2 ^ 63) :
    ∃ t : ℚ, durationSeconds d = Float64.fin t ∧ 0 < t := by
  have hsec0 : 0 ≤ d.tdiv 1000000000 := Int.tdiv_nonneg h0.le (by norm_num)
  have hns0 : 0 ≤ d.tmod 1000000000 := Int.tmod_nonneg _ h0.le
  have hns1 : d.tmod 1000000000 < 1000000000 := Int.tmod_lt_of_pos _ (by norm_num)
  have hsplit := Int.tdiv_add_tmod d 1000000000
  have hsec1 : d.tdiv 1000000000 ≤ 2 ^ 63 := by omega
  obtain ⟨s, hs, hs1, hs2⟩ := float64OfInt_nonneg _ hsec0 hsec1
  obtain ⟨n, hn, hn1, hn2⟩ := float64OfInt_nonneg _ hns0 (by omega)
  have hsq : (0 : ℚ) ≤ ((d.tdiv 1000000000 : Int) : ℚ) := by exact_mod_cast hsec0
  have hnq : (0 : ℚ) ≤ ((d.tmod 1000000000 : Int) : ℚ) := by exact_mod_cast hns0
  have hnq1 : ((d.tmod 1000000000 : Int) : ℚ) ≤ 1000000000 := by exact_mod_cast hns1.le
  have hsq1 : ((d.tdiv 1000000000 : Int) : ℚ) ≤ 2 ^ 63 := by exact_mod_cast hsec1
  -- the quotient `float64(nsec) / 1e9`
  have hq : ∃ y : ℚ, (Float64.fin n).div (Float64.fin 1000000000) = Float64.fin y ∧
      n / 4000000000 ≤ y ∧ y ≤ 4 := by
    have hdiv : (Float64.fin n).div (Float64.fin 1000000000) = roundFloat64 (n / 1000000000) := by
      simp [Float64.div]
    rw [hdiv]
    rcases eq_or_lt_of_le (le_trans (by positivity) hn1 : (0 : ℚ) ≤ n) with h | h
    · rw [← h]
      exact ⟨0, by simpa using roundFloat64_zero, by norm_num, by norm_num⟩
    · have hpos : 0 < ((d.tmod 1000000000 : Int) : ℚ) := by
        by_contra hc
        have : ((d.tmod 1000000000 : Int) : ℚ) = 0 := le_antisymm (not_lt.mp hc) hnq
        rw [this] at hn2
        linarith
      have hone : (1 : ℚ) ≤ ((d.tmod 1000000000 : Int) : ℚ) := by
        have : (0 : Int) < d.tmod 1000000000 := by exact_mod_cast hpos
        exact_mod_cast (by omega : (1 : Int) ≤ d.tmod 1000000000)
      obtain ⟨y, hy, hy1, hy2⟩ := roundFloat64_of_range (n / 1000000000)
        (by
          have h3 : (2 : ℚ) ^ (-1022 : Int) ≤ 1 / 2000000000 := by
            rw [show (-1022 : Int) = -((1022 : Nat) : Int) by norm_num, zpow_neg, zpow_natCast]
            norm_num
          have h4 : (1 : ℚ) / 2000000000 ≤ n / 1000000000 := by
            rw [div_le_div_iff₀ (by norm_num) (by norm_num)]
            linarith
          exact h3.trans h4)
        (by
          have h3 : n / 1000000000 ≤ 2 := by
            rw [div_le_iff₀ (by norm_num)]
            linarith
          have h4 : (2 : ℚ) ≤ (2 : ℚ) ^ (1022 : Int) := by
            have := zpow_le_zpow_right₀ (by norm_num : (1 : ℚ) ≤ 2) (by norm_num : (1 : Int) ≤ 1022)
            simpa using this
          exact h3.trans h4)
      refine ⟨y, hy, ?_, ?_⟩
      · have : n / 4000000000 = n / 1000000000 / 4 := by ring
        rw [this]; linarith
      · have h3 : n / 1000000000 ≤ 2 := by
          rw [div_le_iff₀ (by norm_num)]
          linarith
        linarith
  obtain ⟨y, hy, hy1, hy2⟩ := hq
  have hs0 : (0 : ℚ) ≤ s := le_trans (by positivity) hs1
  have hn0 : (0 : ℚ) ≤ n := le_trans (by positivity) hn1
  have hy0 : (0 : ℚ) ≤ y := le_trans (div_nonneg hn0 (by norm_num)) hy1
  have hsum_pos : 0 < s + y := by
    by_contra hc
    have hsz : s = 0 := by linarith
    have hyz : y = 0 := by linarith
    have hnz : n = 0 := by
      rw [hyz] at hy1
      have : n / 4000000000 ≤ 0 := hy1
      rw [div_le_iff₀ (by norm_num)] at this
      linarith
    have h3 : ((d.tdiv 1000000000 : Int) : ℚ) = 0 := by rw [hsz] at hs1; linarith
    have h4 : ((d.tmod 1000000000 : Int) : ℚ) = 0 := by rw [hnz] at hn1; linarith
    have h5 : d.tdiv 1000000000 = 0 := by exact_mod_cast h3
    have h6 : d.tmod 1000000000 = 0 := by exact_mod_cast h4
    omega
  -- a positive value of `s + y` is at least `1 / 8000000000`
  have hsum_lo : (1 : ℚ) / 8000000000 ≤ s + y := by
    rcases eq_or_lt_of_le hsec0 with h | h
    · have hns : 0 < d.tmod 1000000000 := by omega
      have hone : (1 : ℚ) ≤ ((d.tmod 1000000000 : Int) : ℚ) := by
        exact_mod_cast (by omega : (1 : Int) ≤ d.tmod 1000000000)
      have : (1 : ℚ) / 8000000000 ≤ n / 4000000000 := by
        rw [div_le_div_iff₀ (by norm_num) (by norm_num)]
        linarith
      linarith
    · have hone : (1 : ℚ) ≤ ((d.tdiv 1000000000 : Int) : ℚ) := by
        exact_mod_cast (by omega : (1 : Int) ≤ d.tdiv 1000000000)
      have : (1 : ℚ) / 8000000000 ≤ 1 / 2 := by norm_num
      linarith
  obtain ⟨t, ht, ht1, _⟩ := roundFloat64_of_range (s + y)
    (by
      have h3 : (2 : ℚ) ^ (-1022 : Int) ≤ 1 / 8000000000 := by
        rw [show (-1022 : Int) = -((1022 : Nat) : Int) by norm_num, zpow_neg, zpow_natCast]
        norm_num
      exact h3.trans hsum_lo)
    (by
      have h3 : s + y ≤ 2 ^ 65 := by
        have : (2 : ℚ) * 2 ^ 63 + 4 ≤ 2 ^ 65 := by norm_num
        linarith
      have h4 : ((2 : ℚ) ^ (65 : Nat)) ≤ (2 : ℚ) ^ (1022 : Int) := by
        have : ((2 : ℚ) ^ (65 : Nat)) = (2 : ℚ) ^ (65 : Int) := by norm_cast
        rw [this]
        exact zpow_le_zpow_right₀ (by norm_num) (by norm_num)
      exact h3.trans h4)
  refine ⟨t, ?_, by linarith⟩
  unfold durationSeconds
  rw [hs, hn, hy]
  exact ht

theorem findBaseTime_of_none (ms : List Metrics)
    (h : ∀ m ∈ ms, ¬ (m.ProcessorType = "CPU" ∧ m.NumThreads = 1)) :
    findBaseTime ms = Float64.fin 0 := by
  induction ms with
  | nil => rfl
  | cons m ms ih =>
    unfold findBaseTime
    rw [if_neg (h m (List.mem_cons_self _ _))]
    exact ih (fun x hx => h x (List.mem_cons_of_mem _ hx))

/-- Without a record of processor `CPU` and one thread the baseline is the total time of the
first record of the group. -/
theorem baselineTime_of_none (m0 : Metrics) (ms : List Metrics)
    (h : ∀ m ∈ m0 :: ms, ¬ (m.ProcessorType = "CPU" ∧ m.NumThreads = 1)) :
    baselineTime (m0 :: ms) = durationSeconds m0.TotalTime := by
  unfold baselineTime
  simp [findBaseTime_of_none (m0 :: ms) h]

theorem findBaseTime_of_first (pre post : List Metrics) (r : Metrics)
    (hpre : ∀ m ∈ pre, ¬ (m.ProcessorType = "CPU" ∧ m.NumThreads = 1))
    (hr : r.ProcessorType = "CPU" ∧ r.NumThreads = 1) :
    findBaseTime (pre ++ r :: post) = durationSeconds r.TotalTime := by
  induction pre with
  | nil => simp [findBaseTime, hr]
  | cons m pre ih =>
    rw [List.cons_append]
    unfold findBaseTime
    rw [if_neg (hpre m (List.mem_cons_self _ _))]
    exact ih (fun x hx => hpre x (List.mem_cons_of_mem _ hx))

/-- When the first record of processor `CPU` and one thread has a positive total time, the
baseline is that time. -/
theorem baselineTime_of_first (pre post : List Metrics) (r : Metrics)
    (hpre : ∀ m ∈ pre, ¬ (m.ProcessorType = "CPU" ∧ m.NumThreads = 1))
    (hr : r.ProcessorType = "CPU" ∧ r.NumThreads = 1)
    (h0 : 0 < r.TotalTime) (h1 : r.TotalTime < 2 ^ 63) :
    baselineTime (pre ++ r :: post) = durationSeconds r.TotalTime := by
  obtain ⟨t, ht, htpos⟩ := durationSeconds_pos r.TotalTime h0 h1
  unfold baselineTime
  simp only [findBaseTime_of_first pre post r hpre hr, ht]
  rw [if_neg]
  rintro ⟨h, _⟩
  have := Float64.fin.inj h
  linarith

/-- The search for the reference record returns the total time of the first record of processor
`CPU` and one thread, and `0` when there is none. -/
theorem findBaseTime_eq_find (ms : List Metrics) :
    findBaseTime ms =
      match ms.find? (fun m => decide (m.ProcessorType = "CPU" ∧ m.NumThreads = 1)) with
      | some r => durationSeconds r.TotalTime
      | none => Float64.fin 0 := by
  induction ms with
  | nil => rfl
  | cons m ms ih =>
    unfold findBaseTime
    by_cases h : m.ProcessorType = "CPU" ∧ m.NumThreads = 1
    · rw [if_pos h, List.find?_cons_of_pos _ (by simpa using h)]
    · rw [if_neg h, List.find?_cons_of_neg _ (by simpa using h)]
      exact ih

/-- The hypothesis on the total time in `baselineTime_of_first` is needed: when the reference
record has the total time `0`, the search result `baseTime == 0` is taken for "no such record"
and the baseline is the total time of the first record. -/
theorem baselineTime_zero_total_time :
    cpuOneZero.ProcessorType = "CPU" ∧ cpuOneZero.NumThreads = 1 ∧
    findBaseTime [gpuFiveSeconds, cpuOneZero] = Float64.fin 0 ∧
    baselineTime [gpuFiveSeconds, cpuOneZero] = durationSeconds gpuFiveSeconds.TotalTime := by
  decide!

/-- Checks of `roundFloat64` against IEEE 754 binary64: the literal `0.1`, a tie at `2^53 + 1`
that goes to the even neighbour, the smallest subnormal, the tie below it that goes to zero,
the largest finite value and the overflow threshold. -/
theorem roundFloat64_checks :
    roundFloat64 (1 / 10) = Float64.fin (3602879701896397 / 2 ^ 55) ∧
    roundFloat64 (2 ^ 53 + 1) = Float64.fin (2 ^ 53) ∧
    roundFloat64 (2 ^ 53 + 3) = Float64.fin (2 ^ 53 + 4) ∧
    roundFloat64 (1 / 2 ^ 1074) = Float64.fin (1 / 2 ^ 1074) ∧
    roundFloat64 (1 / 2 ^ 1075) = Float64.fin 0 ∧
    roundFloat64 MaxFloat64 = Float64.fin MaxFloat64 ∧
    roundFloat64 (2 ^ 1024 - 2 ^ 970 - 1) = Float64.fin MaxFloat64 ∧
    roundFloat64 (2 ^ 1024 - 2 ^ 970) = Float64.posInf ∧
    roundFloat64 (-(2 ^ 1024)) = Float64.negInf := by
  decide!

/-- In the range `[2^-1022, 2^1022]` rounding returns a finite value whose distance to `x` is at
most `x / 2^53`. -/
theorem roundFloat64_error (x : ℚ) (h1 : (2 : ℚ) ^ (-1022 : Int) ≤ x)
    (h2 : x ≤ (2 : ℚ) ^ (1022 : Int)) :
    ∃ y : ℚ, roundFloat64 x = Float64.fin y ∧ |y - x| ≤ x / 2 ^ 53 := by
  have hx : 0 < x := lt_of_lt_of_le (by positivity) h1
  have habs : |x| = x := abs_of_pos hx
  unfold roundFloat64
  simp only [if_neg hx.ne', habs, if_pos hx]
  generalize he : max (floorLog2 x) (-1022) = e
  have hle : (2 : ℚ) ^ e ≤ x := by
    rw [← he]
    rcases le_total (floorLog2 x) (-1022) with hc | hc
    · rw [max_eq_right hc]; exact h1
    · rw [max_eq_left hc]; exact floorLog2_le x hx
  have hulp : (0 : ℚ) < (2 : ℚ) ^ (e - 52) := by positivity
  have hulp_eq : (2 : ℚ) ^ (e - 52) = (2 : ℚ) ^ e / 2 ^ 52 := by
    rw [zpow_sub₀ (by norm_num)]
    norm_cast
  have hulp_le : (2 : ℚ) ^ (e - 52) / 2 ≤ x / 2 ^ 53 := by
    rw [hulp_eq, div_div, div_le_div_iff₀ (by positivity) (by positivity)]
    have : (2 : ℚ) ^ e * 2 ^ 53 ≤ x * 2 ^ 53 := mul_le_mul_of_nonneg_right hle (by positivity)
    linarith
  obtain ⟨hb1, hb2⟩ := roundHalfEven_bounds (x / (2 : ℚ) ^ (e - 52))
  have hy1 : x - (2 : ℚ) ^ (e - 52) / 2 ≤
      (roundHalfEven (x / (2 : ℚ) ^ (e - 52)) : ℚ) * (2 : ℚ) ^ (e - 52) := by
    have := mul_le_mul_of_nonneg_right hb1 hulp.le
    rw [sub_mul, div_mul_cancel₀ _ hulp.ne'] at this
    linarith
  have hy2 : (roundHalfEven (x / (2 : ℚ) ^ (e - 52)) : ℚ) * (2 : ℚ) ^ (e - 52) ≤
      x + (2 : ℚ) ^ (e - 52) / 2 := by
    have := mul_le_mul_of_nonneg_right hb2 hulp.le
    rw [add_mul, div_mul_cancel₀ _ hulp.ne'] at this
    linarith
  have hmax : ¬ (roundHalfEven (x / (2 : ℚ) ^ (e - 52)) : ℚ) * (2 : ℚ) ^ (e - 52) > MaxFloat64 := by
    have hM : 2 * (2 : ℚ) ^ (1022 : Int) ≤ MaxFloat64 := by
      unfold MaxFloat64
      norm_num
    have : x / 2 ^ 53 ≤ x := by
      rw [div_le_iff₀ (by positivity)]
      have : x * 1 ≤ x * 2 ^ 53 := mul_le_mul_of_nonneg_left (by norm_num) hx.le
      linarith
    linarith
  rw [if_neg hmax]
  refine ⟨_, rfl, ?_⟩
  rw [abs_le]
  constructor <;> linarith

/-- The conversion to `float64` of an integer in `[0, 2^53)` is exact. -/
theorem float64OfInt_exact (n : Int) (h0 : 0 ≤ n) (h1 : n < 2 ^ 53) :
    float64OfInt n = Float64.fin (n : ℚ) := by
  unfold float64OfInt
  rcases eq_or_lt_of_le h0 with h | h
  · rw [← h]
    simpa using roundFloat64_zero
  · have hx : (0 : ℚ) < (n : ℚ) := by exact_mod_cast h
    have hn2 : (n : ℚ) < 2 ^ 53 := by exact_mod_cast h1
    have habs : |(n : ℚ)| = (n : ℚ) := abs_of_pos hx
    unfold roundFloat64
    simp only [if_neg hx.ne', habs, if_pos hx]
    generalize he : max (floorLog2 (n : ℚ)) (-1022) = e
    have hfl : floorLog2 (n : ℚ) < 53 := by
      have := floorLog2_le (n : ℚ) hx
      by_contra hc
      have h53 : (2 : ℚ) ^ (53 : Int) ≤ (2 : ℚ) ^ floorLog2 (n : ℚ) :=
        zpow_le_zpow_right₀ (by norm_num) (by omega)
      have e53 : ((2 : ℚ) ^ (53 : Int)) = (2 : ℚ) ^ (53 : Nat) := by norm_cast
      rw [e53] at h53
      linarith
    have he52 : e ≤ 52 := by rw [← he]; omega
    obtain ⟨k, hk⟩ : ∃ k : Nat, e - 52 = -(k : Int) := ⟨(52 - e).toNat, by omega⟩
    have hulp : (2 : ℚ) ^ (e - 52) = 1 / 2 ^ k := by
      rw [hk, zpow_neg, zpow_natCast, one_div]
    have hq : (n : ℚ) / (2 : ℚ) ^ (e - 52) = ((n * 2 ^ k : Int) : ℚ) := by
      rw [hulp]
      push_cast
      field_simp
    rw [hq, roundHalfEven_intCast, hulp]
    have hy : ((n * 2 ^ k : Int) : ℚ) * (1 / 2 ^ k) = (n : ℚ) := by
      push_cast
      field_simp
    rw [hy]
    have hmax : ¬ (n : ℚ) > MaxFloat64 := by
      have : (2 : ℚ) ^ 53 ≤ MaxFloat64 := by unfold MaxFloat64; norm_num
      linarith
    rw [if_neg hmax]

/-- The quotient `float64(n) / k` of a positive integer below `2^53` by a constant `k` between
1 and `2^40`: the rounded value of `n / k`, with a relative error of at most `2^-53`. -/
theorem float64OfInt_div_const (n : Int) (k : ℚ) (hn1 : 1 ≤ n) (hn2 : n < 2 ^ 53) (hk1 : 1 ≤ k)
    (hk2 : k ≤ 2 ^ 40) :
    ∃ y : ℚ, (float64OfInt n).div (Float64.fin k) = Float64.fin y ∧
      roundFloat64 ((n : ℚ) / k) = Float64.fin y ∧
      |y - (n : ℚ) / k| ≤ (n : ℚ) / k / 2 ^ 53 ∧ |y * k - (n : ℚ)| ≤ (n : ℚ) / 2 ^ 53 := by
  have hk0 : 0 < k := by linarith
  have hq1 : (1 : ℚ) ≤ (n : ℚ) := by exact_mod_cast hn1
  have hq2 : (n : ℚ) < 2 ^ 53 := by exact_mod_cast hn2
  have hdiv : (float64OfInt n).div (Float64.fin k) = roundFloat64 ((n : ℚ) / k) := by
    rw [float64OfInt_exact n (by omega) hn2]
    simp [Float64.div, hk0.ne']
  have hlo : (2 : ℚ) ^ (-1022 : Int) ≤ (n : ℚ) / k := by
    have h3 : (2 : ℚ) ^ (-1022 : Int) ≤ 1 / 2 ^ 40 := by
      rw [show (-1022 : Int) = -((1022 : Nat) : Int) by norm_num, zpow_neg, zpow_natCast]
      norm_num
    have h4 : (1 : ℚ) / 2 ^ 40 ≤ (n : ℚ) / k := by
      rw [div_le_div_iff₀ (by positivity) hk0]
      nlinarith
    exact h3.trans h4
  have hhi : (n : ℚ) / k ≤ (2 : ℚ) ^ (1022 : Int) := by
    have h3 : (n : ℚ) / k ≤ 2 ^ 53 := by
      rw [div_le_iff₀ hk0]
      nlinarith
    have h4 : ((2 : ℚ) ^ (53 : Nat)) ≤ (2 : ℚ) ^ (1022 : Int) := by
      have : ((2 : ℚ) ^ (53 : Nat)) = (2 : ℚ) ^ (53 : Int) := by norm_cast
      rw [this]
      exact zpow_le_zpow_right₀ (by norm_num) (by norm_num)
    exact h3.trans h4
  obtain ⟨y, hy, herr⟩ := roundFloat64_error ((n : ℚ) / k) hlo hhi
  refine ⟨y, by rw [hdiv, hy], hy, herr, ?_⟩
  have e1 : y * k - (n : ℚ) = (y - (n : ℚ) / k) * k := by
    field_simp
  have e2 : (n : ℚ) / 2 ^ 53 = (n : ℚ) / k / 2 ^ 53 * k := by
    field_simp
    ring
  rw [e1, e2, abs_mul, abs_of_pos hk0]
  exact mul_le_mul_of_nonneg_right herr hk0.le

/-- The number of seconds of a duration of at least one second: a finite value `y` with
`|y * 10^9 - d| ≤ d / 2^51`. -/
theorem durationSeconds_error (d : Int) (h0 : 1000000000 ≤ d) (h1 : d < 2 ^ 63) :
    ∃ y : ℚ, durationSeconds d = Float64.fin y ∧
      |y * 1000000000 - (d : ℚ)| ≤ (d : ℚ) / 2 ^ 51 := by
  have hsplit := Int.tdiv_add_tmod d 1000000000
  have hns0 : 0 ≤ d.tmod 1000000000 := Int.tmod_nonneg _ (by omega)
  have hns1 : d.tmod 1000000000 < 1000000000 := Int.tmod_lt_of_pos _ (by norm_num)
  have hsec1 : 1 ≤ d.tdiv 1000000000 := by omega
  have hsec2 : d.tdiv 1000000000 < 2 ^ 53 := by omega
  generalize hsec : d.tdiv 1000000000 = sec at hsplit hsec1 hsec2
  generalize hnsec : d.tmod 1000000000 = nsec at hsplit hns0 hns1
  have hd : (d : ℚ) = 1000000000 * (sec : ℚ) + (nsec : ℚ) := by
    rw [← hsplit]; push_cast; ring
  have hsq1 : (1 : ℚ) ≤ (sec : ℚ) := by exact_mod_cast hsec1
  have hsq2 : (sec : ℚ) < 2 ^ 53 := by exact_mod_cast hsec2
  have hnq0 : (0 : ℚ) ≤ (nsec : ℚ) := by exact_mod_cast hns0
  have hnq1 : (nsec : ℚ) < 1000000000 := by exact_mod_cast hns1
  -- the quotient `float64(nsec) / 1e9`
  have hb : ∃ b : ℚ, (float64OfInt nsec).div (Float64.fin 1000000000) = Float64.fin b ∧
      |b - (nsec : ℚ) / 1000000000| ≤ (nsec : ℚ) / 1000000000 / 2 ^ 53 := by
    rcases eq_or_lt_of_le hns0 with h | h
    · rw [← h]
      refine ⟨0, ?_, by norm_num⟩
      rw [float64OfInt_exact 0 le_rfl (by norm_num)]
      simp [Float64.div, roundFloat64_zero]
    · obtain ⟨b, hb1, _, hb2, _⟩ := float64OfInt_div_const nsec 1000000000 (by omega) (by omega)
        (by norm_num) (by norm_num)
      exact ⟨b, hb1, hb2⟩
  obtain ⟨b, hb1, hb2⟩ := hb
  rw [abs_le] at hb2
  have hb0 : 0 ≤ b := by
    have : (0 : ℚ) ≤ (nsec : ℚ) / 1000000000 - (nsec : ℚ) / 1000000000 / 2 ^ 53 := by
      have : (nsec : ℚ) / 1000000000 / 2 ^ 53 ≤ (nsec : ℚ) / 1000000000 := by
        rw [div_le_iff₀ (by positivity)]
        have : (0 : ℚ) ≤ (nsec : ℚ) / 1000000000 := by positivity
        nlinarith
      linarith
    linarith
  have hb3 : b ≤ 2 := by
    have : (nsec : ℚ) / 1000000000 ≤ 1 := by
      rw [div_le_iff₀ (by norm_num)]; linarith
    have : (nsec : ℚ) / 1000000000 / 2 ^ 53 ≤ 1 := by
      rw [div_le_iff₀ (by positivity)]; linarith
    linarith
  obtain ⟨y, hy, herr⟩ := roundFloat64_error ((sec : ℚ) + b)
    (by
      have h3 : (2 : ℚ) ^ (-1022 : Int) ≤ 1 := by
        rw [show (-1022 : Int) = -((1022 : Nat) : Int) by norm_num, zpow_neg, zpow_natCast]
        norm_num
      linarith)
    (by
      have h3 : (sec : ℚ) + b ≤ 2 ^ 54 := by norm_num at hsq2 ⊢; linarith
      have h4 : ((2 : ℚ) ^ (54 : Nat)) ≤ (2 : ℚ) ^ (1022 : Int) := by
        have : ((2 : ℚ) ^ (54 : Nat)) = (2 : ℚ) ^ (54 : Int) := by norm_cast
        rw [this]
        exact zpow_le_zpow_right₀ (by norm_num) (by norm_num)
      exact h3.trans h4)
  refine ⟨y, ?_, ?_⟩
  · unfold durationSeconds
    rw [hsec, hnsec, hb1, float64OfInt_exact sec (by omega) hsec2]
    exact hy
  · rw [abs_le] at herr
    rw [abs_le, hd]
    have e1 : (nsec : ℚ) / 1000000000 / 2 ^ 53 = (nsec : ℚ) / (1000000000 * 2 ^ 53) := by
      rw [div_div]
    have e2 : ((sec : ℚ) + b) / 2 ^ 53 = (sec : ℚ) / 2 ^ 53 + b / 2 ^ 53 := by ring
    have e3 : (1000000000 * (sec : ℚ) + (nsec : ℚ)) / 2 ^ 51 =
        1000000000 * ((sec : ℚ) / 2 ^ 53) * 4 + (nsec : ℚ) / (1000000000 * 2 ^ 53) * 4000000000 := by
      field_simp
      ring
    have e4 : (nsec : ℚ) / 1000000000 = (nsec : ℚ) / (1000000000 * 2 ^ 53) * 2 ^ 53 := by
      field_simp
      ring
    have hs0 : (0 : ℚ) ≤ (sec : ℚ) / 2 ^ 53 := by positivity
    have hn0 : (0 : ℚ) ≤ (nsec : ℚ) / (1000000000 * 2 ^ 53) := by positivity
    have hbb : b / 2 ^ 53 ≤ (nsec : ℚ) / (1000000000 * 2 ^ 53) * 2 := by
      have hb' : b ≤ (nsec : ℚ) / 1000000000 * 2 := by
        have : (nsec : ℚ) / 1000000000 / 2 ^ 53 ≤ (nsec : ℚ) / 1000000000 := by
          rw [div_le_iff₀ (by positivity)]
          have : (0 : ℚ) ≤ (nsec : ℚ) / 1000000000 := by positivity
          nlinarith
        linarith
      rw [div_le_iff₀ (by positivity)]
      calc b ≤ (nsec : ℚ) / 1000000000 * 2 := hb'
        _ = (nsec : ℚ) / (1000000000 * 2 ^ 53) * 2 * 2 ^ 53 := by field_simp; ring
    have hb00 : 0 ≤ b / 2 ^ 53 := by positivity
    rw [e1] at hb2
    rw [e2] at herr
    rw [e3]
    constructor <;> nlinarith [hb2.1, hb2.2, herr.1, herr.2]

/-- An assignment through a pointer changes the record at that address and no other. -/
theorem deref_store_update (h : MetricsHeap) (p : MetricsPtr) (m r : Metrics)
    (hp : deref h p = some m) :
    deref (store h p r) p = some r ∧ ∀ q : MetricsPtr, q ≠ p → deref (store h p r) q = deref h q :=
  ⟨deref_store_same h p m r hp, fun q hq => deref_store_ne h q p r hq⟩

/-- The legacy colour function is `GetNDVIColor`: the two tables and the two bodies coincide. -/
theorem ndviColorOptimized_eq (v : ℚ) : Legacy.ndviColorOptimized v = GetNDVIColor v := rfl

theorem legacy_colorPixelStep_eq (ndviData : List ℚ) (colorPix : List Nat) (i : Nat) :
    Legacy.colorPixelStep ndviData colorPix i = colorPixelStep ndviData colorPix i := by
  rfl

theorem legacy_colorWorkerStep_eq (ndviData : List ℚ) (chunkSize pixelCount : Nat) :
    Legacy.colorWorkerStep ndviData chunkSize pixelCount =
      colorWorkerStep ndviData chunkSize pixelCount := by
  rfl

/-- The legacy `CalculateNDVI` in terms of the two functions it was split into: when
`Calculate` returns the statistics `m` and the raster `data`, and `Colorize` on that raster
returns `cm` and `img`, the legacy function returns the same statistics, image size and
image. -/
theorem CalculateNDVI_of_pipeline (nirResultado redResultado : Legacy.ResultadoBanda)
    (nirBand redBand : BandResult) (numThreads tiempoNDVI tiempoColor : Int)
    (hn : nirResultado.Imagen = nirBand.Image) (hr : redResultado.Imagen = redBand.Image)
    (m : NDVIMetrics) (data : List ℚ) (cm : ColorMetrics) (img : RGBAImage)
    (hc : Calculate nirBand redBand numThreads = some ⟨some m, some data, none⟩)
    (hz : Colorize data nirBand.Image.Width nirBand.Image.Height numThreads = some (cm, img)) :
    Legacy.CalculateNDVI nirResultado redResultado numThreads tiempoNDVI tiempoColor =
      some { metricasNDVI := some { Tiempo := tiempoNDVI
                                    PixelesTotales := m.TotalPixels
                                    PixelesSinDatos := m.NoDataPixels
                                    Min := m.Min
                                    Max := m.Max
                                    Promedio := m.Average }
             metricasColor := some { Tiempo := tiempoColor, TamanoImagen := cm.ImageSize }
             ndviColorImg := some img
             err := none } := by
  unfold Calculate at hc
  unfold Colorize at hz
  unfold Legacy.CalculateNDVI
  rw [hn, hr]
  by_cases hd : nirBand.Image.Width ≠ redBand.Image.Width ∨
      nirBand.Image.Height ≠ redBand.Image.Height
  · rw [if_pos hd] at hc
    simp at hc
  · rw [if_neg hd] at hc ⊢
    have hH : redBand.Image.Height = nirBand.Image.Height := by
      by_contra hcon; exact hd (Or.inr (fun e => hcon e.symm))
    by_cases hnt : numThreads ≤ 0
    · simp [hnt] at hc
    · simp only [hnt, if_false] at hc hz ⊢
      rw [hH] at hc ⊢
      cases hN : nirBand.Image.Data[0]? with
      | none => simp [hN] at hc
      | some nirData =>
        cases hR : redBand.Image.Data[0]? with
        | none => simp [hN, hR] at hc
        | some redData =>
          simp only [hN, hR] at hc ⊢
          cases hF : (List.range numThreads.toNat).foldlM
              (workerStep nirData redData
                ((nirBand.Image.Width * nirBand.Image.Height + numThreads.toNat - 1) /
                  numThreads.toNat)
                (nirBand.Image.Width * nirBand.Image.Height))
              { ndviData := List.replicate (nirBand.Image.Width * nirBand.Image.Height) 0
                minVals := List.replicate numThreads.toNat 0
                maxVals := List.replicate numThreads.toNat 0
                sums := List.replicate numThreads.toNat 0
                pixelsWithoutData := List.replicate numThreads.toNat 0 } with
          | none => simp [hF] at hc
          | some st =>
            simp only [hF] at hc ⊢
            cases h1 : st.minVals[0]? with
            | none => simp [h1] at hc
            | some mn0 =>
              cases h2 : st.maxVals[0]? with
              | none => simp [h1, h2] at hc
              | some mx0 =>
                cases h3 : st.sums[0]? with
                | none => simp [h1, h2, h3] at hc
                | some s0 =>
                  simp only [h1, h2, h3] at hc ⊢
                  cases hRed : (List.range' 1 (numThreads.toNat - 1)).foldlM
                      (reduceStep st.minVals st.maxVals st.sums) (mn0, mx0, s0) with
                  | none => simp [hRed] at hc
                  | some acc =>
                    obtain ⟨mn, mx, totalSum⟩ := acc
                    simp only [hRed, Option.some.injEq, CalcReturn.mk.injEq, and_true] at hc ⊢
                    obtain ⟨hm, hdata⟩ := hc
                    rw [legacy_colorWorkerStep_eq, hdata]
                    cases hCol : (List.range numThreads.toNat).foldlM
                        (colorWorkerStep data
                          ((nirBand.Image.Width * nirBand.Image.Height + numThreads.toNat - 1) /
                            numThreads.toNat)
                          (nirBand.Image.Width * nirBand.Image.Height))
                        (NewRGBA nirBand.Image.Width nirBand.Image.Height).Pix with
                    | none => simp [hCol] at hz
                    | some colorPix =>
                      simp only [hCol, Option.some.injEq, Prod.mk.injEq] at hz ⊢
                      obtain ⟨hcm, himg⟩ := hz
                      rw [← hm, ← hcm, ← himg]
/-- The accumulator of the legacy repetition loop: failed calls leave it unchanged, the first
completed run initializes it and the later ones are added to it. -/
theorem foldl_repetitionStep (outcomes : List (Except String Legacy.Metricas)) :
    ∀ st : Option Legacy.Metricas × Option String,
      (outcomes.foldl Legacy.repetitionStep st).1 =
        match st.1, Legacy.completedRuns outcomes with
        | some acc, runs => some (runs.foldl Legacy.AgregarMetricas acc)
        | none, [] => none
        | none, m0 :: ns =>
          some (ns.foldl Legacy.AgregarMetricas (Legacy.InicializarMetricasAcumuladas m0)) := by
  induction outcomes with
  | nil =>
    intro st
    rcases st with ⟨_ | acc, e⟩ <;> rfl
  | cons o os ih =>
    intro st
    rw [List.foldl_cons, ih]
    rcases st with ⟨_ | acc, e⟩ <;> rcases o with err | m <;>
      simp [Legacy.repetitionStep, Legacy.completedRuns]

/-- The record the legacy `main` appends for a configuration with at least one completed run:
the sum of the completed runs divided by the number of repetitions requested. -/
theorem cpuRepetitions_eq (outcomes : List (Except String Legacy.Metricas))
    (m0 : Legacy.Metricas) (ns : List Legacy.Metricas)
    (h : Legacy.completedRuns outcomes = m0 :: ns) :
    Legacy.cpuRepetitions outcomes =
      (Legacy.PromediarMetricas
        (ns.foldl Legacy.AgregarMetricas (Legacy.InicializarMetricasAcumuladas m0))
        (outcomes.length : Int)).map some := by
  unfold Legacy.cpuRepetitions
  simp only [foldl_repetitionStep, h]

/-- Two indices in the ranges `[w*c, w*c + c)` of different workers are different. -/
theorem chunk_disjoint (c w w2 i j : Nat) (hne : w ≠ w2) (h1 : w * c ≤ i) (h2 : i < w * c + c)
    (h3 : w2 * c ≤ j) (h4 : j < w2 * c + c) : i ≠ j := by
  rcases Nat.lt_or_gt_of_ne hne with h | h
  · have := Nat.mul_le_mul_right c (Nat.succ_le_of_lt h)
    rw [Nat.succ_mul] at this
    omega
  · have := Nat.mul_le_mul_right c (Nat.succ_le_of_lt h)
    rw [Nat.succ_mul] at this
    omega

theorem count_append_self (pre : List Nat) (w : Nat) : (pre ++ [w]).count w = pre.count w + 1 := by
  simp

theorem count_append_ne (pre : List Nat) (w w2 : Nat) (h : w ≠ w2) :
    (pre ++ [w]).count w2 = pre.count w2 := by
  rw [List.count_append, List.count_singleton]
  simp [h]

/-- The goroutines of `Calculate` before their first step. -/
theorem parInv_init (nirData redData : List ℚ) (c p n : Nat) :
    ParInv nirData redData c p n []
      { shared := { ndviData := List.replicate p 0
                    minVals := List.replicate n 0
                    maxVals := List.replicate n 0
                    sums := List.replicate n 0
                    pixelsWithoutData := List.replicate n 0 }
        workers := (List.range n).map (fun w => { i := w * c, loc := localInit, done := false }) } := by
  refine ⟨by simp, by simp, by simp, by simp, by simp, by simp, ?_⟩
  intro w g hg
  rw [List.getElem?_map] at hg
  have hw : w < n := by
    by_contra hc
    rw [List.getElem?_eq_none_iff.mpr (by simp; omega)] at hg
    cases hg
  rw [List.getElem?_range hw] at hg
  simp only [Option.map_some', Option.some.injEq] at hg
  subst hg
  simp only [Nat.sub_self, List.range'_zero, List.foldl_nil, List.count_nil, Nat.add_zero,
    List.getElem?_replicate, hw, if_true, Bool.false_eq_true, if_false, false_or, or_true,
    le_refl, true_and, false_implies]
  intro j h1 h2
  have hj : j < p := by omega
  simp [hj, not_lt.mpr h1]

/-- A step of a goroutine of `Calculate` does not panic and keeps the invariant. -/
theorem parInv_step (nirData redData : List ℚ) (c p n : Nat) (hln : p ≤ nirData.length)
    (hlr : p ≤ redData.length) (pre : List Nat) (s : ParState) (w : Nat) (hw : w < n)
    (h : ParInv nirData redData c p n pre s) :
    ∃ s2 : ParState, goroutineStep nirData redData c p s w = some s2 ∧
      ParInv nirData redData c p n (pre ++ [w]) s2 := by
  obtain ⟨hwl, hdl, hmin, hmax, hsum, hnd, hall⟩ := h
  have hlt : w < s.workers.length := by omega
  obtain ⟨g, hg⟩ : ∃ g, s.workers[w]? = some g := ⟨s.workers[w], List.getElem?_eq_getElem hlt⟩
  obtain ⟨hb1, hb2, hloc, hdone, hcnt, hmn, hmx, hsm, hno, hras⟩ := hall w g hg
  unfold goroutineStep
  simp only [hg]
  by_cases hd : g.done = true
  · rw [if_pos hd]
    refine ⟨s, rfl, hwl, hdl, hmin, hmax, hsum, hnd, ?_⟩
    intro w2 g2 hg2
    obtain ⟨k1, k2, k3, k4, k5, k6, k7, k8, k9, k10⟩ := hall w2 g2 hg2
    refine ⟨k1, k2, k3, k4, ?_, k6, k7, k8, k9, k10⟩
    by_cases hww : w = w2
    · subst hww
      rw [hg] at hg2
      cases hg2
      exact Or.inl hd
    · rw [count_append_ne pre w w2 hww]
      exact k5
  · rw [if_neg hd]
    have hdf : g.done = false := by simpa using hd
    have hcnt2 : g.i = w * c + pre.count w := by
      rcases hcnt with h | h
      · exact absurd h hd
      · exact h
    by_cases hi : g.i < min (w * c + c) p
    · rw [if_pos hi]
      have hip : g.i < p := by omega
      rw [pixelStep_eq nirData redData _ g.i (by omega) (by omega) (by simp only; omega)]
      refine ⟨_, rfl, ?_⟩
      refine ⟨by simp [hwl], by simp [hdl], hmin, hmax, hsum, hnd, ?_⟩
      intro w2 g2 hg2
      simp only [List.getElem?_set, hlt, if_true] at hg2
      by_cases hww : w = w2
      · subst hww
        simp only [if_true, Option.some.injEq] at hg2
        subst hg2
        simp only [Bool.false_eq_true, if_false, false_implies, false_or, true_and]
        rw [hdf] at hmn hmx hsm hno
        simp only [Bool.false_eq_true, if_false] at hmn hmx hsm hno
        refine ⟨by omega, Or.inl (by omega), ?_, ?_, hmn, hmx, hsm, hno, ?_⟩
        · have e : g.i + 1 - w * c = (g.i - w * c) + 1 := by omega
          rw [e, List.range'_concat, List.foldl_append, ← hloc]
          have e2 : w * c + 1 * (g.i - w * c) = g.i := by omega
          rw [e2]
          rfl
        · rw [count_append_self]; omega
        · intro j h1 h2
          rw [List.getElem?_set]
          by_cases hj : g.i = j
          · subst hj
            simp [hdl, hip]
          · rw [if_neg hj, hras j h1 h2]
            have : (j < g.i + 1) ↔ (j < g.i) := by omega
            simp only [this]
      · simp only [if_neg hww] at hg2
        obtain ⟨k1, k2, k3, k4, k5, k6, k7, k8, k9, k10⟩ := hall w2 g2 hg2
        refine ⟨k1, k2, k3, k4, ?_, k6, k7, k8, k9, ?_⟩
        · rw [count_append_ne pre w w2 hww]; exact k5
        · intro j h1 h2
          rw [List.getElem?_set]
          have hne : g.i ≠ j := chunk_disjoint c w w2 g.i j hww hb1 (by omega) h1 (by omega)
          rw [if_neg hne]
          exact k10 j h1 h2
    · rw [if_neg hi]
      refine ⟨_, rfl, ?_⟩
      refine ⟨by simp [hwl], hdl, by simp [hmin], by simp [hmax], by simp [hsum], by simp [hnd], ?_⟩
      intro w2 g2 hg2
      simp only [List.getElem?_set, hlt, if_true] at hg2
      by_cases hww : w = w2
      · subst hww
        simp only [if_true, Option.some.injEq] at hg2
        subst hg2
        simp only [if_true, true_or, true_and, List.getElem?_set, hmin, hmax, hsum, hnd, hw]
        exact ⟨hb1, hb2, hloc, fun _ => hi, hras⟩
      · simp only [if_neg hww] at hg2
        obtain ⟨k1, k2, k3, k4, k5, k6, k7, k8, k9, k10⟩ := hall w2 g2 hg2
        refine ⟨k1, k2, k3, k4, ?_, ?_, ?_, ?_, ?_, k10⟩
        · rw [count_append_ne pre w w2 hww]; exact k5
        · simp only [List.getElem?_set, if_neg hww]; exact k6
        · simp only [List.getElem?_set, if_neg hww]; exact k7
        · simp only [List.getElem?_set, if_neg hww]; exact k8
        · simp only [List.getElem?_set, if_neg hww]; exact k9

/-- The steps of a schedule do not panic and keep the invariant. -/
theorem parInv_run (nirData redData : List ℚ) (c p n : Nat) (hln : p ≤ nirData.length)
    (hlr : p ≤ redData.length) (sched : List Nat) :
    ∀ (pre : List Nat) (s : ParState), (∀ w ∈ sched, w < n) →
      ParInv nirData redData c p n pre s →
      ∃ s2 : ParState, sched.foldlM (goroutineStep nirData redData c p) s = some s2 ∧
        ParInv nirData redData c p n (pre ++ sched) s2 := by
  induction sched with
  | nil =>
    intro pre s _ h
    exact ⟨s, rfl, by simpa using h⟩
  | cons w ws ih =>
    intro pre s hs h
    obtain ⟨s1, h1, hinv1⟩ := parInv_step nirData redData c p n hln hlr pre s w
      (hs w (List.mem_cons_self _ _)) h
    obtain ⟨s2, h2, hinv2⟩ := ih (pre ++ [w]) s1 (fun x hx => hs x (List.mem_cons_of_mem _ hx))
      hinv1
    refine ⟨s2, ?_, by simpa using hinv2⟩
    rw [List.foldlM_cons, h1]
    exact h2

/-- The state the sequential worker loop of `Calculate` ends in. -/
theorem workers_sequential (nirData redData : List ℚ) (p n : Nat) (hn0 : 0 < n)
    (hln : p ≤ nirData.length) (hlr : p ≤ redData.length) :
    (List.range n).foldlM (workerStep nirData redData ((p + n - 1) / n) p)
        { ndviData := List.replicate p 0
          minVals := List.replicate n 0
          maxVals := List.replicate n 0
          sums := List.replicate n 0
          pixelsWithoutData := List.replicate n 0 } =
      some (joinedState nirData redData ((p + n - 1) / n) p n) := by
  have hcover : min (n * ((p + n - 1) / n)) p = p := by
    have := pixelCount_le_chunks p n hn0
    omega
  rw [foldlM_workerStep nirData redData _ p hln hlr (List.range n) _ (by simp)]
  simp only [flatMap_chunkIdx, hcover, foldl_set_replicate, joinedState]

/-- When every worker has been given at least one step more than its loop has iterations, all
goroutines of `Calculate` have returned and the shared slices are those the sequential loop
produces. -/
theorem parInv_joined (nirData redData : List ℚ) (p n : Nat) (hn0 : 0 < n) (sched : List Nat)
    (s : ParState)
    (hfair : ∀ w : Nat, w < n → (chunkIdx ((p + n - 1) / n) p w).length + 1 ≤ sched.count w)
    (h : ParInv nirData redData ((p + n - 1) / n) p n sched s) :
    s.workers.all (fun g => g.done) = true ∧
      s.shared = joinedState nirData redData ((p + n - 1) / n) p n := by
  have hcover := pixelCount_le_chunks p n hn0
  generalize hc : (p + n - 1) / n = c at *
  obtain ⟨hwl, hdl, hmin, hmax, hsum, hnd, hall⟩ := h
  -- every goroutine has returned, with its loop at its end
  have hfin : ∀ (w : Nat) (g : Goroutine), s.workers[w]? = some g →
      g.done = true ∧ g.loc = workerLocal nirData redData c p w := by
    intro w g hg
    have hw : w < n := by
      by_contra hcon
      rw [List.getElem?_eq_none_iff.mpr (by omega)] at hg
      cases hg
    obtain ⟨hb1, hb2, hloc, hdone, hcnt, -⟩ := hall w g hg
    have hd : g.done = true := by
      rcases hcnt with h | h
      · exact h
      · have := hfair w hw
        rw [chunkIdx, List.length_range'] at this
        omega
    refine ⟨hd, ?_⟩
    have hend := hdone hd
    have e : g.i - w * c = min (w * c + c) p - w * c := by omega
    rw [hloc, e]
    rfl
  constructor
  · rw [List.all_eq_true]
    intro g hgm
    obtain ⟨w, hw, rfl⟩ := List.getElem_of_mem hgm
    exact (hfin w _ (List.getElem?_eq_getElem hw)).1
  · have hslot : ∀ (f : WorkerLocal → ℚ) (l : List ℚ), l.length = n →
        (∀ (w : Nat) (g : Goroutine), s.workers[w]? = some g →
          l[w]? = some (if g.done then f g.loc else 0)) →
        l = (List.range n).map (fun w => f (workerLocal nirData redData c p w)) := by
      intro f l hl hval
      apply List.ext_getElem?
      intro w
      by_cases hw : w < n
      · have hg := List.getElem?_eq_getElem (by omega : w < s.workers.length)
        obtain ⟨hd, hloc⟩ := hfin w _ hg
        rw [hval w _ hg, hd, if_pos rfl, hloc, List.getElem?_map, List.getElem?_range hw]
        rfl
      · rw [List.getElem?_eq_none_iff.mpr (by omega),
          List.getElem?_eq_none_iff.mpr (by simp; omega)]
    have hslotN : s.shared.pixelsWithoutData =
        (List.range n).map (fun w => (workerLocal nirData redData c p w).localNoData) := by
      apply List.ext_getElem?
      intro w
      by_cases hw : w < n
      · have hg := List.getElem?_eq_getElem (by omega : w < s.workers.length)
        obtain ⟨hd, hloc⟩ := hfin w _ hg
        obtain ⟨-, -, -, -, -, -, -, -, k9, -⟩ := hall w _ hg
        rw [k9, hd, if_pos rfl, hloc, List.getElem?_map, List.getElem?_range hw]
        rfl
      · rw [List.getElem?_eq_none_iff.mpr (by omega),
          List.getElem?_eq_none_iff.mpr (by simp; omega)]
    have hdata : s.shared.ndviData = (List.range p).map (ndviAt nirData redData) := by
      apply List.ext_getElem?
      intro j
      by_cases hj : j < p
      · have hcpos : 0 < c := by
          rcases Nat.eq_zero_or_pos c with h0 | h0
          · subst h0; omega
          · exact h0
        have hw : j / c < n := by
          rw [Nat.div_lt_iff_lt_mul hcpos]
          omega
        have h1 := Nat.div_mul_le_self j c
        have h2 := Nat.lt_div_mul_add hcpos (a := j)
        have hg := List.getElem?_eq_getElem (by omega : j / c < s.workers.length)
        obtain ⟨hb1, hb2, -, hdone, -, -, -, -, -, hras⟩ := hall (j / c) _ hg
        have hend := hdone (hfin (j / c) _ hg).1
        rw [hras j h1 (by omega), if_pos (by omega), List.getElem?_map, List.getElem?_range hj]
        rfl
      · rw [List.getElem?_eq_none_iff.mpr (by omega),
          List.getElem?_eq_none_iff.mpr (by simp; omega)]
    have e1 := hslot (fun l => l.localMin) s.shared.minVals hmin
      (fun w g hg => (hall w g hg).2.2.2.2.2.1)
    have e2 := hslot (fun l => l.localMax) s.shared.maxVals hmax
      (fun w g hg => (hall w g hg).2.2.2.2.2.2.1)
    have e3 := hslot (fun l => l.localSum) s.shared.sums hsum
      (fun w g hg => (hall w g hg).2.2.2.2.2.2.2.1)
    unfold joinedState
    rcases s with ⟨⟨d, a, b, cc, e⟩, ws⟩
    simp only at e1 e2 e3 hslotN hdata
    rw [e1, e2, e3, hslotN, hdata]

/-- Under every schedule that gives each worker at least one step more than its loop has
iterations, `Calculate` run with interleaved goroutines returns what the sequential model
returns. -/
theorem CalculatePar_eq (nirBand redBand : BandResult) (numThreads : Int)
    (nirData redData : List ℚ)
    (hW : nirBand.Image.Width = redBand.Image.Width)
    (hH : nirBand.Image.Height = redBand.Image.Height)
    (hn : nirBand.Image.Data[0]? = some nirData) (hr : redBand.Image.Data[0]? = some redData)
    (hln : nirBand.Image.Width * nirBand.Image.Height ≤ nirData.length)
    (hlr : nirBand.Image.Width * nirBand.Image.Height ≤ redData.length)
    (hw : 1 ≤ numThreads) (sched : List Nat) (hs : ∀ w ∈ sched, w < numThreads.toNat)
    (hfair : ∀ w : Nat, w < numThreads.toNat →
      (chunkIdx
        ((nirBand.Image.Width * nirBand.Image.Height + numThreads.toNat - 1) / numThreads.toNat)
        (nirBand.Image.Width * nirBand.Image.Height) w).length + 1 ≤ sched.count w) :
    CalculatePar nirBand redBand numThreads sched = Calculate nirBand redBand numThreads := by
  have hn0 : 0 < numThreads.toNat := by omega
  have hcond : ¬ (nirBand.Image.Width ≠ redBand.Image.Width ∨
      nirBand.Image.Height ≠ redBand.Image.Height) := by simp [hW, hH]
  have hnt : ¬ (numThreads ≤ 0) := by omega
  obtain ⟨s, hrun, hinv⟩ := parInv_run nirData redData
    ((nirBand.Image.Width * nirBand.Image.Height + numThreads.toNat - 1) / numThreads.toNat)
    (nirBand.Image.Width * nirBand.Image.Height) numThreads.toNat hln hlr sched [] _ hs
    (parInv_init nirData redData _ _ _)
  rw [List.nil_append] at hinv
  obtain ⟨hdone, hshared⟩ := parInv_joined nirData redData _ _ hn0 sched s hfair hinv
  have hseq := workers_sequential nirData redData
    (nirBand.Image.Width * nirBand.Image.Height) numThreads.toNat hn0 hln hlr
  unfold CalculatePar Calculate
  rw [if_neg hcond, if_neg hcond]
  simp only [hnt, if_false, hn, hr, ← hH]
  have hrun2 : sched.foldlM (goroutineStep nirData redData
      ((nirBand.Image.Width * nirBand.Image.Height + numThreads.toNat - 1) / numThreads.toNat)
      (nirBand.Image.Width * nirBand.Image.Height))
      { shared := { ndviData := List.replicate (nirBand.Image.Width * nirBand.Image.Height) 0
                    minVals := List.replicate numThreads.toNat 0
                    maxVals := List.replicate numThreads.toNat 0
                    sums := List.replicate numThreads.toNat 0
                    pixelsWithoutData := List.replicate numThreads.toNat 0 }
        workers := (List.range numThreads.toNat).map (fun w =>
          { i := w * ((nirBand.Image.Width * nirBand.Image.Height + numThreads.toNat - 1) /
                  numThreads.toNat)
            loc := { localMin := MaxFloat64, localMax := -MaxFloat64, localSum := 0,
                     localNoData := 0 }
            done := false }) } = some s := hrun
  rw [hrun2, hseq]
  simp only [hdone, if_true, hshared]

/-- The byte offsets of pixel `i` are the offsets `j * 4 + k`, `k < 4`, with `j = i`. -/
theorem mem_pixelBytes (i j k : Nat) (hk : k < 4) : j * 4 + k ∈ pixelBytes i ↔ j = i := by
  unfold pixelBytes
  simp only [List.mem_cons, List.mem_singleton, List.not_mem_nil, or_false]
  omega

/-- The goroutines of `Colorize` before their first step. -/
theorem colorInv_init (ndviData : List ℚ) (c p n : Nat) (pix : List Nat)
    (hpix : pix = List.replicate (4 * p) 0) :
    ColorInv ndviData c p n [] { colorPix := pix, next := (List.range n).map (fun w => w * c) } := by
  subst hpix
  refine ⟨by simp, by simp, ?_⟩
  intro w i hi
  rw [List.getElem?_map] at hi
  have hw : w < n := by
    by_contra hc
    rw [List.getElem?_eq_none_iff.mpr (by simp; omega)] at hi
    cases hi
  rw [List.getElem?_range hw] at hi
  simp only [Option.map_some', Option.some.injEq] at hi
  subst hi
  refine ⟨le_refl _, Or.inr rfl, Or.inr (by simp), ?_⟩
  intro j k h1 h2 hk
  have hj : j * 4 + k < 4 * p := by omega
  simp [List.getElem?_replicate, hj, not_lt.mpr h1]

/-- A step of a goroutine of `Colorize` does not panic and keeps the invariant. -/
theorem colorInv_step (ndviData : List ℚ) (c p n : Nat) (hld : p ≤ ndviData.length)
    (pre : List Nat) (s : ColorPar) (w : Nat) (hw : w < n)
    (h : ColorInv ndviData c p n pre s) :
    ∃ s2 : ColorPar, colorGoroutineStep ndviData c p s w = some s2 ∧
      ColorInv ndviData c p n (pre ++ [w]) s2 := by
  obtain ⟨hnl, hpl, hall⟩ := h
  have hlt : w < s.next.length := by omega
  obtain ⟨i, hi⟩ : ∃ i, s.next[w]? = some i := ⟨s.next[w], List.getElem?_eq_getElem hlt⟩
  obtain ⟨hb1, hb2, hcnt, hbytes⟩ := hall w i hi
  unfold colorGoroutineStep
  simp only [hi]
  by_cases hend : i < min (w * c + c) p
  · rw [if_pos hend]
    have hcnt2 : i = w * c + pre.count w := by
      rcases hcnt with h | h
      · exact absurd hend h
      · exact h
    rw [colorPixelStep_eq ndviData s.colorPix i (by omega) (by omega)]
    refine ⟨_, rfl, by simp [hnl], by simp [length_foldl_set, hpl], ?_⟩
    intro w2 i2 hi2
    simp only [List.getElem?_set, hlt, if_true] at hi2
    by_cases hww : w = w2
    · subst hww
      simp only [if_true, Option.some.injEq] at hi2
      subst hi2
      refine ⟨by omega, Or.inl (by omega), Or.inr (by rw [count_append_self]; omega), ?_⟩
      intro j k h1 h2 hk
      rw [getElem?_foldl_set]
      by_cases hj : j = i
      · subst hj
        rw [if_pos ⟨(mem_pixelBytes j j k hk).mpr rfl, by omega⟩, if_pos (by omega)]
      · rw [if_neg (fun hc => hj ((mem_pixelBytes i j k hk).mp hc.1)), hbytes j k h1 h2 hk]
        have : (j < i + 1) ↔ (j < i) := by omega
        simp only [this]
    · simp only [if_neg hww] at hi2
      obtain ⟨k1, k2, k3, k4⟩ := hall w2 i2 hi2
      refine ⟨k1, k2, ?_, ?_⟩
      · rw [count_append_ne pre w w2 hww]; exact k3
      · intro j k h1 h2 hk
        have hne : i ≠ j := chunk_disjoint c w w2 i j hww hb1 (by omega) h1 (by omega)
        rw [getElem?_foldl_set,
          if_neg (fun hc => hne ((mem_pixelBytes i j k hk).mp hc.1).symm)]
        exact k4 j k h1 h2 hk
  · rw [if_neg hend]
    refine ⟨s, rfl, hnl, hpl, ?_⟩
    intro w2 i2 hi2
    obtain ⟨k1, k2, k3, k4⟩ := hall w2 i2 hi2
    refine ⟨k1, k2, ?_, k4⟩
    by_cases hww : w = w2
    · subst hww
      rw [hi] at hi2
      cases hi2
      exact Or.inl hend
    · rw [count_append_ne pre w w2 hww]; exact k3

/-- The steps of a schedule of `Colorize` do not panic and keep the invariant. -/
theorem colorInv_run (ndviData : List ℚ) (c p n : Nat) (hld : p ≤ ndviData.length)
    (sched : List Nat) :
    ∀ (pre : List Nat) (s : ColorPar), (∀ w ∈ sched, w < n) →
      ColorInv ndviData c p n pre s →
      ∃ s2 : ColorPar, sched.foldlM (colorGoroutineStep ndviData c p) s = some s2 ∧
        ColorInv ndviData c p n (pre ++ sched) s2 := by
  induction sched with
  | nil =>
    intro pre s _ h
    exact ⟨s, rfl, by simpa using h⟩
  | cons w ws ih =>
    intro pre s hs h
    obtain ⟨s1, h1, hinv1⟩ := colorInv_step ndviData c p n hld pre s w
      (hs w (List.mem_cons_self _ _)) h
    obtain ⟨s2, h2, hinv2⟩ := ih (pre ++ [w]) s1 (fun x hx => hs x (List.mem_cons_of_mem _ hx))
      hinv1
    refine ⟨s2, ?_, by simpa using hinv2⟩
    rw [List.foldlM_cons, h1]
    exact h2

/-- The pixel buffer the sequential worker loop of `Colorize` ends with. -/
theorem colorWorkers_sequential (ndviData : List ℚ) (width height n : Nat) (hn0 : 0 < n)
    (hld : width * height ≤ ndviData.length) :
    (List.range n).foldlM
        (colorWorkerStep ndviData ((width * height + n - 1) / n) (width * height))
        (NewRGBA width height).Pix =
      some ((List.range (4 * (width * height))).map (byteAt ndviData)) := by
  have hcover : min (n * ((width * height + n - 1) / n)) (width * height) = width * height := by
    have := pixelCount_le_chunks (width * height) n hn0
    omega
  simp only [NewRGBA]
  rw [foldlM_colorWorkerStep ndviData _ _ hld _ _ (by simp [Nat.mul_assoc]),
    flatMap_chunkIdx, hcover]
  congr 1
  apply List.ext_getElem?
  intro j
  have e4 : 4 * width * height = 4 * (width * height) := Nat.mul_assoc 4 width height
  rw [getElem?_foldl_set, List.getElem?_map, List.getElem?_replicate, List.length_replicate, e4]
  by_cases hj : j < 4 * (width * height)
  · have hm := (mem_flatMap_pixelBytes (width * height) j).mpr hj
    rw [if_pos ⟨hm, hj⟩, List.getElem?_range hj]
    rfl
  · have : (List.range (4 * (width * height)))[j]? = none := by
      rw [List.getElem?_eq_none_iff]; simp; omega
    simp [hj, this]

/-- When every worker has been given at least as many steps as its loop has iterations, the
loops of all goroutines of `Colorize` have ended and the pixel buffer is the one the sequential
loop produces. -/
theorem colorInv_joined (ndviData : List ℚ) (p n : Nat) (hn0 : 0 < n) (sched : List Nat)
    (s : ColorPar)
    (hfair : ∀ w : Nat, w < n → (chunkIdx ((p + n - 1) / n) p w).length ≤ sched.count w)
    (h : ColorInv ndviData ((p + n - 1) / n) p n sched s) :
    (List.range n).all (fun w =>
        decide (¬ s.next.getD w 0 < min (w * ((p + n - 1) / n) + (p + n - 1) / n) p)) = true ∧
      s.colorPix = (List.range (4 * p)).map (byteAt ndviData) := by
  have hcover := pixelCount_le_chunks p n hn0
  generalize hc : (p + n - 1) / n = c at *
  obtain ⟨hnl, hpl, hall⟩ := h
  have hfin : ∀ (w i : Nat), s.next[w]? = some i → ¬ i < min (w * c + c) p := by
    intro w i hi
    have hw : w < n := by
      by_contra hcon
      rw [List.getElem?_eq_none_iff.mpr (by omega)] at hi
      cases hi
    obtain ⟨hb1, hb2, hcnt, -⟩ := hall w i hi
    rcases hcnt with h | h
    · exact h
    · have := hfair w hw
      rw [chunkIdx, List.length_range'] at this
      omega
  constructor
  · rw [List.all_eq_true]
    intro w hw
    rw [List.mem_range] at hw
    have hi := List.getElem?_eq_getElem (by omega : w < s.next.length)
    have := hfin w _ hi
    simp only [List.getD_eq_getElem?_getD, hi, Option.getD_some, decide_eq_true_eq]
    exact this
  · apply List.ext_getElem?
    intro m
    by_cases hm : m < 4 * p
    · have hcpos : 0 < c := by
        rcases Nat.eq_zero_or_pos c with h0 | h0
        · subst h0; omega
        · exact h0
      have hjp : m / 4 < p := by omega
      have hw : m / 4 / c < n := by
        rw [Nat.div_lt_iff_lt_mul hcpos]
        omega
      have h1 := Nat.div_mul_le_self (m / 4) c
      have h2 := Nat.lt_div_mul_add hcpos (a := m / 4)
      have hi := List.getElem?_eq_getElem (by omega : m / 4 / c < s.next.length)
      obtain ⟨hb1, hb2, -, hbytes⟩ := hall (m / 4 / c) _ hi
      have hend := hfin (m / 4 / c) _ hi
      have hmk : m / 4 * 4 + m % 4 = m := by omega
      have := hbytes (m / 4) (m % 4) h1 (by omega) (by omega)
      rw [hmk] at this
      rw [this, if_pos (by omega), List.getElem?_map, List.getElem?_range hm]
      rfl
    · rw [List.getElem?_eq_none_iff.mpr (by omega),
        List.getElem?_eq_none_iff.mpr (by simp; omega)]

/-- Under every schedule that gives each worker at least as many steps as its loop has
iterations, `Colorize` run with interleaved goroutines returns what the sequential model
returns. -/
theorem ColorizePar_eq (ndviData : List ℚ) (width height : Nat) (numThreads : Int)
    (hld : width * height ≤ ndviData.length) (hw : 1 ≤ numThreads) (sched : List Nat)
    (hs : ∀ w ∈ sched, w < numThreads.toNat)
    (hfair : ∀ w : Nat, w < numThreads.toNat →
      (chunkIdx ((width * height + numThreads.toNat - 1) / numThreads.toNat) (width * height)
        w).length ≤ sched.count w) :
    ColorizePar ndviData width height numThreads sched =
      Colorize ndviData width height numThreads := by
  have hn0 : 0 < numThreads.toNat := by omega
  have hnt : ¬ (numThreads ≤ 0) := by omega
  obtain ⟨s, hrun, hinv⟩ := colorInv_run ndviData
    ((width * height + numThreads.toNat - 1) / numThreads.toNat) (width * height)
    numThreads.toNat hld sched [] _ hs
    (colorInv_init ndviData _ (width * height) _ (NewRGBA width height).Pix
      (by simp [NewRGBA, Nat.mul_assoc]))
  rw [List.nil_append] at hinv
  obtain ⟨hdone, hpix⟩ := colorInv_joined ndviData _ _ hn0 sched s hfair hinv
  have hseq := colorWorkers_sequential ndviData width height numThreads.toNat hn0 hld
  unfold ColorizePar Colorize
  simp only [hnt, if_false]
  rw [hrun, hseq]
  simp only [hdone, if_true, hpix]

/-! ## The claims -/

/-- C1: on two band rasters of equal width and height whose first components hold
`Width * Height` samples, and with at least one worker, `Calculate` returns no error and a
raster of length `Width * Height` whose value at every pixel index `i` is the `float64` value
of `(nir[i] - red[i]) / (nir[i] + red[i])`, the difference, the sum and the quotient each
rounded to `float64`, when `nir[i] + red[i] > 0`, and `0` otherwise.  On `float32` samples the
three operations of IEEE 754 arithmetic, with its exponent range and special values, give that
finite value. -/
theorem calculate_raster_values (nirBand redBand : BandResult) (numThreads : Int)
    (nirData redData : List ℚ)
    (hW : nirBand.Image.Width = redBand.Image.Width)
    (hH : nirBand.Image.Height = redBand.Image.Height)
    (hn : nirBand.Image.Data[0]? = some nirData) (hr : redBand.Image.Data[0]? = some redData)
    (hln : nirData.length = nirBand.Image.Width * nirBand.Image.Height)
    (hlr : redData.length = nirBand.Image.Width * nirBand.Image.Height)
    (hw : 1 ≤ numThreads) :
    ∃ (m : NDVIMetrics) (data : List ℚ),
      Calculate nirBand redBand numThreads = some ⟨some m, some data, none⟩ ∧
      data.length = nirBand.Image.Width * nirBand.Image.Height ∧
      ∀ (i : Nat) (n r : ℚ), nirData[i]? = some n → redData[i]? = some r →
        data[i]? = some (if n + r > 0 then fdiv (fsub n r) (fadd n r) else 0) ∧
        (IsFloat32 n → IsFloat32 r → n + r > 0 →
          ((Float64.fin n).sub (Float64.fin r)).div ((Float64.fin n).add (Float64.fin r)) =
            Float64.fin (fdiv (fsub n r) (fadd n r))) := by
  refine ⟨_, _, Calculate_eq nirBand redBand numThreads nirData redData hW hH hn hr hln.ge hlr.ge hw,
    by simp, ?_⟩
  intro i n r hi hj
  refine ⟨getElem?_map_ndviAt nirData redData _ i n r hln hi hj, ?_⟩
  intro hfn hfr hpos
  obtain ⟨e1, e2, e3⟩ := pixelNDVI_ieee n r hfn hfr hpos
  rw [e1, e2, e3]

/-- C1, on two pixels and three workers: the pixel with `nir = float32(0.8) = 13421773 / 2^24`
and `red = float32(0.2) = 13421773 / 2^26` gets `5404319552844595 / 2^53`, which is the
`float64` nearest to `0.6`; the pixel with `nir = red = 0` gets `0`. -/
theorem calculate_raster_values_witness :
    (∃ m, Calculate ⟨⟨2, 1, 1, [[13421773 / 2 ^ 24, 0]]⟩⟩ ⟨⟨2, 1, 1, [[13421773 / 2 ^ 26, 0]]⟩⟩ 3 =
      some ⟨some m, some [5404319552844595 / 2 ^ 53, 0], none⟩) ∧
    roundFloat64 (3 / 5) = Float64.fin (5404319552844595 / 2 ^ 53) := by
  obtain ⟨m, data, h, hlen, hval⟩ := calculate_raster_values
    ⟨⟨2, 1, 1, [[13421773 / 2 ^ 24, 0]]⟩⟩ ⟨⟨2, 1, 1, [[13421773 / 2 ^ 26, 0]]⟩⟩ 3
    [13421773 / 2 ^ 24, 0] [13421773 / 2 ^ 26, 0] rfl rfl rfl rfl rfl rfl (by decide)
  have h0 := (hval 0 (13421773 / 2 ^ 24) (13421773 / 2 ^ 26) (by decide!) (by decide!)).1
  have h1 := (hval 1 0 0 rfl rfl).1
  have e0 : (if (13421773 / 2 ^ 24 : ℚ) + 13421773 / 2 ^ 26 > 0 then
      fdiv (fsub (13421773 / 2 ^ 24) (13421773 / 2 ^ 26))
        (fadd (13421773 / 2 ^ 24) (13421773 / 2 ^ 26)) else 0) = 5404319552844595 / 2 ^ 53 := by
    decide!
  have e1 : (if (0 : ℚ) + 0 > 0 then fdiv (fsub 0 0) (fadd 0 0) else 0) = 0 := by decide!
  rw [e0] at h0
  rw [e1] at h1
  refine ⟨⟨m, ?_⟩, by decide!⟩
  rw [h]
  match data, hlen, h0, h1 with
  | [a, b], _, h0, h1 =>
    simp only [List.getElem?_cons_zero, List.getElem?_cons_succ, Option.some.injEq] at h0 h1
    rw [h0, h1]

/-- C2: on well-formed input and with at least one worker, the `NoDataPixels` statistic is the
number of pixels with `nir[i] + red[i] ≤ 0`, and the raster is `0` at each of them. -/
theorem calculate_noData_count (nirBand redBand : BandResult) (numThreads : Int)
    (nirData redData : List ℚ)
    (hW : nirBand.Image.Width = redBand.Image.Width)
    (hH : nirBand.Image.Height = redBand.Image.Height)
    (hn : nirBand.Image.Data[0]? = some nirData) (hr : redBand.Image.Data[0]? = some redData)
    (hln : nirData.length = nirBand.Image.Width * nirBand.Image.Height)
    (hlr : redData.length = nirBand.Image.Width * nirBand.Image.Height)
    (hw : 1 ≤ numThreads) :
    ∃ (m : NDVIMetrics) (data : List ℚ),
      Calculate nirBand redBand numThreads = some ⟨some m, some data, none⟩ ∧
      m.NoDataPixels = (List.zipWith (· + ·) nirData redData).countP (fun s => decide (s ≤ 0)) ∧
      ∀ (i : Nat) (n r : ℚ), nirData[i]? = some n → redData[i]? = some r → n + r ≤ 0 → data[i]? = some 0 := by
  refine ⟨_, _, Calculate_eq nirBand redBand numThreads nirData redData hW hH hn hr hln.ge hlr.ge hw,
    ?_, ?_⟩
  · simp only
    rw [nodata_sum _ _ _ _ _ (cover_of_pos _ numThreads hw).2,
      zipWith_eq_map_range (· + ·) nirData redData _ hln hlr, List.countP_map]
    congr 1
    funext i
    simp [-List.getD_eq_getElem?_getD]
  · intro i n r hi hj hle
    rw [getElem?_map_ndviAt nirData redData _ i n r hln hi hj, if_neg (not_lt.mpr hle)]

/-- C2, on two pixels and three workers: the pixel with `nir = red = 0` is the one no-data pixel
and its raster value is `0`. -/
theorem calculate_noData_count_witness :
    ∃ (m : NDVIMetrics) (data : List ℚ),
      Calculate ⟨⟨2, 1, 1, [[4 / 5, 0]]⟩⟩ ⟨⟨2, 1, 1, [[1 / 5, 0]]⟩⟩ 3 =
        some ⟨some m, some data, none⟩ ∧
      m.NoDataPixels = 1 ∧ data[1]? = some 0 := by
  obtain ⟨m, data, h, hcount, hval⟩ := calculate_noData_count
    ⟨⟨2, 1, 1, [[4 / 5, 0]]⟩⟩ ⟨⟨2, 1, 1, [[1 / 5, 0]]⟩⟩ 3 [4 / 5, 0] [1 / 5, 0]
    rfl rfl rfl rfl rfl rfl (by decide)
  refine ⟨m, data, h, ?_, hval 1 0 0 rfl rfl (by norm_num)⟩
  rw [hcount]
  decide!

/-- C3: on band rasters whose first components hold their `Width * Height` samples, and with at
least one worker, `Calculate` returns an error exactly when the widths or the heights differ;
the error is then the `ImageDimensionError` made of the four dimensions and both other results
are `nil`. -/
theorem calculate_dimension_error (nirBand redBand : BandResult) (numThreads : Int)
    (nirData redData : List ℚ)
    (hn : nirBand.Image.Data[0]? = some nirData) (hr : redBand.Image.Data[0]? = some redData)
    (hln : nirData.length = nirBand.Image.Width * nirBand.Image.Height)
    (hlr : redData.length = redBand.Image.Width * redBand.Image.Height)
    (hw : 1 ≤ numThreads) :
    ∃ ret : CalcReturn, Calculate nirBand redBand numThreads = some ret ∧
      (ret.err ≠ none ↔
        (nirBand.Image.Width ≠ redBand.Image.Width ∨
          nirBand.Image.Height ≠ redBand.Image.Height)) ∧
      ((nirBand.Image.Width ≠ redBand.Image.Width ∨
          nirBand.Image.Height ≠ redBand.Image.Height) →
        ret = { metrics := none, data := none,
                err := some { NIRWidth := nirBand.Image.Width
                              NIRHeight := nirBand.Image.Height
                              REDWidth := redBand.Image.Width
                              REDHeight := redBand.Image.Height } }) := by
  by_cases hd : nirBand.Image.Width ≠ redBand.Image.Width ∨
      nirBand.Image.Height ≠ redBand.Image.Height
  · refine ⟨_, by unfold Calculate; rw [if_pos hd], ?_, fun _ => rfl⟩
    simp [hd]
  · have hW : nirBand.Image.Width = redBand.Image.Width := by
      by_contra hc; exact hd (Or.inl hc)
    have hH : nirBand.Image.Height = redBand.Image.Height := by
      by_contra hc; exact hd (Or.inr hc)
    refine ⟨_, Calculate_eq nirBand redBand numThreads nirData redData hW hH hn hr hln.ge
      (by rw [hlr, hW, hH]) hw, ?_, fun h => absurd h hd⟩
    simp [hd]

/-- C3, on a 2x1 NIR raster and a 2x2 RED raster: the error carries `2, 1, 2, 2` and the other
two results are `nil`. -/
theorem calculate_dimension_error_witness :
    Calculate ⟨⟨2, 1, 1, [[4 / 5, 0]]⟩⟩ ⟨⟨2, 2, 1, [[1 / 5, 0, 0, 0]]⟩⟩ 3 =
      some ⟨none, none, some ⟨2, 1, 2, 2⟩⟩ := by
  obtain ⟨ret, h, _, himp⟩ := calculate_dimension_error
    ⟨⟨2, 1, 1, [[4 / 5, 0]]⟩⟩ ⟨⟨2, 2, 1, [[1 / 5, 0, 0, 0]]⟩⟩ 3 [4 / 5, 0] [1 / 5, 0, 0, 0]
    rfl rfl rfl rfl (by decide)
  rw [h, himp (Or.inr (by decide))]

/-- C4: on well-formed input of `float32` samples with at least one pixel, and with at least one
worker (also more workers than pixels), the `Min` and `Max` statistics are values of the
returned raster and `Min ≤ v ≤ Max` for every raster value `v`. -/
theorem calculate_min_max (nirBand redBand : BandResult) (numThreads : Int)
    (nirData redData : List ℚ)
    (hW : nirBand.Image.Width = redBand.Image.Width)
    (hH : nirBand.Image.Height = redBand.Image.Height)
    (hn : nirBand.Image.Data[0]? = some nirData) (hr : redBand.Image.Data[0]? = some redData)
    (hln : nirData.length = nirBand.Image.Width * nirBand.Image.Height)
    (hlr : redData.length = nirBand.Image.Width * nirBand.Image.Height)
    (hfn : ∀ x ∈ nirData, IsFloat32 x) (hfr : ∀ x ∈ redData, IsFloat32 x)
    (hpos : 0 < nirBand.Image.Width * nirBand.Image.Height)
    (hw : 1 ≤ numThreads) :
    ∃ (m : NDVIMetrics) (data : List ℚ),
      Calculate nirBand redBand numThreads = some ⟨some m, some data, none⟩ ∧
      m.Min ∈ data ∧ m.Max ∈ data ∧ ∀ v ∈ data, m.Min ≤ v ∧ v ≤ m.Max := by
  obtain ⟨hn0, hcover⟩ := cover_of_pos (nirBand.Image.Width * nirBand.Image.Height) numThreads hw
  refine ⟨_, _, Calculate_eq nirBand redBand numThreads nirData redData hW hH hn hr hln.ge hlr.ge hw,
    ?_⟩
  simp only
  rw [globalMin_eq _ _ _ _ _ hn0 hcover, globalMax_eq _ _ _ _ _ hn0 hcover]
  generalize hV : (List.range (nirBand.Image.Width * nirBand.Image.Height)).map
    (ndviAt nirData redData) = V
  have hbound : ∀ v ∈ V, -MaxFloat64 ≤ v ∧ v ≤ MaxFloat64 := by
    intro v hv
    rw [← hV] at hv
    obtain ⟨n, hnm, r, hrm, rfl⟩ := mem_map_ndviAt nirData redData _ v hln hlr hv
    exact pixelNDVI_abs_le n r (hfn n hnm) (hfr r hrm)
  obtain ⟨v0, hv0⟩ : ∃ v0, v0 ∈ V := by
    rw [← hV]
    exact ⟨ndviAt nirData redData 0, List.mem_map.mpr ⟨0, List.mem_range.mpr hpos, rfl⟩⟩
  refine ⟨?_, ?_, fun v hv => ⟨foldl_minStep_le_mem V _ v hv, foldl_maxStep_ge_mem V _ v hv⟩⟩
  · rcases foldl_minStep_mem V MaxFloat64 with h | h
    · have h1 := foldl_minStep_le_mem V MaxFloat64 v0 hv0
      have h2 := (hbound v0 hv0).2
      have : v0 = List.foldl minStep MaxFloat64 V := le_antisymm (by rw [h]; exact h2) h1
      rw [← this]; exact hv0
    · exact h
  · rcases foldl_maxStep_mem V (-MaxFloat64) with h | h
    · have h1 := foldl_maxStep_ge_mem V (-MaxFloat64) v0 hv0
      have h2 := (hbound v0 hv0).1
      have : v0 = List.foldl maxStep (-MaxFloat64) V := le_antisymm h1 (by rw [h]; exact h2)
      rw [← this]; exact hv0
    · exact h

/-- C4, on two pixels and three workers (the third worker's chunk is empty): the statistics are
values of the raster and bound it. -/
theorem calculate_min_max_witness :
    ∃ (m : NDVIMetrics) (data : List ℚ),
      Calculate ⟨⟨2, 1, 1, [[3 / 4, 0]]⟩⟩ ⟨⟨2, 1, 1, [[1 / 4, 0]]⟩⟩ 3 =
        some ⟨some m, some data, none⟩ ∧
      m.Min ∈ data ∧ m.Max ∈ data ∧ ∀ v ∈ data, m.Min ≤ v ∧ v ≤ m.Max :=
  calculate_min_max ⟨⟨2, 1, 1, [[3 / 4, 0]]⟩⟩ ⟨⟨2, 1, 1, [[1 / 4, 0]]⟩⟩ 3 [3 / 4, 0] [1 / 4, 0]
    rfl rfl rfl rfl rfl rfl
    (by
      intro x hx
      rcases List.mem_cons.mp hx with rfl | hx
      · exact isFloat32_three_quarters
      · rcases List.mem_cons.mp hx with rfl | hx
        · exact isFloat32_zero
        · cases hx)
    (by
      intro x hx
      rcases List.mem_cons.mp hx with rfl | hx
      · exact isFloat32_quarter
      · rcases List.mem_cons.mp hx with rfl | hx
        · exact isFloat32_zero
        · cases hx)
    (by decide) (by decide)

/-- C5: on well-formed input and with at least one worker, `TotalPixels` is `Width * Height`
and `Average` is the `float64` quotient of the sum over the workers, in index order, of their
chunk sums by `float64(Width * Height)`, where the chunk sum of worker `w` is the running sum,
started at `0`, of the raster values `w * chunkSize, ..., w * chunkSize + chunkSize - 1`, and
every addition is rounded to `float64`.  In exact arithmetic the sum of the chunk sums is the
sum of the raster, so that the quotient is the arithmetic mean of the raster.  (Without pixels
the quotient is `0.0 / 0.0`, NaN, in the code and in the model.) -/
theorem calculate_average (nirBand redBand : BandResult) (numThreads : Int)
    (nirData redData : List ℚ)
    (hW : nirBand.Image.Width = redBand.Image.Width)
    (hH : nirBand.Image.Height = redBand.Image.Height)
    (hn : nirBand.Image.Data[0]? = some nirData) (hr : redBand.Image.Data[0]? = some redData)
    (hln : nirData.length = nirBand.Image.Width * nirBand.Image.Height)
    (hlr : redData.length = nirBand.Image.Width * nirBand.Image.Height)
    (hw : 1 ≤ numThreads) :
    ∃ (m : NDVIMetrics) (data : List ℚ),
      Calculate nirBand redBand numThreads = some ⟨some m, some data, none⟩ ∧
      m.TotalPixels = nirBand.Image.Width * nirBand.Image.Height ∧
      m.Average =
        (Float64.fin
          (((List.range' 1 (numThreads.toNat - 1)).map
            (chunkSum data
              ((nirBand.Image.Width * nirBand.Image.Height + numThreads.toNat - 1) /
                numThreads.toNat))).foldl fadd
            (chunkSum data
              ((nirBand.Image.Width * nirBand.Image.Height + numThreads.toNat - 1) /
                numThreads.toNat) 0))).div
          (float64OfInt ((nirBand.Image.Width * nirBand.Image.Height : Nat) : Int)) ∧
      ((List.range numThreads.toNat).map (fun w =>
          ((data.drop
              (w * ((nirBand.Image.Width * nirBand.Image.Height + numThreads.toNat - 1) /
                numThreads.toNat))).take
            ((nirBand.Image.Width * nirBand.Image.Height + numThreads.toNat - 1) /
              numThreads.toNat)).sum)).sum /
          ((nirBand.Image.Width * nirBand.Image.Height : Nat) : ℚ) =
        data.sum / ((nirBand.Image.Width * nirBand.Image.Height : Nat) : ℚ) := by
  obtain ⟨hn0, hcover⟩ := cover_of_pos (nirBand.Image.Width * nirBand.Image.Height) numThreads hw
  refine ⟨_, _, Calculate_eq nirBand redBand numThreads nirData redData hW hH hn hr hln.ge hlr.ge hw,
    rfl, ?_, ?_⟩
  · simp only [localSum_eq]
  · simp only [← map_chunkIdx]
    rw [sum_flatMap_chunkIdx _ _ _ _ hcover]

/-- C5, on three pixels and two workers.  With the samples `(0.75, 0.25)`, `(0, 0)`, `(1, 0)`
the raster is `[1/2, 0, 1]`, the chunk sums are `1/2` and `1` and the average is `1/2`.  With
`(float32(0.8), float32(0.2))` as first pixel the raster value is the `float64` nearest to
`0.6`, the sum of the chunk sums is `3602879701896397 / 2^51` and the average is
`4803839602528529 / 2^53`. -/
theorem calculate_average_witness :
    (∃ (m : NDVIMetrics) (data : List ℚ),
      Calculate ⟨⟨3, 1, 1, [[3 / 4, 0, 1]]⟩⟩ ⟨⟨3, 1, 1, [[1 / 4, 0, 0]]⟩⟩ 2 =
        some ⟨some m, some data, none⟩ ∧
      m.TotalPixels = 3 ∧ data = [1 / 2, 0, 1] ∧ chunkSum data 2 0 = 1 / 2 ∧
      chunkSum data 2 1 = 1 ∧ m.Average = Float64.fin (1 / 2)) ∧
    (∃ (m : NDVIMetrics) (data : List ℚ),
      Calculate ⟨⟨3, 1, 1, [[13421773 / 2 ^ 24, 0, 1]]⟩⟩
          ⟨⟨3, 1, 1, [[13421773 / 2 ^ 26, 0, 0]]⟩⟩ 2 =
        some ⟨some m, some data, none⟩ ∧
      data = [5404319552844595 / 2 ^ 53, 0, 1] ∧
      m.Average = Float64.fin (4803839602528529 / 2 ^ 53)) := by
  constructor
  · obtain ⟨m, data, h, ht, ha, _⟩ := calculate_average
      ⟨⟨3, 1, 1, [[3 / 4, 0, 1]]⟩⟩ ⟨⟨3, 1, 1, [[1 / 4, 0, 0]]⟩⟩ 2
      [3 / 4, 0, 1] [1 / 4, 0, 0] rfl rfl rfl rfl rfl rfl (by decide)
    have hc : Calculate ⟨⟨3, 1, 1, [[3 / 4, 0, 1]]⟩⟩ ⟨⟨3, 1, 1, [[1 / 4, 0, 0]]⟩⟩ 2 =
        some ⟨some ⟨0, 3, 1, 0, 1, Float64.fin (1 / 2)⟩, some [1 / 2, 0, 1], none⟩ := by decide!
    have hd : data = [1 / 2, 0, 1] := by
      rw [hc] at h
      injection h with h
      injection h with _ h2 _
      exact (Option.some.inj h2).symm
    subst hd
    refine ⟨m, _, h, ht, rfl, by decide!, by decide!, ?_⟩
    rw [ha]
    decide!
  · obtain ⟨m, data, h, _, ha, _⟩ := calculate_average
      ⟨⟨3, 1, 1, [[13421773 / 2 ^ 24, 0, 1]]⟩⟩ ⟨⟨3, 1, 1, [[13421773 / 2 ^ 26, 0, 0]]⟩⟩ 2
      [13421773 / 2 ^ 24, 0, 1] [13421773 / 2 ^ 26, 0, 0] rfl rfl rfl rfl rfl rfl (by decide)
    have hc : (Calculate ⟨⟨3, 1, 1, [[13421773 / 2 ^ 24, 0, 1]]⟩⟩
        ⟨⟨3, 1, 1, [[13421773 / 2 ^ 26, 0, 0]]⟩⟩ 2).bind (fun ret => ret.data) =
        some [5404319552844595 / 2 ^ 53, 0, 1] := by decide!
    have hd : data = [5404319552844595 / 2 ^ 53, 0, 1] := by
      rw [h] at hc
      exact Option.some.inj hc
    subst hd
    refine ⟨m, _, h, rfl, ?_⟩
    rw [ha]
    decide!

/-- C6: on well-formed input, any two worker counts `w1 ≥ 1` and `w2 ≥ 1` give the same NDVI
raster. -/
theorem calculate_worker_invariance (nirBand redBand : BandResult) (w1 w2 : Int)
    (nirData redData : List ℚ)
    (hW : nirBand.Image.Width = redBand.Image.Width)
    (hH : nirBand.Image.Height = redBand.Image.Height)
    (hn : nirBand.Image.Data[0]? = some nirData) (hr : redBand.Image.Data[0]? = some redData)
    (hln : nirData.length = nirBand.Image.Width * nirBand.Image.Height)
    (hlr : redData.length = nirBand.Image.Width * nirBand.Image.Height)
    (hw1 : 1 ≤ w1) (hw2 : 1 ≤ w2) :
    ∃ (m1 m2 : NDVIMetrics) (data : List ℚ),
      Calculate nirBand redBand w1 = some ⟨some m1, some data, none⟩ ∧
      Calculate nirBand redBand w2 = some ⟨some m2, some data, none⟩ :=
  ⟨_, _, _, Calculate_eq nirBand redBand w1 nirData redData hW hH hn hr hln.ge hlr.ge hw1,
    Calculate_eq nirBand redBand w2 nirData redData hW hH hn hr hln.ge hlr.ge hw2⟩

/-- C6, on three pixels: one worker and eight workers return the same raster. -/
theorem calculate_worker_invariance_witness :
    ∃ (m1 m2 : NDVIMetrics) (data : List ℚ),
      Calculate ⟨⟨3, 1, 1, [[3 / 4, 0, 1]]⟩⟩ ⟨⟨3, 1, 1, [[1 / 4, 0, 0]]⟩⟩ 1 =
        some ⟨some m1, some data, none⟩ ∧
      Calculate ⟨⟨3, 1, 1, [[3 / 4, 0, 1]]⟩⟩ ⟨⟨3, 1, 1, [[1 / 4, 0, 0]]⟩⟩ 8 =
        some ⟨some m2, some data, none⟩ :=
  calculate_worker_invariance ⟨⟨3, 1, 1, [[3 / 4, 0, 1]]⟩⟩ ⟨⟨3, 1, 1, [[1 / 4, 0, 0]]⟩⟩ 1 8
    [3 / 4, 0, 1] [1 / 4, 0, 0] rfl rfl rfl rfl rfl rfl (by decide) (by decide)

/-- C7: on well-formed input whose samples are all non-negative, and with at least one worker,
every value of the returned NDVI raster lies in `[-1, 1]`. -/
theorem calculate_ndvi_range (nirBand redBand : BandResult) (numThreads : Int)
    (nirData redData : List ℚ)
    (hW : nirBand.Image.Width = redBand.Image.Width)
    (hH : nirBand.Image.Height = redBand.Image.Height)
    (hn : nirBand.Image.Data[0]? = some nirData) (hr : redBand.Image.Data[0]? = some redData)
    (hln : nirData.length = nirBand.Image.Width * nirBand.Image.Height)
    (hlr : redData.length = nirBand.Image.Width * nirBand.Image.Height)
    (hnn : ∀ x ∈ nirData, 0 ≤ x) (hnr : ∀ x ∈ redData, 0 ≤ x)
    (hw : 1 ≤ numThreads) :
    ∃ (m : NDVIMetrics) (data : List ℚ),
      Calculate nirBand redBand numThreads = some ⟨some m, some data, none⟩ ∧
      ∀ v ∈ data, -1 ≤ v ∧ v ≤ 1 := by
  refine ⟨_, _, Calculate_eq nirBand redBand numThreads nirData redData hW hH hn hr hln.ge hlr.ge hw,
    ?_⟩
  intro v hv
  obtain ⟨n, hnm, r, hrm, rfl⟩ := mem_map_ndviAt nirData redData _ v hln hlr hv
  exact pixelNDVI_mem_Icc n r (hnn n hnm) (hnr r hrm)

/-- C7, on three pixels with non-negative samples and two workers. -/
theorem calculate_ndvi_range_witness :
    ∃ (m : NDVIMetrics) (data : List ℚ),
      Calculate ⟨⟨3, 1, 1, [[3 / 4, 0, 0]]⟩⟩ ⟨⟨3, 1, 1, [[1 / 4, 0, 1]]⟩⟩ 2 =
        some ⟨some m, some data, none⟩ ∧
      ∀ v ∈ data, -1 ≤ v ∧ v ≤ 1 :=
  calculate_ndvi_range ⟨⟨3, 1, 1, [[3 / 4, 0, 0]]⟩⟩ ⟨⟨3, 1, 1, [[1 / 4, 0, 1]]⟩⟩ 2
    [3 / 4, 0, 0] [1 / 4, 0, 1] rfl rfl rfl rfl rfl rfl
    (by intro x hx; simp at hx; rcases hx with rfl | rfl <;> norm_num)
    (by intro x hx; simp at hx; rcases hx with rfl | rfl | rfl <;> norm_num)
    (by decide)

/-- C8: for every `v ≤ -1` the function `GetNDVIColor` returns the colour of the first table
entry, `(0, 0, 128, 255)`, and for every `v ≥ 1` the colour of the last one, `(0, 128, 0, 255)`. -/
theorem getNDVIColor_boundary (v : ℚ) :
    (v ≤ -1 → GetNDVIColor v = some ⟨0, 0, 128, 255⟩ ∧
      GetNDVIColor v = ndviGradientPoints.head?.map (fun p => p.Color)) ∧
    (1 ≤ v → GetNDVIColor v = some ⟨0, 128, 0, 255⟩ ∧
      GetNDVIColor v = ndviGradientPoints.getLast?.map (fun p => p.Color)) := by
  constructor
  · intro h
    have : GetNDVIColor v = some ⟨0, 0, 128, 255⟩ := by
      unfold GetNDVIColor
      simp only [h, if_true]
      rfl
    exact ⟨this, by rw [this]; rfl⟩
  · intro h
    have hv : ¬ v ≤ -1 := by linarith
    have : GetNDVIColor v = some ⟨0, 128, 0, 255⟩ := by
      unfold GetNDVIColor
      simp only [hv, if_false, ge_iff_le, h, if_true]
      rfl
    exact ⟨this, by rw [this]; rfl⟩

/-- C8 at the values `-1`, `-5`, `1` and `5`. -/
theorem getNDVIColor_boundary_witness :
    GetNDVIColor (-1) = some ⟨0, 0, 128, 255⟩ ∧ GetNDVIColor (-5) = some ⟨0, 0, 128, 255⟩ ∧
    GetNDVIColor 1 = some ⟨0, 128, 0, 255⟩ ∧ GetNDVIColor 5 = some ⟨0, 128, 0, 255⟩ :=
  ⟨((getNDVIColor_boundary (-1)).1 (by norm_num)).1, ((getNDVIColor_boundary (-5)).1 (by norm_num)).1,
    ((getNDVIColor_boundary 1).2 (by norm_num)).1, ((getNDVIColor_boundary 5).2 (by norm_num)).1⟩

/-- C9 fails at `v = -0.1`, between the entries `(-0.2, (65, 105, 225))` and `(0.0, (255, 0, 0))`:
there `t = 1/2`, the function returns `(160, 180, 240, 255)`, while interpolation with the true
channel differences gives green `52` and blue `112`.  The differences `0 - 105` and `0 - 225`
are taken in `uint8` and wrap around to `151` and `31`.  The same values are obtained with the
`float64` nearest to `-0.1`, `-3602879701896397 / 2^55`, as argument and the `float64` value of
the literal `-0.2`, which the table holds, as breakpoint. -/
theorem getNDVIColor_decreasing_channel :
    segmentIndex (-(1 / 10)) = 1 ∧
    interpT (-(1 / 10)) ⟨-(1 / 5), ⟨65, 105, 225, 255⟩⟩ ⟨0, ⟨255, 0, 0, 255⟩⟩ = 1 / 2 ∧
    uint8Sub 0 105 = 151 ∧ uint8Sub 0 225 = 31 ∧
    GetNDVIColor (-(1 / 10)) = some ⟨160, 180, 240, 255⟩ ∧
    specChannel 65 255 (1 / 2) = 160 ∧ specChannel 105 0 (1 / 2) = 52 ∧
    specChannel 225 0 (1 / 2) = 112 ∧
    ndviGradientPoints[1]? = some ⟨-(3602879701896397 / 2 ^ 54), ⟨65, 105, 225, 255⟩⟩ ∧
    segmentIndex (-(3602879701896397 / 2 ^ 55)) = 1 ∧
    interpT (-(3602879701896397 / 2 ^ 55)) ⟨-(3602879701896397 / 2 ^ 54), ⟨65, 105, 225, 255⟩⟩
      ⟨0, ⟨255, 0, 0, 255⟩⟩ = 1 / 2 ∧
    interpT (-(1 / 10)) ⟨-(3602879701896397 / 2 ^ 54), ⟨65, 105, 225, 255⟩⟩
      ⟨0, ⟨255, 0, 0, 255⟩⟩ = 1 / 2 ∧
    GetNDVIColor (-(3602879701896397 / 2 ^ 55)) = some ⟨160, 180, 240, 255⟩ := by
  decide!

/-- C10 fails at `v = 0.75`, between the entries `(0.5, (255, 255, 0))` and `(1.0, (0, 128, 0))`:
there `t = 1/2` and the green channel is computed as `255 + t * 129 = 319.5`, above `255`,
because the difference `128 - 255` is taken in `uint8` and wraps around to `129`; the value
converted to `uint8` is out of range. -/
theorem getNDVIColor_channel_overflow :
    segmentIndex (3 / 4) = 3 ∧
    interpT (3 / 4) ⟨1 / 2, ⟨255, 255, 0, 255⟩⟩ ⟨1, ⟨0, 128, 0, 255⟩⟩ = 1 / 2 ∧
    uint8Sub 128 255 = 129 ∧
    channelFloat 255 128 (1 / 2) = 639 / 2 ∧ (255 : ℚ) < 639 / 2 ∧
    GetNDVIColor (3 / 4) =
      some ⟨uint8OfFloat64 (511 / 2), uint8OfFloat64 (639 / 2), uint8OfFloat64 0, 255⟩ := by
  decide!

/-- C11: for every `float64` value `v` with `0 ≤ v < 0.5`, between the entries
`(0.0, (255, 0, 0))` and `(0.5, (255, 255, 0))`, `GetNDVIColor v` is red `255`, green the
integer truncation of the `float64` value of `255 * (v / 0.5)` (quotient and product each
rounded to `float64`), blue `0` and alpha `255`. -/
theorem getNDVIColor_red_to_yellow (v : ℚ) (hv : round53 v = v) (h0 : 0 ≤ v) (h1 : v < 1 / 2) :
    GetNDVIColor v = some ⟨255, (⌊fmul 255 (fdiv v (1 / 2))⌋).toNat, 0, 255⟩ := by
  obtain ⟨p1, p2, hp1, hp2, _, _, hc⟩ := GetNDVIColor_inside v (by linarith) (by linarith)
  have hs : segmentIndex v = 2 := by
    unfold segmentIndex
    rw [if_neg (by
      have : (0 : ℚ) < 3602879701896397 / 2 ^ 54 := by norm_num
      linarith), if_neg (by linarith), if_pos h1]
  rw [hs] at hp1 hp2
  have e1 : p1 = ⟨0, ⟨255, 0, 0, 255⟩⟩ := (Option.some.inj hp1).symm
  have e2 : p2 = ⟨1 / 2, ⟨255, 255, 0, 255⟩⟩ := (Option.some.inj hp2).symm
  subst e1; subst e2
  rw [hc]
  have hhalf : round53 (1 / 2) = 1 / 2 := by decide!
  have h255 : round53 255 = 255 := by decide!
  have ht : interpT v ⟨0, ⟨255, 0, 0, 255⟩⟩ ⟨1 / 2, ⟨255, 255, 0, 255⟩⟩ = fdiv v (1 / 2) := by
    simp only [interpT, fsub, sub_zero, hv, hhalf]
  have hR : uint8OfFloat64 (channelFloat 255 255 (fdiv v (1 / 2))) = 255 := by
    have : channelFloat 255 255 (fdiv v (1 / 2)) = 255 := by
      simp [channelFloat, uint8Sub, fadd, fmul, round53_zero, h255]
    rw [this]
    simp [uint8OfFloat64, truncFloat64]
  have hB : uint8OfFloat64 (channelFloat 0 0 (fdiv v (1 / 2))) = 0 := by
    simp [channelFloat, uint8Sub, uint8OfFloat64, truncFloat64, fadd, fmul, round53_zero]
  have hG : uint8OfFloat64 (channelFloat 0 255 (fdiv v (1 / 2))) =
      (⌊fmul 255 (fdiv v (1 / 2))⌋).toNat := by
    have hx : channelFloat 0 255 (fdiv v (1 / 2)) = fmul 255 (fdiv v (1 / 2)) := by
      have e : uint8Sub 255 0 = 255 := by decide
      simp only [channelFloat, e, fadd, fmul, Nat.cast_zero, zero_add, round53_idem]
      rw [mul_comm]
      norm_num
    have ht0 : 0 ≤ fdiv v (1 / 2) := round53_nonneg _ (div_nonneg h0 (by norm_num))
    have ht1 : fdiv v (1 / 2) ≤ 1 := by
      have := round53_mono (v / (1 / 2)) 1 (by rw [div_le_one (by norm_num)]; exact h1.le)
      rw [round53_one] at this
      exact this
    have hnn : (0 : ℚ) ≤ fmul 255 (fdiv v (1 / 2)) := round53_nonneg _ (by linarith)
    have hle : fmul 255 (fdiv v (1 / 2)) ≤ 255 := by
      have := round53_mono (255 * fdiv v (1 / 2)) 255 (by linarith)
      rw [h255] at this
      exact this
    have hf0 : 0 ≤ ⌊fmul 255 (fdiv v (1 / 2))⌋ := Int.floor_nonneg.mpr hnn
    have hf1 : ⌊fmul 255 (fdiv v (1 / 2))⌋ ≤ 255 := by
      have : ⌊fmul 255 (fdiv v (1 / 2))⌋ ≤ ⌊(255 : ℚ)⌋ := Int.floor_mono hle
      simpa using this
    rw [hx, uint8OfFloat64, truncFloat64, if_pos hnn, Int.emod_eq_of_lt hf0 (by omega)]
  simp only [ht, hR, hB, hG]

/-- C11 at `v = 0.25`, where the colour is `(255, 127, 0, 255)`, and at the `float64` nearest to
`1/3`, `6004799503160661 / 2^54`, where `v / 0.5`, the `float64` below `2/3`, times `255` is
rounded to `170` and the colour is `(255, 170, 0, 255)`. -/
theorem getNDVIColor_red_to_yellow_witness :
    GetNDVIColor (1 / 4) = some ⟨255, 127, 0, 255⟩ ∧
    GetNDVIColor (6004799503160661 / 2 ^ 54) = some ⟨255, 170, 0, 255⟩ := by
  constructor
  · rw [getNDVIColor_red_to_yellow (1 / 4) (by decide!) (by norm_num) (by norm_num)]
    decide!
  · rw [getNDVIColor_red_to_yellow (6004799503160661 / 2 ^ 54) (by decide!) (by norm_num)
      (by norm_num)]
    decide!

/-- C12: for a raster of at least `width * height` values and worker counts `w1, w2 ≥ 1`,
`Colorize` returns the same result for both counts: a buffer of `width * height * 4` bytes,
`ImageSize = width * height * 4`, and for every pixel `i < width * height` the bytes at
`4i, 4i+1, 4i+2` are R, G, B of `GetNDVIColor (ndvi[i])` and the byte at `4i+3` is `255`. -/
theorem colorize_buffer (ndviData : List ℚ) (width height : Nat) (w1 w2 : Int)
    (hlen : width * height ≤ ndviData.length) (hw1 : 1 ≤ w1) (hw2 : 1 ≤ w2) :
    ∃ (cm : ColorMetrics) (img : RGBAImage),
      Colorize ndviData width height w1 = some (cm, img) ∧
      Colorize ndviData width height w2 = some (cm, img) ∧
      img.Pix.length = width * height * 4 ∧
      cm.ImageSize = ((width * height * 4 : Nat) : Int) ∧
      ∀ (i : Nat) (v : ℚ) (c : RGBA), i < width * height → ndviData[i]? = some v →
        GetNDVIColor v = some c →
        img.Pix[4 * i]? = some c.R ∧ img.Pix[4 * i + 1]? = some c.G ∧
        img.Pix[4 * i + 2]? = some c.B ∧ img.Pix[4 * i + 3]? = some 255 := by
  refine ⟨_, _, Colorize_eq ndviData width height w1 hlen hw1,
    Colorize_eq ndviData width height w2 hlen hw2, by simp; ring, rfl, ?_⟩
  intro i v c hi hv hc
  have hcol : colorOf (ndviData.getD i 0) = c := by
    rw [List.getD_eq_getElem?_getD, hv]
    have := GetNDVIColor_eq_colorOf v
    rw [hc] at this
    exact (Option.some.inj this).symm
  have hget : ∀ k, k < 4 → ((List.range (4 * (width * height))).map (byteAt ndviData))[4 * i + k]? =
      some (byteAt ndviData (4 * i + k)) := by
    intro k hk
    rw [List.getElem?_map, List.getElem?_range (by omega)]
    rfl
  have d0 : (4 * i + 0) / 4 = i := by omega
  have d1 : (4 * i + 1) / 4 = i := by omega
  have d2 : (4 * i + 2) / 4 = i := by omega
  have m0 : (4 * i + 0) % 4 = 0 := by omega
  have m1 : (4 * i + 1) % 4 = 1 := by omega
  have m2 : (4 * i + 2) % 4 = 2 := by omega
  have m3 : (4 * i + 3) % 4 = 3 := by omega
  refine ⟨?_, ?_, ?_, ?_⟩
  · have := hget 0 (by omega)
    simp only [Nat.add_zero] at this d0 m0
    show ((List.range (4 * (width * height))).map (byteAt ndviData))[4 * i]? = _
    rw [this]; simp only [byteAt, m0, d0, hcol, if_true]
  · show ((List.range (4 * (width * height))).map (byteAt ndviData))[4 * i + 1]? = _
    rw [hget 1 (by omega)]; simp [byteAt, m1, d1, hcol, -List.getD_eq_getElem?_getD]
  · show ((List.range (4 * (width * height))).map (byteAt ndviData))[4 * i + 2]? = _
    rw [hget 2 (by omega)]; simp [byteAt, m2, d2, hcol, -List.getD_eq_getElem?_getD]
  · show ((List.range (4 * (width * height))).map (byteAt ndviData))[4 * i + 3]? = _
    rw [hget 3 (by omega)]; simp [byteAt, m3]

/-- C12, on the two-pixel raster `[0.25, -1]` with one and with three workers. -/
theorem colorize_buffer_witness :
    ∃ (cm : ColorMetrics) (img : RGBAImage),
      Colorize [1 / 4, -1] 2 1 1 = some (cm, img) ∧
      Colorize [1 / 4, -1] 2 1 3 = some (cm, img) ∧
      img.Pix.length = 2 * 1 * 4 ∧
      cm.ImageSize = ((2 * 1 * 4 : Nat) : Int) ∧
      ∀ (i : Nat) (v : ℚ) (c : RGBA), i < 2 * 1 → ([1 / 4, -1] : List ℚ)[i]? = some v →
        GetNDVIColor v = some c →
        img.Pix[4 * i]? = some c.R ∧ img.Pix[4 * i + 1]? = some c.G ∧
        img.Pix[4 * i + 2]? = some c.B ∧ img.Pix[4 * i + 3]? = some 255 :=
  colorize_buffer [1 / 4, -1] 2 1 1 3 (by decide) (by decide) (by decide)

/-- C13 as amended: `InitializeAccumulatedMetrics` returns a new record that equals `m` in every
field except that its `NDVIMin` is `math.MaxFloat64` and its `NDVIMax` is `-math.MaxFloat64`
(finite values, not infinities); `m` and every other record are left unchanged. -/
theorem initializeAccumulatedMetrics_copy (h : MetricsHeap) (original : MetricsPtr) (m : Metrics)
    (hm : deref h original = some m) :
    ∃ (h' : MetricsHeap) (accumulated : MetricsPtr),
      InitializeAccumulatedMetrics h original = some (h', accumulated) ∧
      deref h accumulated = none ∧
      deref h' accumulated =
        some { m with NDVIMin := Float64.fin MaxFloat64, NDVIMax := Float64.fin (-MaxFloat64) } ∧
      ∀ (p : MetricsPtr) (r : Metrics), deref h p = some r → deref h' p = some r := by
  refine ⟨_, _, InitializeAccumulatedMetrics_eq h original m hm, ?_, deref_alloc h _, ?_⟩
  · simp [deref]
  · intro p r hp
    exact deref_append h _ p r hp

/-- C13 as amended, on a heap that holds one record. -/
theorem initializeAccumulatedMetrics_copy_witness :
    ∃ (h' : MetricsHeap) (accumulated : MetricsPtr),
      InitializeAccumulatedMetrics [sampleMetrics] (some 0) = some (h', accumulated) ∧
      deref [sampleMetrics] accumulated = none ∧
      deref h' accumulated =
        some { sampleMetrics with NDVIMin := Float64.fin MaxFloat64,
                                  NDVIMax := Float64.fin (-MaxFloat64) } ∧
      ∀ (p : MetricsPtr) (r : Metrics), deref [sampleMetrics] p = some r → deref h' p = some r :=
  initializeAccumulatedMetrics_copy [sampleMetrics] (some 0) sampleMetrics rfl

/-- C13 as stated fails: the record `InitializeAccumulatedMetrics` returns has the finite values
`math.MaxFloat64` and `-math.MaxFloat64` in `NDVIMin` and `NDVIMax`, not the infinities. -/
theorem initializeAccumulatedMetrics_not_infinite :
    ∃ (h' : MetricsHeap) (accumulated : MetricsPtr) (a : Metrics),
      InitializeAccumulatedMetrics [sampleMetrics] (some 0) = some (h', accumulated) ∧
      deref h' accumulated = some a ∧
      a.NDVIMin = Float64.fin MaxFloat64 ∧ a.NDVIMin ≠ Float64.posInf ∧
      a.NDVIMax = Float64.fin (-MaxFloat64) ∧ a.NDVIMax ≠ Float64.negInf :=
  ⟨_, _, _, InitializeAccumulatedMetrics_eq [sampleMetrics] (some 0) sampleMetrics rfl,
    deref_alloc _ _, rfl, by simp, rfl, by simp⟩

/-- C14: after `AggregateMetrics(acc, next)` on two distinct records, each of the nine duration
fields and the no-data pixel count of `acc` is its previous value plus `next`'s (the `int64` sum,
which is the sum of the integers whenever that fits in 64 bits), `NDVIAverage` is the `float64`
sum of the two values, `NDVIMin` and `NDVIMax` are `math.Min` and `math.Max` of the two values
(the smaller and the larger of two finite values), and `next` is not modified. -/
theorem aggregateMetrics_fields (h : MetricsHeap) (accumulated new : MetricsPtr) (a n : Metrics)
    (ha : deref h accumulated = some a) (hn : deref h new = some n) (hne : accumulated ≠ new) :
    ∃ (h' : MetricsHeap) (a' : Metrics),
      AggregateMetrics h accumulated new = some h' ∧ deref h' accumulated = some a' ∧
      deref h' new = some n ∧
      a'.TotalTime = int64Add a.TotalTime n.TotalTime ∧
      a'.ReadingTime = int64Add a.ReadingTime n.ReadingTime ∧
      a'.NDVITime = int64Add a.NDVITime n.NDVITime ∧
      a'.ColorTime = int64Add a.ColorTime n.ColorTime ∧
      a'.SaveTime = int64Add a.SaveTime n.SaveTime ∧
      a'.FileTimeNIR = int64Add a.FileTimeNIR n.FileTimeNIR ∧
      a'.DecodeTimeNIR = int64Add a.DecodeTimeNIR n.DecodeTimeNIR ∧
      a'.FileTimeRED = int64Add a.FileTimeRED n.FileTimeRED ∧
      a'.DecodeTimeRED = int64Add a.DecodeTimeRED n.DecodeTimeRED ∧
      a'.NoDataPixels = int64Add a.NoDataPixels n.NoDataPixels ∧
      a'.NDVIAverage = a.NDVIAverage.add n.NDVIAverage ∧
      a'.NDVIMin = mathMin a.NDVIMin n.NDVIMin ∧
      a'.NDVIMax = mathMax a.NDVIMax n.NDVIMax ∧
      (∀ x y : Int, -2 ^ 63 ≤ x + y → x + y < 2 ^ 63 → int64Add x y = x + y) ∧
      (∀ x y : ℚ, mathMin (Float64.fin x) (Float64.fin y) = Float64.fin (min x y)) ∧
      (∀ x y : ℚ, mathMax (Float64.fin x) (Float64.fin y) = Float64.fin (max x y)) := by
  refine ⟨_, _, AggregateMetrics_eq h accumulated new a n ha hn,
    deref_store_same h accumulated a _ ha, ?_, rfl, rfl, rfl, rfl, rfl, rfl, rfl, rfl, rfl, rfl,
    rfl, rfl, rfl, int64Add_eq, mathMin_fin, mathMax_fin⟩
  rw [deref_store_ne h new accumulated _ (fun e => hne e.symm)]
  exact hn

/-- C14 on a heap of two records: the total times `3 s + 3 s` give `6 s`, the minimum of
`MaxFloat64` and `-0.5` is `-0.5`, and the second record is unchanged. -/
theorem aggregateMetrics_fields_witness :
    ∃ (h' : MetricsHeap) (a' : Metrics),
      AggregateMetrics
        [{ sampleMetrics with NDVIMin := Float64.fin MaxFloat64 }, sampleMetrics]
        (some 0) (some 1) = some h' ∧
      deref h' (some 0) = some a' ∧ deref h' (some 1) = some sampleMetrics ∧
      a'.TotalTime = 6000000000 ∧ a'.NDVIMin = Float64.fin (-(1 / 2)) ∧
      a'.NDVIAverage = Float64.fin (1 / 2) := by
  obtain ⟨h', a', hh, ha', hn', hT, _, _, _, _, _, _, _, _, _, hAvg, hMin, _, _, _, _⟩ :=
    aggregateMetrics_fields
      [{ sampleMetrics with NDVIMin := Float64.fin MaxFloat64 }, sampleMetrics]
      (some 0) (some 1) { sampleMetrics with NDVIMin := Float64.fin MaxFloat64 } sampleMetrics
      rfl rfl (by decide)
  refine ⟨h', a', hh, ha', hn', ?_, ?_, ?_⟩
  · rw [hT]; decide!
  · rw [hMin]; decide!
  · rw [hAvg]; decide!

/-- C15: for an `int` `iterationCount ≥ 1`, `AverageMetrics` does not panic (no integer division
by zero) and returns a new record in which each duration field and the no-data pixel count is
the value of `acc` divided by `iterationCount` with truncating integer division, `NDVIAverage`
is the value of `acc` divided by `float64(iterationCount)`, which is not zero, and every other
field, `NDVIMin` and `NDVIMax` included, is that of `acc`; `acc` and every other record are not
modified. -/
theorem averageMetrics_fields (h : MetricsHeap) (accumulated : MetricsPtr) (a : Metrics)
    (numRuns : Int) (ha : deref h accumulated = some a) (hn : 1 ≤ numRuns)
    (hmax : numRuns < 2 ^ 63) :
    ∃ (h' : MetricsHeap) (result : MetricsPtr) (r : Metrics),
      AverageMetrics h accumulated numRuns = some (h', result) ∧
      deref h result = none ∧ deref h' result = some r ∧
      (∀ (p : MetricsPtr) (q : Metrics), deref h p = some q → deref h' p = some q) ∧
      float64OfInt numRuns ≠ Float64.fin 0 ∧
      r = { a with
            TotalTime := a.TotalTime.tdiv numRuns
            ReadingTime := a.ReadingTime.tdiv numRuns
            NDVITime := a.NDVITime.tdiv numRuns
            ColorTime := a.ColorTime.tdiv numRuns
            SaveTime := a.SaveTime.tdiv numRuns
            FileTimeNIR := a.FileTimeNIR.tdiv numRuns
            DecodeTimeNIR := a.DecodeTimeNIR.tdiv numRuns
            FileTimeRED := a.FileTimeRED.tdiv numRuns
            DecodeTimeRED := a.DecodeTimeRED.tdiv numRuns
            NoDataPixels := a.NoDataPixels.tdiv numRuns
            NDVIAverage := a.NDVIAverage.div (float64OfInt numRuns) } := by
  refine ⟨_, _, _, AverageMetrics_eq h accumulated a numRuns ha (by omega), by simp [deref],
    deref_alloc h _, fun p q hp => deref_append h _ p q hp, ?_, ?_⟩
  · obtain ⟨y, hy, hy1, _⟩ := float64OfInt_nonneg numRuns (by omega) (by omega)
    rw [hy]
    intro hc
    have hy0 : y = 0 := Float64.fin.inj hc
    have hq : (1 : ℚ) ≤ (numRuns : ℚ) := by exact_mod_cast hn
    rw [hy0] at hy1
    linarith
  · simp only [averageFields, int64Div_eq _ _ hn]

/-- C15 on one record and `iterationCount = 2`: `3 s / 2 = 1.5 s`, `1234 / 2 = 617` and
`0.25 / 2 = 0.125`. -/
theorem averageMetrics_fields_witness :
    ∃ (h' : MetricsHeap) (result : MetricsPtr) (r : Metrics),
      AverageMetrics [sampleMetrics] (some 0) 2 = some (h', result) ∧
      deref h' result = some r ∧ deref h' (some 0) = some sampleMetrics ∧
      r.TotalTime = 1500000000 ∧ r.NoDataPixels = 617 ∧ r.NDVIAverage = Float64.fin (1 / 8) ∧
      r.NDVIMin = Float64.fin (-(1 / 2)) ∧ r.NDVIMax = Float64.fin (7 / 8) := by
  obtain ⟨h', result, r, hh, _, hr, hframe, _, hrec⟩ :=
    averageMetrics_fields [sampleMetrics] (some 0) sampleMetrics 2 rfl (by decide) (by decide)
  refine ⟨h', result, r, hh, hr, hframe (some 0) sampleMetrics rfl, ?_⟩
  rw [hrec]
  decide!

/-- C16 fails: `AverageMetrics(InitializeAccumulatedMetrics(m), 1)` for the record `m` with
`NDVIMin = -0.5` and `NDVIMax = 0.875` returns a record with `NDVIMin = math.MaxFloat64` and
`NDVIMax = -math.MaxFloat64`; all its other fields are those of `m`. -/
theorem average_of_initialize_loses_extremes :
    ∃ (h1 h2 : MetricsHeap) (acc result : MetricsPtr),
      InitializeAccumulatedMetrics [sampleMetrics] (some 0) = some (h1, acc) ∧
      AverageMetrics h1 acc 1 = some (h2, result) ∧
      deref h2 result =
        some { sampleMetrics with NDVIMin := Float64.fin MaxFloat64,
                                  NDVIMax := Float64.fin (-MaxFloat64) } ∧
      sampleMetrics.NDVIMin = Float64.fin (-(1 / 2)) ∧
      sampleMetrics.NDVIMax = Float64.fin (7 / 8) ∧
      Float64.fin MaxFloat64 ≠ Float64.fin (-(1 / 2)) ∧
      Float64.fin (-MaxFloat64) ≠ Float64.fin (7 / 8) := by
  refine ⟨_, _, _, _, InitializeAccumulatedMetrics_eq [sampleMetrics] (some 0) sampleMetrics rfl,
    AverageMetrics_eq _ _ _ 1 (deref_alloc _ _) (by decide), ?_, rfl, rfl, by decide!, by decide!⟩
  rw [deref_alloc]
  decide!

/-- C17 as amended: the accumulator built from `N ≥ 1` copies of the record `m` and averaged
over `N` has the value of `m` in each of the nine duration fields and the no-data pixel count
when the `N`-fold sums fit in 64 bits; its NDVI average is the `float64` sum of the `N` copies,
added one by one, divided by `float64(N)`. -/
theorem average_of_identical_runs (h : MetricsHeap) (m : MetricsPtr) (r : Metrics) (N : Nat)
    (hm : deref h m = some r) (hN : 1 ≤ N)
    (hfit : ∀ x ∈ [r.TotalTime, r.ReadingTime, r.NDVITime, r.ColorTime, r.SaveTime,
        r.FileTimeNIR, r.DecodeTimeNIR, r.FileTimeRED, r.DecodeTimeRED, r.NoDataPixels],
      -2 ^ 63 ≤ (N : Int) * x ∧ (N : Int) * x < 2 ^ 63) :
    ∃ (h' : MetricsHeap) (result : MetricsPtr) (res : Metrics),
      runBenchmarkAverage h (List.replicate N m) = some (h', result) ∧
      deref h' result = some res ∧
      res.TotalTime = r.TotalTime ∧ res.ReadingTime = r.ReadingTime ∧
      res.NDVITime = r.NDVITime ∧ res.ColorTime = r.ColorTime ∧ res.SaveTime = r.SaveTime ∧
      res.FileTimeNIR = r.FileTimeNIR ∧ res.DecodeTimeNIR = r.DecodeTimeNIR ∧
      res.FileTimeRED = r.FileTimeRED ∧ res.DecodeTimeRED = r.DecodeTimeRED ∧
      res.NoDataPixels = r.NoDataPixels ∧
      res.NDVIAverage =
        ((fun s => Float64.add s r.NDVIAverage)^[N - 1] r.NDVIAverage).div
          (float64OfInt (N : Int)) := by
  obtain ⟨k, rfl⟩ : ∃ k, N = k + 1 := ⟨N - 1, by omega⟩
  have hmap : (List.replicate k m).map (deref h) = (List.replicate k r).map some := by
    simp [List.map_replicate, hm]
  have hrun := runBenchmarkAverage_eq h m (List.replicate k m) r (List.replicate k r) hm hmap
  rw [← List.replicate_succ, List.length_replicate, foldl_aggregateFields_replicate] at hrun
  have hk : k + 1 - 1 = k := by omega
  have key : ∀ x ∈ [r.TotalTime, r.ReadingTime, r.NDVITime, r.ColorTime, r.SaveTime,
      r.FileTimeNIR, r.DecodeTimeNIR, r.FileTimeRED, r.DecodeTimeRED, r.NoDataPixels],
      int64Div ((fun s => int64Add s x)^[k] x) ((k + 1 : Nat) : Int) = x := by
    intro x hx
    have := average_iterate_int64Add x (k + 1) (by omega) (hfit x hx).1 (hfit x hx).2
    rwa [hk] at this
  refine ⟨_, _, _, hrun, deref_alloc_two h _ _, ?_, ?_, ?_, ?_, ?_, ?_, ?_, ?_, ?_, ?_, ?_⟩
  · exact key _ (by simp)
  · exact key _ (by simp)
  · exact key _ (by simp)
  · exact key _ (by simp)
  · exact key _ (by simp)
  · exact key _ (by simp)
  · exact key _ (by simp)
  · exact key _ (by simp)
  · exact key _ (by simp)
  · exact key _ (by simp)
  · rw [hk]; rfl

/-- C17 as amended, on three copies of a record. -/
theorem average_of_identical_runs_witness :
    ∃ (h' : MetricsHeap) (result : MetricsPtr) (res : Metrics),
      runBenchmarkAverage [sampleMetrics] (List.replicate 3 (some 0)) = some (h', result) ∧
      deref h' result = some res ∧
      res.TotalTime = 3000000000 ∧ res.NoDataPixels = 1234 ∧
      res.NDVIAverage = Float64.fin (1 / 4) := by
  obtain ⟨h', result, res, hrun, hres, hT, _, _, _, _, _, _, _, _, hND, hAvg⟩ :=
    average_of_identical_runs [sampleMetrics] (some 0) sampleMetrics 3 rfl (by decide)
      (by decide!)
  refine ⟨h', result, res, hrun, hres, hT, hND, ?_⟩
  rw [hAvg]
  decide!

/-- C17 as stated fails for the NDVI average: three copies of a record whose NDVI average is
the `float64` nearest to `0.1` give `((0.1 + 0.1) + 0.1) / 3 = 0.10000000000000002`, one unit
in the last place above the value of the record. -/
theorem average_of_identical_runs_rounds :
    roundFloat64 (1 / 10) = Float64.fin (3602879701896397 / 2 ^ 55) ∧
    tenthMetrics.NDVIAverage = Float64.fin (3602879701896397 / 2 ^ 55) ∧
    ∃ (h' : MetricsHeap) (result : MetricsPtr) (res : Metrics),
      runBenchmarkAverage [tenthMetrics] (List.replicate 3 (some 0)) = some (h', result) ∧
      deref h' result = some res ∧
      res.NDVIAverage = Float64.fin (7205759403792795 / 2 ^ 56) ∧
      res.NDVIAverage ≠ tenthMetrics.NDVIAverage := by
  refine ⟨by decide!, rfl, _, _, _,
    runBenchmarkAverage_eq [tenthMetrics] (some 0) [some 0, some 0] tenthMetrics
      [tenthMetrics, tenthMetrics] rfl rfl, deref_alloc_two _ _ _, ?_, ?_⟩
  · decide!
  · decide!

/-- C18 fails.  With one iteration whose record has `NDVIMin = -0.5` and `NDVIMax = 0.875` the
result has `NDVIMin = math.MaxFloat64` and `NDVIMax = -math.MaxFloat64`; with two iterations
whose records have the extremes `(-0.5, 0.875)` and `(-0.25, 0.75)` the result has
`NDVIMin = -0.25` and `NDVIMax = 0.75`: the extremes of the first iteration are lost. -/
theorem runBenchmark_drops_first_extremes :
    (∃ (h' : MetricsHeap) (result : MetricsPtr) (res : Metrics),
      runBenchmarkAverage [sampleMetrics] [some 0] = some (h', result) ∧
      deref h' result = some res ∧
      res.NDVIMin = Float64.fin MaxFloat64 ∧ res.NDVIMax = Float64.fin (-MaxFloat64)) ∧
    (∃ (h' : MetricsHeap) (result : MetricsPtr) (res : Metrics),
      runBenchmarkAverage [sampleMetrics, innerMetrics] [some 0, some 1] = some (h', result) ∧
      deref h' result = some res ∧
      res.NDVIMin = Float64.fin (-(1 / 4)) ∧ res.NDVIMax = Float64.fin (3 / 4)) ∧
    sampleMetrics.NDVIMin = Float64.fin (-(1 / 2)) ∧
    sampleMetrics.NDVIMax = Float64.fin (7 / 8) := by
  refine ⟨⟨_, _, _, runBenchmarkAverage_eq [sampleMetrics] (some 0) [] sampleMetrics [] rfl rfl,
      deref_alloc_two _ _ _, rfl, rfl⟩,
    ⟨_, _, _, runBenchmarkAverage_eq [sampleMetrics, innerMetrics] (some 0) [some 1]
      sampleMetrics [innerMetrics] rfl rfl, deref_alloc_two _ _ _, ?_, ?_⟩, rfl, rfl⟩
  · decide!
  · decide!

/-- C19: in a resolution group whose records have positive total times (each is the duration
`time.Since` measures over a whole iteration, below `2^63` ns), the baseline time is the total
time in seconds of the first record of the group with processor `CPU` and one thread when the
group has such a record, and the total time of the first record of the group when it has none.
The search result `baseTime` is `0`, which is the test of the fallback, exactly when the group
has no such record. -/
theorem baselineTime_reference (metricas : List Metrics) (res : String) (m0 : Metrics)
    (ms : List Metrics) (hg : resolutionGroup metricas res = m0 :: ms)
    (hpos : ∀ m ∈ resolutionGroup metricas res, 0 < m.TotalTime ∧ m.TotalTime < 2 ^ 63) :
    (∀ r : Metrics,
        (resolutionGroup metricas res).find?
            (fun m => decide (m.ProcessorType = "CPU" ∧ m.NumThreads = 1)) = some r →
        baselineTime (resolutionGroup metricas res) = durationSeconds r.TotalTime) ∧
      ((resolutionGroup metricas res).find?
            (fun m => decide (m.ProcessorType = "CPU" ∧ m.NumThreads = 1)) = none →
        baselineTime (resolutionGroup metricas res) = durationSeconds m0.TotalTime) ∧
      (findBaseTime (resolutionGroup metricas res) = Float64.fin 0 ↔
        (resolutionGroup metricas res).find?
            (fun m => decide (m.ProcessorType = "CPU" ∧ m.NumThreads = 1)) = none) := by
  have hfind := findBaseTime_eq_find (resolutionGroup metricas res)
  have hsome : ∀ r : Metrics,
      (resolutionGroup metricas res).find?
          (fun m => decide (m.ProcessorType = "CPU" ∧ m.NumThreads = 1)) = some r →
      findBaseTime (resolutionGroup metricas res) = durationSeconds r.TotalTime ∧
        durationSeconds r.TotalTime ≠ Float64.fin 0 := by
    intro r hr
    rw [hr] at hfind
    refine ⟨hfind, ?_⟩
    obtain ⟨h0, h1⟩ := hpos r (List.mem_of_find?_eq_some hr)
    obtain ⟨t, ht, htpos⟩ := durationSeconds_pos r.TotalTime h0 h1
    rw [ht]
    intro hc
    have := Float64.fin.inj hc
    linarith
  have hnone : (resolutionGroup metricas res).find?
        (fun m => decide (m.ProcessorType = "CPU" ∧ m.NumThreads = 1)) = none →
      findBaseTime (resolutionGroup metricas res) = Float64.fin 0 := by
    intro hn
    rw [hn] at hfind
    exact hfind
  refine ⟨?_, ?_, ?_⟩
  · intro r hr
    obtain ⟨e, hne⟩ := hsome r hr
    unfold baselineTime
    simp only [e]
    rw [if_neg (fun hc => hne hc.1)]
  · intro hn
    have hz := hnone hn
    rw [hg] at hz ⊢
    unfold baselineTime
    simp [hz]
  · constructor
    · intro hz
      cases hf : (resolutionGroup metricas res).find?
          (fun m => decide (m.ProcessorType = "CPU" ∧ m.NumThreads = 1)) with
      | none => rfl
      | some r =>
        obtain ⟨e, hne⟩ := hsome r hf
        rw [e] at hz
        exact absurd hz hne
    · exact hnone

/-- C19 on the group `[GPU (5 s), CPU with 4 threads (3 s), CPU with 1 thread (10 s)]`, where
the baseline is `10 s`, and on the group `[GPU (5 s), CPU with 4 threads (3 s)]`, which has no
record of processor `CPU` and one thread and where the baseline is `5 s`. -/
theorem baselineTime_reference_witness :
    baselineTime (resolutionGroup [gpuFiveSeconds, sampleMetrics, cpuOneTenSeconds] "10m") =
        Float64.fin 10 ∧
      baselineTime (resolutionGroup [gpuFiveSeconds, sampleMetrics] "10m") = Float64.fin 5 := by
  have hp : ∀ m ∈ [gpuFiveSeconds, sampleMetrics, cpuOneTenSeconds],
      0 < m.TotalTime ∧ m.TotalTime < 2 ^ 63 := by
    intro m hm
    simp only [List.mem_cons, List.mem_singleton, List.not_mem_nil, or_false] at hm
    rcases hm with rfl | rfl | rfl <;> decide
  have hp2 : ∀ m ∈ [gpuFiveSeconds, sampleMetrics],
      0 < m.TotalTime ∧ m.TotalTime < 2 ^ 63 := by
    intro m hm
    simp only [List.mem_cons, List.mem_singleton, List.not_mem_nil, or_false] at hm
    rcases hm with rfl | rfl <;> decide
  constructor
  · rw [(baselineTime_reference [gpuFiveSeconds, sampleMetrics, cpuOneTenSeconds] "10m"
      gpuFiveSeconds [sampleMetrics, cpuOneTenSeconds] (by decide!) hp).1 cpuOneTenSeconds
      (by decide!)]
    decide!
  · rw [(baselineTime_reference [gpuFiveSeconds, sampleMetrics] "10m"
      gpuFiveSeconds [sampleMetrics] (by decide!) hp2).2.1 (by decide!)]
    decide!

/-- C20: for the record `m` at position `i` of a resolution group, with a positive total time,
the row at position `i` of the table has the total time in seconds, a finite positive
`float64`, as time; its speedup is the baseline time divided by that time (the rounded quotient
of the two numbers when the baseline is finite); its efficiency is the speedup divided by
`float64(NumThreads)` for a `CPU` record and the speedup itself for a `GPU` record. -/
theorem scalability_row_values (metricas : List Metrics) (res : String) (i : Nat) (m : Metrics)
    (hm : (resolutionGroup metricas res)[i]? = some m)
    (hpos : 0 < m.TotalTime) (hmax : m.TotalTime < 2 ^ 63) :
    ∃ (row : ScalabilityRow) (t : ℚ),
      (scalabilityTable metricas res)[i]? = some row ∧
      row.time = durationSeconds m.TotalTime ∧ row.time = Float64.fin t ∧ 0 < t ∧
      row.speedup = (baselineTime (resolutionGroup metricas res)).div row.time ∧
      (∀ b : ℚ, baselineTime (resolutionGroup metricas res) = Float64.fin b →
        row.speedup = roundFloat64 (b / t)) ∧
      (m.ProcessorType = "CPU" →
        row.efficiency = row.speedup.div (float64OfInt m.NumThreads)) ∧
      (m.ProcessorType = "GPU" → row.efficiency = row.speedup) := by
  obtain ⟨t, ht, htpos⟩ := durationSeconds_pos m.TotalTime hpos hmax
  refine ⟨scalabilityRow (baselineTime (resolutionGroup metricas res)) m, t, ?_, rfl, ht, htpos,
    rfl, ?_, ?_, ?_⟩
  · unfold scalabilityTable
    rw [List.getElem?_map, hm]
    rfl
  · intro b hb
    show (baselineTime (resolutionGroup metricas res)).div (durationSeconds m.TotalTime) = _
    rw [hb, ht]
    simp [Float64.div, htpos.ne']
  · intro hcpu
    simp [scalabilityRow, hcpu]
  · intro hgpu
    have : ¬ m.ProcessorType = "CPU" := by rw [hgpu]; decide
    simp [scalabilityRow, this]

/-- C20 on the group `[CPU with 1 thread (10 s), CPU with 4 threads (3 s)]`: the second row has
speedup `10 / 3` and efficiency `10 / 12`, each rounded to `float64`: `3.3333333333333335` and
`0.8333333333333334`. -/
theorem scalability_row_values_witness :
    ∃ row : ScalabilityRow,
      (scalabilityTable [cpuOneTenSeconds, sampleMetrics] "10m")[1]? = some row ∧
      row.time = Float64.fin 3 ∧
      row.speedup = roundFloat64 (10 / 3) ∧ row.efficiency = roundFloat64 (10 / 12) ∧
      roundFloat64 (10 / 3) = Float64.fin (7505999378950827 / 2 ^ 51) ∧
      roundFloat64 (10 / 12) = Float64.fin (7505999378950827 / 2 ^ 53) := by
  obtain ⟨row, t, hrow, htime, _, _, hs, _, hcpu, _⟩ :=
    scalability_row_values [cpuOneTenSeconds, sampleMetrics] "10m" 1 sampleMetrics
      (by decide!) (by decide) (by decide)
  have e1 : durationSeconds sampleMetrics.TotalTime = Float64.fin 3 := by decide!
  have e2 : baselineTime (resolutionGroup [cpuOneTenSeconds, sampleMetrics] "10m") =
      Float64.fin 10 := by decide!
  have e3 : (Float64.fin 10).div (Float64.fin 3) = roundFloat64 (10 / 3) := by decide!
  have e4 : (roundFloat64 (10 / 3)).div (float64OfInt sampleMetrics.NumThreads) =
      roundFloat64 (10 / 12) := by decide!
  have hsp : row.speedup = roundFloat64 (10 / 3) := by rw [hs, htime, e1, e2, e3]
  refine ⟨row, hrow, by rw [htime, e1], hsp, ?_, by decide!, by decide!⟩
  rw [hcpu (by decide), hsp, e4]

/-- C23: with zero workers and band rasters of matching dimensions `Calculate` does not return:
the chunk size `(pixelCount + 0 - 1) / 0` is an integer division by zero, a run-time panic, so
no statistics and no raster are produced; `Colorize` with zero workers panics in the same
way. -/
theorem zero_workers_panic (nirBand redBand : BandResult) (ndviData : List ℚ)
    (width height : Nat)
    (hW : nirBand.Image.Width = redBand.Image.Width)
    (hH : nirBand.Image.Height = redBand.Image.Height) :
    Calculate nirBand redBand 0 = none ∧ Colorize ndviData width height 0 = none := by
  constructor
  · unfold Calculate
    rw [if_neg (by rw [hW, hH]; simp)]
    simp
  · unfold Colorize
    simp

/-- C23 on two 2x1 rasters and on a raster of two NDVI values. -/
theorem zero_workers_panic_witness :
    Calculate ⟨⟨2, 1, 1, [[4 / 5, 0]]⟩⟩ ⟨⟨2, 1, 1, [[1 / 5, 0]]⟩⟩ 0 = none ∧
      Colorize [3 / 5, 0] 2 1 0 = none :=
  zero_workers_panic ⟨⟨2, 1, 1, [[4 / 5, 0]]⟩⟩ ⟨⟨2, 1, 1, [[1 / 5, 0]]⟩⟩ [3 / 5, 0] 2 1 rfl rfl

/-- C25: with `c = (pixelCount + workerCount - 1) / workerCount` and at least one worker, the
launch step of worker `w` in `Calculate` stores the NDVI value at every raster index `i` with
`w*c ≤ i < min (w*c + c) pixelCount` and at no other index, and the launch step of worker `w` in
`Colorize` stores the four bytes of every pixel of that range and no other byte.  The raster
`Calculate` returns and the pixel buffer `Colorize` returns are what these steps, run for the
workers `0, ..., workerCount - 1` with this `c`, leave.  The ranges are pairwise disjoint, they
contain only indices below `pixelCount`, and every index below `pixelCount` lies in the range of
exactly one worker `w < workerCount`. -/
theorem chunk_partition (pixelCount numWorkers c : Nat) (hw : 1 ≤ numWorkers)
    (hc : c = (pixelCount + numWorkers - 1) / numWorkers) :
    (∀ (nirData redData : List ℚ) (st : CalcState) (w : Nat),
        pixelCount ≤ nirData.length → pixelCount ≤ redData.length →
        pixelCount ≤ st.ndviData.length →
        ∃ st2 : CalcState, workerStep nirData redData c pixelCount st w = some st2 ∧
          ∀ i : Nat, st2.ndviData[i]? =
            if w * c ≤ i ∧ i < min (w * c + c) pixelCount then some (ndviAt nirData redData i)
            else st.ndviData[i]?) ∧
      (∀ (ndviData : List ℚ) (pix : List Nat) (w : Nat),
        pixelCount ≤ ndviData.length → 4 * pixelCount ≤ pix.length →
        ∃ pix2 : List Nat, colorWorkerStep ndviData c pixelCount pix w = some pix2 ∧
          ∀ j : Nat, pix2[j]? =
            if w * c ≤ j / 4 ∧ j / 4 < min (w * c + c) pixelCount then some (byteAt ndviData j)
            else pix[j]?) ∧
      (∀ (nirBand redBand : BandResult) (nirData redData : List ℚ),
        nirBand.Image.Width = redBand.Image.Width →
        nirBand.Image.Height = redBand.Image.Height →
        nirBand.Image.Data[0]? = some nirData → redBand.Image.Data[0]? = some redData →
        nirBand.Image.Width * nirBand.Image.Height = pixelCount →
        nirData.length = pixelCount → redData.length = pixelCount →
        ∃ (st : CalcState) (m : NDVIMetrics),
          (List.range numWorkers).foldlM (workerStep nirData redData c pixelCount)
            { ndviData := List.replicate pixelCount 0, minVals := List.replicate numWorkers 0,
              maxVals := List.replicate numWorkers 0, sums := List.replicate numWorkers 0,
              pixelsWithoutData := List.replicate numWorkers 0 } = some st ∧
          Calculate nirBand redBand (numWorkers : Int) =
            some ⟨some m, some st.ndviData, none⟩) ∧
      (∀ (ndviData : List ℚ) (width height : Nat),
        width * height = pixelCount → pixelCount ≤ ndviData.length →
        ∃ (cm : ColorMetrics) (img : RGBAImage),
          (List.range numWorkers).foldlM (colorWorkerStep ndviData c pixelCount)
            (NewRGBA width height).Pix = some img.Pix ∧
          Colorize ndviData width height (numWorkers : Int) = some (cm, img)) ∧
      (∀ w w2 i : Nat, w * c ≤ i ∧ i < min (w * c + c) pixelCount →
        w2 * c ≤ i ∧ i < min (w2 * c + c) pixelCount → w = w2) ∧
      (∀ w i : Nat, w * c ≤ i ∧ i < min (w * c + c) pixelCount → i < pixelCount) ∧
      (∀ i : Nat, i < pixelCount →
        ∃ w : Nat, w < numWorkers ∧ w * c ≤ i ∧ i < min (w * c + c) pixelCount) := by
  have hcover := pixelCount_le_chunks pixelCount numWorkers hw
  rw [← hc] at hcover
  refine ⟨fun nirData redData st w hn hr hst => workerStep_raster nirData redData c pixelCount
      hn hr st hst w,
    fun ndviData pix w hn hp => colorWorkerStep_bytes ndviData c pixelCount hn pix hp w,
    ?_, ?_, ?_, fun w i h => by omega, ?_⟩
  · intro nirBand redBand nirData redData hW hH hn hr hpc hln hlr
    obtain ⟨st, hst, hdata⟩ := launch_raster nirData redData pixelCount numWorkers hw
      hln.ge hlr.ge
    rw [← hc] at hst
    have hcalc := Calculate_eq nirBand redBand (numWorkers : Int) nirData redData hW hH hn hr
      (by rw [hpc, hln]) (by rw [hpc, hlr]) (by omega)
    rw [hpc] at hcalc
    rw [← hdata] at hcalc
    exact ⟨st, _, hst, hcalc⟩
  · intro ndviData width height hpc hlen
    subst hpc
    have hpix := launch_pix ndviData width height numWorkers hw hlen
    rw [← hc] at hpix
    exact ⟨_, _, hpix, Colorize_eq ndviData width height (numWorkers : Int) hlen (by omega)⟩
  · intro w w2 i h1 h2
    have hcpos : 0 < c := by
      rcases Nat.eq_zero_or_pos c with h0 | h0
      · subst h0; omega
      · exact h0
    have e1 : i / c = w := by
      apply Nat.div_eq_of_lt_le
      · exact h1.1
      · rw [Nat.succ_mul]; omega
    have e2 : i / c = w2 := by
      apply Nat.div_eq_of_lt_le
      · exact h2.1
      · rw [Nat.succ_mul]; omega
    rw [← e1, ← e2]
  · intro i hi
    have hcpos : 0 < c := by
      rcases Nat.eq_zero_or_pos c with h0 | h0
      · subst h0; omega
      · exact h0
    refine ⟨i / c, ?_, ?_⟩
    · rw [Nat.div_lt_iff_lt_mul hcpos]
      omega
    · have h1 := Nat.div_mul_le_self i c
      have h2 := Nat.lt_div_mul_add hcpos (a := i)
      omega

/-- C25 for 5 pixels and 4 workers: the chunk size is 2; on a raster that holds `9` everywhere
the step of worker 2 stores the NDVI value at index 4 only; pixel 4 belongs to worker 2 and to
no other worker. -/
theorem chunk_partition_witness :
    (∃ st2 : CalcState,
        workerStep [1, 1, 1, 1, 1] [0, 0, 0, 0, 0] 2 5
          ⟨[9, 9, 9, 9, 9], [0, 0, 0, 0], [0, 0, 0, 0], [0, 0, 0, 0], [0, 0, 0, 0]⟩ 2 =
          some st2 ∧
        st2.ndviData[3]? = some 9 ∧ st2.ndviData[4]? = some 1) ∧
      (∃ w : Nat, w < 4 ∧ w * 2 ≤ 4 ∧ 4 < min (w * 2 + 2) 5) ∧
      (∀ w w2 : Nat, w * 2 ≤ 4 ∧ 4 < min (w * 2 + 2) 5 → w2 * 2 ≤ 4 ∧ 4 < min (w2 * 2 + 2) 5 →
        w = w2) := by
  have h := chunk_partition 5 4 2 (by decide) (by decide)
  refine ⟨?_, h.2.2.2.2.2.2 4 (by decide), fun w w2 => h.2.2.2.2.1 w w2 4⟩
  obtain ⟨st2, hs, hv⟩ := h.1 [1, 1, 1, 1, 1] [0, 0, 0, 0, 0]
    ⟨[9, 9, 9, 9, 9], [0, 0, 0, 0], [0, 0, 0, 0], [0, 0, 0, 0], [0, 0, 0, 0]⟩ 2
    (by decide) (by decide) (by decide)
  refine ⟨st2, hs, ?_, ?_⟩
  · rw [hv 3]
    decide!
  · rw [hv 4]
    decide!

/-- C26, as the code has it: with `c = (pixelCount + workerCount - 1) / workerCount`, the launch
step of worker `w` in `Calculate` stores the NDVI value at the `min c (pixelCount - w*c)`
contiguous raster indices that start at `w*c`, and at no other index.  A worker whose range ends
at or before `pixelCount` has exactly `c` indices, a worker whose range starts at or after
`pixelCount` has none, and the only worker that can have fewer than `c` indices without having
none is worker `pixelCount / c`. -/
theorem chunk_sizes (pixelCount numWorkers c w : Nat) (hp : 1 ≤ pixelCount)
    (hw : 1 ≤ numWorkers) (hc : c = (pixelCount + numWorkers - 1) / numWorkers) :
    (∀ (nirData redData : List ℚ) (st : CalcState),
        pixelCount ≤ nirData.length → pixelCount ≤ redData.length →
        pixelCount ≤ st.ndviData.length →
        ∃ st2 : CalcState, workerStep nirData redData c pixelCount st w = some st2 ∧
          ∀ i : Nat, st2.ndviData[i]? =
            if w * c ≤ i ∧ i < w * c + min c (pixelCount - w * c) then
              some (ndviAt nirData redData i)
            else st.ndviData[i]?) ∧
      chunkIdx c pixelCount w = List.range' (w * c) (min c (pixelCount - w * c)) ∧
      ((w + 1) * c ≤ pixelCount → min c (pixelCount - w * c) = c) ∧
      (pixelCount ≤ w * c → min c (pixelCount - w * c) = 0) ∧
      (0 < min c (pixelCount - w * c) → min c (pixelCount - w * c) < c →
        w = pixelCount / c) := by
  have hcover := pixelCount_le_chunks pixelCount numWorkers hw
  rw [← hc] at hcover
  have hcpos : 0 < c := by
    rcases Nat.eq_zero_or_pos c with h0 | h0
    · subst h0; omega
    · exact h0
  have hlen : min (w * c + c) pixelCount - w * c = min c (pixelCount - w * c) := by omega
  have h1 : chunkIdx c pixelCount w = List.range' (w * c) (min c (pixelCount - w * c)) := by
    unfold chunkIdx
    rw [hlen]
  refine ⟨?_, h1, ?_, ?_, ?_⟩
  · intro nirData redData st hn hr hst
    obtain ⟨st2, hs, hv⟩ := workerStep_raster nirData redData c pixelCount hn hr st hst w
    refine ⟨st2, hs, ?_⟩
    intro i
    rw [hv i]
    by_cases hi : w * c ≤ i ∧ i < min (w * c + c) pixelCount
    · rw [if_pos hi, if_pos (by omega)]
    · rw [if_neg hi, if_neg (by omega)]
  · intro h
    rw [Nat.succ_mul] at h
    omega
  · intro h
    omega
  · intro h3 h4
    symm
    apply Nat.div_eq_of_lt_le
    · omega
    · rw [Nat.succ_mul]; omega

/-- C26 for 5 pixels and 4 workers: on a raster that holds `9` everywhere the step of worker 1
stores the NDVI value at the indices 2 and 3. -/
theorem chunk_sizes_witness :
    ∃ st2 : CalcState,
      workerStep [1, 1, 1, 1, 1] [0, 0, 0, 0, 0] 2 5
        ⟨[9, 9, 9, 9, 9], [0, 0, 0, 0], [0, 0, 0, 0], [0, 0, 0, 0], [0, 0, 0, 0]⟩ 1 = some st2 ∧
      st2.ndviData[1]? = some 9 ∧ st2.ndviData[2]? = some 1 ∧ st2.ndviData[3]? = some 1 ∧
      st2.ndviData[4]? = some 9 := by
  obtain ⟨st2, hs, hv⟩ := (chunk_sizes 5 4 2 1 (by decide) (by decide) (by decide)).1
    [1, 1, 1, 1, 1] [0, 0, 0, 0, 0]
    ⟨[9, 9, 9, 9, 9], [0, 0, 0, 0], [0, 0, 0, 0], [0, 0, 0, 0], [0, 0, 0, 0]⟩
    (by decide) (by decide) (by decide)
  refine ⟨st2, hs, ?_, ?_, ?_, ?_⟩
  · rw [hv 1]; decide!
  · rw [hv 2]; decide!
  · rw [hv 3]; decide!
  · rw [hv 4]; decide!

/-- C26 fails for 5 pixels and 4 workers: the chunk size is 2, and worker 2, which is not the
last of the four workers, processes the single pixel 4, while the last worker processes none.
On a raster that holds `9` everywhere the step of worker 2 stores a value at index 4 only and
the step of worker 3 stores none.  On samples whose NDVI value is `1` everywhere the sum a
worker stores is the number of pixels it processed: the launch loop of `Calculate`, from its
initial state, leaves the sums `[2, 2, 1, 0]`. -/
theorem chunk_before_last_short :
    (5 + 4 - 1) / 4 = 2 ∧
      (workerStep [1, 1, 1, 1, 1] [0, 0, 0, 0, 0] 2 5
          ⟨[9, 9, 9, 9, 9], [0, 0, 0, 0], [0, 0, 0, 0], [0, 0, 0, 0], [0, 0, 0, 0]⟩ 2).map
        (fun st => st.ndviData) = some [9, 9, 9, 9, 1] ∧
      (workerStep [1, 1, 1, 1, 1] [0, 0, 0, 0, 0] 2 5
          ⟨[9, 9, 9, 9, 9], [0, 0, 0, 0], [0, 0, 0, 0], [0, 0, 0, 0], [0, 0, 0, 0]⟩ 3).map
        (fun st => st.ndviData) = some [9, 9, 9, 9, 9] ∧
      ((List.range 4).foldlM (workerStep [1, 1, 1, 1, 1] [0, 0, 0, 0, 0] 2 5)
          ⟨List.replicate 5 0, List.replicate 4 0, List.replicate 4 0, List.replicate 4 0,
            List.replicate 4 0⟩).map (fun st => (st.ndviData, st.sums)) =
        some ([1, 1, 1, 1, 1], [2, 2, 1, 0]) ∧
      Calculate ⟨⟨5, 1, 1, [[1, 1, 1, 1, 1]]⟩⟩ ⟨⟨5, 1, 1, [[0, 0, 0, 0, 0]]⟩⟩ 4 =
        some ⟨some ⟨0, 5, 0, 1, 1, Float64.fin 1⟩, some [1, 1, 1, 1, 1], none⟩ := by
  decide!

/-- C27: for `-1 < v < 1` the binary search of `GetNDVIColor` over the five-entry table ends
(within as many iterations as the table has entries) with an index `idx` such that a table entry
`j` has a value `≤ v` exactly when `j ≤ idx`; `0 ≤ idx ≤ len - 2`, so `table[idx+1]` exists and
the test `idx >= len - 1` of the branch for the last point is false. -/
theorem searchLoop_highest_index (v : ℚ) (h1 : -1 < v) (h2 : v < 1) :
    ∃ idx : Int,
      searchLoop ndviGradientPoints v ndviGradientPoints.length 0
        ((ndviGradientPoints.length : Int) - 1) 0 = some idx ∧
      0 ≤ idx ∧ idx ≤ (ndviGradientPoints.length : Int) - 2 ∧
      (∀ (j : Nat) (p : GradientPoint), ndviGradientPoints[j]? = some p →
        (p.Value ≤ v ↔ (j : Int) ≤ idx)) ∧
      (∃ p2 : GradientPoint, ndviGradientPoints[(idx + 1).toNat]? = some p2) ∧
      ¬ idx ≥ (ndviGradientPoints.length : Int) - 1 := by
  have hlen : ndviGradientPoints.length = 5 := rfl
  have e4 : ((5 : Nat) : Int) - 1 = 4 := by decide
  have e3 : ((5 : Nat) : Int) - 2 = 3 := by decide
  refine ⟨segmentIndex v, ?_, ?_⟩
  · rw [hlen, e4]; exact searchLoop_table v h1 h2
  rw [hlen, e4, e3]
  have key : ∀ (j : Nat) (p : GradientPoint), ndviGradientPoints[j]? = some p →
      (j = 0 ∧ p.Value = -1) ∨ (j = 1 ∧ p.Value = -(3602879701896397 / 2 ^ 54)) ∨ (j = 2 ∧ p.Value = 0) ∨
        (j = 3 ∧ p.Value = 1 / 2) ∨ (j = 4 ∧ p.Value = 1) := by
    intro j p hj
    rcases j with _ | _ | _ | _ | _ | j
    all_goals simp [ndviGradientPoints] at hj
    all_goals subst hj
    all_goals simp
  unfold segmentIndex
  by_cases c1 : v < -(3602879701896397 / 2 ^ 54)
  · rw [if_pos c1]
    refine ⟨le_refl _, by decide, ?_, ⟨_, rfl⟩, by decide⟩
    intro j p hj
    rcases key j p hj with ⟨rfl, hv⟩ | ⟨rfl, hv⟩ | ⟨rfl, hv⟩ | ⟨rfl, hv⟩ | ⟨rfl, hv⟩ <;>
      rw [hv] <;> constructor <;> intro h <;> first | (norm_num at h ⊢; done) | linarith
  · rw [if_neg c1]
    by_cases c2 : v < 0
    · rw [if_pos c2]
      refine ⟨by decide, by decide, ?_, ⟨_, rfl⟩, by decide⟩
      intro j p hj
      rcases key j p hj with ⟨rfl, hv⟩ | ⟨rfl, hv⟩ | ⟨rfl, hv⟩ | ⟨rfl, hv⟩ | ⟨rfl, hv⟩ <;>
        rw [hv] <;> constructor <;> intro h <;>
        first | (norm_num at h ⊢; done) | linarith
    · rw [if_neg c2]
      by_cases c3 : v < 1 / 2
      · rw [if_pos c3]
        refine ⟨by decide, by decide, ?_, ⟨_, rfl⟩, by decide⟩
        intro j p hj
        rcases key j p hj with ⟨rfl, hv⟩ | ⟨rfl, hv⟩ | ⟨rfl, hv⟩ | ⟨rfl, hv⟩ | ⟨rfl, hv⟩ <;>
          rw [hv] <;> constructor <;> intro h <;>
          first | (norm_num at h ⊢; done) | linarith
      · rw [if_neg c3]
        refine ⟨by decide, by decide, ?_, ⟨_, rfl⟩, by decide⟩
        intro j p hj
        rcases key j p hj with ⟨rfl, hv⟩ | ⟨rfl, hv⟩ | ⟨rfl, hv⟩ | ⟨rfl, hv⟩ | ⟨rfl, hv⟩ <;>
          rw [hv] <;> constructor <;> intro h <;>
          first | (norm_num at h ⊢; done) | linarith

/-- C27 at `v = 1/4`, where the search ends with index 2, the entry with value 0, and at the
`float64` value of the literal `-0.2`, the value of entry 1, where it ends with index 1. -/
theorem searchLoop_highest_index_witness :
    (∃ idx : Int, searchLoop ndviGradientPoints (1 / 4) 5 0 4 0 = some idx ∧
      ((0 : ℚ) ≤ 1 / 4 ↔ (2 : Int) ≤ idx) ∧ ((1 : ℚ) / 2 ≤ 1 / 4 ↔ (3 : Int) ≤ idx)) ∧
    searchLoop ndviGradientPoints (-(3602879701896397 / 2 ^ 54)) 5 0 4 0 = some 1 := by
  constructor
  · obtain ⟨idx, h, _, _, hall, _⟩ := searchLoop_highest_index (1 / 4) (by norm_num) (by norm_num)
    exact ⟨idx, h, hall 2 ⟨0, ⟨255, 0, 0, 255⟩⟩ rfl, hall 3 ⟨1 / 2, ⟨255, 255, 0, 255⟩⟩ rfl⟩
  · obtain ⟨idx, h, _, _, hall, _⟩ := searchLoop_highest_index (-(3602879701896397 / 2 ^ 54))
      (by norm_num) (by norm_num)
    have h1 := (hall 1 ⟨-(3602879701896397 / 2 ^ 54), ⟨65, 105, 225, 255⟩⟩ rfl).mp le_rfl
    have h2 := (hall 2 ⟨0, ⟨255, 0, 0, 255⟩⟩ rfl).not.mp (by norm_num)
    have : idx = 1 := by omega
    rw [← this]
    exact h

/-- C21, as the code has it: for a duration of `d ≥ 0` nanoseconds `getMagnitudeAndUnit` returns
the unit `ns` below 1000, `µs` below `10^6`, `ms` below `10^9` and `s` from there on.  The
magnitude is `d` itself for `ns`; for `µs` and `ms` it is the `float64` nearest to `d / 1000`,
`d / 10^6`, so that magnitude times the size of the unit differs from `d` by at most `d / 2^53`;
for `s` the difference is at most `d / 2^51`.  The magnitude is below 1000 whenever `d` is below
one second. -/
theorem getMagnitudeAndUnit_scaled (d : Int) (h0 : 0 ≤ d) (h1 : d < 2 ^ 63) :
    (d < 1000 → getMagnitudeAndUnit d = (Float64.fin (d : ℚ), "ns")) ∧
      (1000 ≤ d → d < 1000000 → ∃ y : ℚ,
        getMagnitudeAndUnit d = (Float64.fin y, "µs") ∧
        roundFloat64 ((d : ℚ) / 1000) = Float64.fin y ∧
        |y * 1000 - (d : ℚ)| ≤ (d : ℚ) / 2 ^ 53 ∧ y < 1000) ∧
      (1000000 ≤ d → d < 1000000000 → ∃ y : ℚ,
        getMagnitudeAndUnit d = (Float64.fin y, "ms") ∧
        roundFloat64 ((d : ℚ) / 1000000) = Float64.fin y ∧
        |y * 1000000 - (d : ℚ)| ≤ (d : ℚ) / 2 ^ 53 ∧ y < 1000) ∧
      (1000000000 ≤ d → ∃ y : ℚ,
        getMagnitudeAndUnit d = (Float64.fin y, "s") ∧
        |y * 1000000000 - (d : ℚ)| ≤ (d : ℚ) / 2 ^ 51) := by
  refine ⟨?_, ?_, ?_, ?_⟩
  · intro h
    unfold getMagnitudeAndUnit
    rw [if_pos h, float64OfInt_exact d h0 (by omega)]
  · intro ha hb
    obtain ⟨y, hy1, hy2, hy3, hy4⟩ := float64OfInt_div_const d 1000 (by omega) (by omega)
      (by norm_num) (by norm_num)
    refine ⟨y, ?_, hy2, hy4, ?_⟩
    · unfold getMagnitudeAndUnit
      rw [if_neg (by omega), if_pos hb, hy1]
    · have hq : (d : ℚ) ≤ 999999 := by exact_mod_cast (by omega : d ≤ 999999)
      have hq0 : (0 : ℚ) ≤ (d : ℚ) := by exact_mod_cast h0
      rw [abs_le] at hy4
      have : (d : ℚ) / 2 ^ 53 ≤ 1 := by
        rw [div_le_iff₀ (by positivity)]; linarith
      linarith [hy4.2]
  · intro ha hb
    obtain ⟨y, hy1, hy2, hy3, hy4⟩ := float64OfInt_div_const d 1000000 (by omega) (by omega)
      (by norm_num) (by norm_num)
    refine ⟨y, ?_, hy2, hy4, ?_⟩
    · unfold getMagnitudeAndUnit
      rw [if_neg (by omega), if_neg (by omega), if_pos hb, hy1]
    · have hq : (d : ℚ) ≤ 999999999 := by exact_mod_cast (by omega : d ≤ 999999999)
      have hq0 : (0 : ℚ) ≤ (d : ℚ) := by exact_mod_cast h0
      rw [abs_le] at hy4
      have : (d : ℚ) / 2 ^ 53 ≤ 1 := by
        rw [div_le_iff₀ (by positivity)]; linarith
      linarith [hy4.2]
  · intro ha
    obtain ⟨y, hy1, hy2⟩ := durationSeconds_error d ha h1
    refine ⟨y, ?_, hy2⟩
    unfold getMagnitudeAndUnit
    rw [if_neg (by omega), if_neg (by omega), if_neg (by omega), hy1]

/-- C21 at 999 ns and at 2.5 ms: the results are `999 ns` and `2.5 ms`. -/
theorem getMagnitudeAndUnit_scaled_witness :
    getMagnitudeAndUnit 999 = (Float64.fin 999, "ns") ∧
      getMagnitudeAndUnit 2500000 = (Float64.fin (5 / 2), "ms") := by
  refine ⟨by simpa using (getMagnitudeAndUnit_scaled 999 (by decide) (by decide)).1 (by decide),
    ?_⟩
  obtain ⟨y, hy1, hy2, _, _⟩ :=
    (getMagnitudeAndUnit_scaled 2500000 (by decide) (by decide)).2.2.1 (by decide) (by decide)
  have h : roundFloat64 (((2500000 : Int) : ℚ) / 1000000) = Float64.fin (5 / 2) := by decide!
  rw [hy1, ← hy2, h]

/-- C21 fails at `d = 1001` ns: the magnitude is the `float64` nearest to `1.001`, which is not
`1.001`; its exact product with 1000 is not 1001, and its `float64` product with 1000 is
`1000.9999999999999`. -/
theorem getMagnitudeAndUnit_inexact :
    getMagnitudeAndUnit 1001 = (Float64.fin (2254051613498933 / 2 ^ 51), "µs") ∧
      (2254051613498933 / 2 ^ 51 : ℚ) * 1000 ≠ 1001 ∧
      (Float64.fin (2254051613498933 / 2 ^ 51)).mul (Float64.fin 1000) =
        Float64.fin (8804889115230207 / 2 ^ 43) ∧
      (8804889115230207 / 2 ^ 43 : ℚ) ≠ 1001 := by
  decide!

/-- C22, as the code has it: `GetMetrics` returns the pointer the collector holds, not a copy.
When that pointer designates the record `m`, each of the six setters succeeds and leaves, at the
address `GetMetrics` returned, the record `m` with the fields of that setter overwritten; the
records at the other addresses are unchanged. -/
theorem getMetrics_shares_record (h : MetricsHeap) (c : Collector) (m : Metrics)
    (hm : deref h c.GetMetrics = some m) :
    c.GetMetrics = c.metrics ∧
      (∀ (ndviMetrics : NDVIMetrics) (time : Int), ∃ h2 : MetricsHeap,
        c.SetNDVIMetrics h ndviMetrics time = some h2 ∧
        deref h2 c.GetMetrics = some
          { m with NDVITime := time
                   Pixels := (ndviMetrics.TotalPixels : Int)
                   NoDataPixels := (ndviMetrics.NoDataPixels : Int)
                   NDVIMin := Float64.fin ndviMetrics.Min
                   NDVIMax := Float64.fin ndviMetrics.Max
                   NDVIAverage := ndviMetrics.Average } ∧
        ∀ q : MetricsPtr, q ≠ c.GetMetrics → deref h2 q = deref h q) ∧
      (∀ (colorMetrics : ColorMetrics) (time : Int), ∃ h2 : MetricsHeap,
        c.SetColorMetrics h colorMetrics time = some h2 ∧
        deref h2 c.GetMetrics =
          some { m with ColorTime := time, ImageSize := colorMetrics.ImageSize } ∧
        ∀ q : MetricsPtr, q ≠ c.GetMetrics → deref h2 q = deref h q) ∧
      (∀ time : Int, ∃ h2 : MetricsHeap,
        c.SetSaveTime h time = some h2 ∧
        deref h2 c.GetMetrics = some { m with SaveTime := time } ∧
        ∀ q : MetricsPtr, q ≠ c.GetMetrics → deref h2 q = deref h q) ∧
      (∀ nirMetrics redMetrics : ReadMetrics, ∃ h2 : MetricsHeap,
        c.SetBandReadMetrics h nirMetrics redMetrics = some h2 ∧
        deref h2 c.GetMetrics = some
          { m with FileTimeNIR := nirMetrics.FileTime
                   DecodeTimeNIR := nirMetrics.DecodeTime
                   FileTimeRED := redMetrics.FileTime
                   DecodeTimeRED := redMetrics.DecodeTime
                   ReadingTime := int64Add nirMetrics.TotalTime redMetrics.TotalTime } ∧
        ∀ q : MetricsPtr, q ≠ c.GetMetrics → deref h2 q = deref h q) ∧
      (∀ nirTiles redTiles : Int, ∃ h2 : MetricsHeap,
        c.SetNumTiles h nirTiles redTiles = some h2 ∧
        deref h2 c.GetMetrics =
          some { m with NumTilesNIR := nirTiles, NumTilesRED := redTiles } ∧
        ∀ q : MetricsPtr, q ≠ c.GetMetrics → deref h2 q = deref h q) ∧
      (∀ start now : Int, ∃ h2 : MetricsHeap,
        c.StopTiming h start now = some h2 ∧
        deref h2 c.GetMetrics = some { m with TotalTime := timeSince start now } ∧
        ∀ q : MetricsPtr, q ≠ c.GetMetrics → deref h2 q = deref h q) := by
  have hm2 : deref h c.metrics = some m := hm
  refine ⟨rfl, ?_, ?_, ?_, ?_, ?_, ?_⟩
  · intro ndviMetrics time
    refine ⟨_, ?_, deref_store_update h c.metrics m _ hm2⟩
    simp only [Collector.SetNDVIMetrics, hm2]
  · intro colorMetrics time
    refine ⟨_, ?_, deref_store_update h c.metrics m _ hm2⟩
    simp only [Collector.SetColorMetrics, hm2]
  · intro time
    refine ⟨_, ?_, deref_store_update h c.metrics m _ hm2⟩
    simp only [Collector.SetSaveTime, hm2]
  · intro nirMetrics redMetrics
    refine ⟨_, ?_, deref_store_update h c.metrics m _ hm2⟩
    simp only [Collector.SetBandReadMetrics, hm2]
  · intro nirTiles redTiles
    refine ⟨_, ?_, deref_store_update h c.metrics m _ hm2⟩
    simp only [Collector.SetNumTiles, hm2]
  · intro start now
    refine ⟨_, ?_, deref_store_update h c.metrics m _ hm2⟩
    simp only [Collector.StopTiming, hm2]

/-- C22 on a collector whose record is `sampleMetrics`, at address 0: after `SetSaveTime` with
5 s the record `GetMetrics` returned has a save time of 5 s. -/
theorem getMetrics_shares_record_witness :
    ∃ h2 : MetricsHeap,
      Collector.SetSaveTime ⟨some 0, "CPU", 4⟩ [sampleMetrics] 5000000000 = some h2 ∧
      deref h2 (Collector.GetMetrics ⟨some 0, "CPU", 4⟩) =
        some { sampleMetrics with SaveTime := 5000000000 } := by
  obtain ⟨h2, h1, h3, _⟩ :=
    (getMetrics_shares_record [sampleMetrics] ⟨some 0, "CPU", 4⟩ sampleMetrics rfl).2.2.2.1
      5000000000
  exact ⟨h2, h1, h3⟩

/-- C22 fails on a new collector: the record `GetMetrics` returns has a save time of 0, and
after the later call `SetSaveTime` with 5 s the record at the returned address has a save time
of 5 s. -/
theorem getMetrics_not_snapshot :
    (NewCollector [] "CPU" 4).2.GetMetrics = some 0 ∧
      (deref (NewCollector [] "CPU" 4).1 (some 0)).map (fun m => m.SaveTime) = some 0 ∧
      (((NewCollector [] "CPU" 4).2.SetSaveTime (NewCollector [] "CPU" 4).1 5000000000).bind
        (fun h2 => deref h2 (some 0))).map (fun m => m.SaveTime) = some 5000000000 := by
  decide

/-- C28, as the code has it: the record an iteration of `runBenchmark` obtains from its
collector holds as total time the duration measured between `StartTiming` and `StopTiming`,
whatever the stage durations are: the reading time is the sum of the two read totals, the NDVI,
colour and save times are the durations passed to the setters, and the share printed for the
total is the literal `100.0`. -/
theorem collector_total_time_measured (h : MetricsHeap) (processorType : String)
    (numThreads : Int) (x : IterationInputs) :
    ∃ (h2 : MetricsHeap) (p : MetricsPtr) (m : Metrics),
      collectIteration h processorType numThreads x = some (h2, p) ∧
      deref h2 p = some m ∧
      m.TotalTime = timeSince x.startNow x.stopNow ∧
      m.ReadingTime = int64Add x.nirMetrics.TotalTime x.redMetrics.TotalTime ∧
      m.FileTimeNIR = x.nirMetrics.FileTime ∧ m.DecodeTimeNIR = x.nirMetrics.DecodeTime ∧
      m.FileTimeRED = x.redMetrics.FileTime ∧ m.DecodeTimeRED = x.redMetrics.DecodeTime ∧
      m.NDVITime = x.ndviTime ∧ m.ColorTime = x.colorTime ∧ m.SaveTime = x.saveTime ∧
      (bottleneckRow m).porcTotal = "100.0" := by
  refine ⟨h ++ [{ zeroMetrics with
      ProcessorType := processorType, NumThreads := numThreads,
      TotalTime := timeSince x.startNow x.stopNow,
      ReadingTime := int64Add x.nirMetrics.TotalTime x.redMetrics.TotalTime,
      NDVITime := x.ndviTime, ColorTime := x.colorTime, SaveTime := x.saveTime,
      FileTimeNIR := x.nirMetrics.FileTime, DecodeTimeNIR := x.nirMetrics.DecodeTime,
      FileTimeRED := x.redMetrics.FileTime, DecodeTimeRED := x.redMetrics.DecodeTime,
      Pixels := (x.ndviMetrics.TotalPixels : Int),
      NoDataPixels := (x.ndviMetrics.NoDataPixels : Int),
      ImageSize := x.colorMetrics.ImageSize, NDVIMin := Float64.fin x.ndviMetrics.Min,
      NDVIMax := Float64.fin x.ndviMetrics.Max,
      NDVIAverage := x.ndviMetrics.Average,
      NumTilesNIR := x.nirMetrics.NumTiles, NumTilesRED := x.redMetrics.NumTiles }],
    some h.length, _, ?_, deref_alloc h _, rfl, rfl, rfl, rfl, rfl, rfl, rfl, rfl, rfl, rfl⟩
  simp only [collectIteration, NewCollector, Collector.SetBandReadMetrics,
    Collector.SetNumTiles, Collector.SetNDVIMetrics, Collector.SetColorMetrics,
    Collector.SetSaveTime, Collector.StopTiming, Collector.StartTiming, Collector.GetMetrics,
    deref_alloc, store_alloc, Option.some_bind]

/-- C28 on the iteration `eightSecondIteration`: the total time of the record is the 8 s
between the two readings of the clock. -/
theorem collector_total_time_measured_witness :
    ∃ (h2 : MetricsHeap) (p : MetricsPtr) (m : Metrics),
      collectIteration [] "CPU" 4 eightSecondIteration = some (h2, p) ∧
      deref h2 p = some m ∧ m.TotalTime = 8000000000 := by
  obtain ⟨h2, p, m, h1, hd, ht, _⟩ :=
    collector_total_time_measured [] "CPU" 4 eightSecondIteration
  exact ⟨h2, p, m, h1, hd, by rw [ht]; decide⟩

/-- C28 fails on an iteration whose stages take 5 s altogether while 8 s pass between
`StartTiming` and `StopTiming`: the total time of the record is 8 s, the five shares of the
bottleneck row are 12.5 each and add up to 62.5, and 100.0 is printed for the total. -/
theorem collector_total_not_sum :
    collectIteration [] "CPU" 4 eightSecondIteration = some ([eightSecondRecord], some 0) ∧
      eightSecondRecord.TotalTime = 8000000000 ∧
      int64Add (int64Add (int64Add eightSecondRecord.ReadingTime eightSecondRecord.NDVITime)
        eightSecondRecord.ColorTime) eightSecondRecord.SaveTime = 5000000000 ∧
      (bottleneckRow eightSecondRecord).porcNIR = Float64.fin (25 / 2) ∧
      (bottleneckRow eightSecondRecord).porcRED = Float64.fin (25 / 2) ∧
      (bottleneckRow eightSecondRecord).porcNDVI = Float64.fin (25 / 2) ∧
      (bottleneckRow eightSecondRecord).porcColor = Float64.fin (25 / 2) ∧
      (bottleneckRow eightSecondRecord).porcSave = Float64.fin (25 / 2) ∧
      (((((bottleneckRow eightSecondRecord).porcNIR.add
        (bottleneckRow eightSecondRecord).porcRED).add
        (bottleneckRow eightSecondRecord).porcNDVI).add
        (bottleneckRow eightSecondRecord).porcColor).add
        (bottleneckRow eightSecondRecord).porcSave) = Float64.fin (125 / 2) ∧
      (bottleneckRow eightSecondRecord).porcTotal = "100.0" := by
  decide!

/-- C30: the legacy `ndviColorOptimized` returns what `GetNDVIColor` returns, for every value.
On band rasters that each hold their `Width * Height` samples, with `n ≥ 1` workers: when the
dimensions differ, `Calculate` and the legacy `CalculateNDVI` both return an error and `nil` for
their other results; when they agree, `Calculate` returns statistics and a raster, `Colorize`
on that raster with the same width, height and `n` returns an image, and `CalculateNDVI`
returns the same total pixels, no-data pixels, minimum, maximum and average, the same image
byte size and the same image (pixel buffer, stride and bounds). -/
theorem legacy_pipeline_equivalent (nirResultado redResultado : Legacy.ResultadoBanda)
    (nirBand redBand : BandResult) (numThreads tiempoNDVI tiempoColor : Int)
    (nirData redData : List ℚ)
    (hn : nirResultado.Imagen = nirBand.Image) (hr : redResultado.Imagen = redBand.Image)
    (hdn : nirBand.Image.Data[0]? = some nirData) (hdr : redBand.Image.Data[0]? = some redData)
    (hln : nirData.length = nirBand.Image.Width * nirBand.Image.Height)
    (hlr : redData.length = redBand.Image.Width * redBand.Image.Height)
    (hw : 1 ≤ numThreads) :
    (∀ v : ℚ, Legacy.ndviColorOptimized v = GetNDVIColor v) ∧
      ((nirBand.Image.Width ≠ redBand.Image.Width ∨
          nirBand.Image.Height ≠ redBand.Image.Height) →
        (∃ e : ImageDimensionError,
          Calculate nirBand redBand numThreads = some ⟨none, none, some e⟩) ∧
        ∃ msg : String,
          Legacy.CalculateNDVI nirResultado redResultado numThreads tiempoNDVI tiempoColor =
            some ⟨none, none, none, some msg⟩) ∧
      ((nirBand.Image.Width = redBand.Image.Width ∧
          nirBand.Image.Height = redBand.Image.Height) →
        ∃ (m : NDVIMetrics) (data : List ℚ) (cm : ColorMetrics) (img : RGBAImage),
          Calculate nirBand redBand numThreads = some ⟨some m, some data, none⟩ ∧
          Colorize data nirBand.Image.Width nirBand.Image.Height numThreads = some (cm, img) ∧
          Legacy.CalculateNDVI nirResultado redResultado numThreads tiempoNDVI tiempoColor =
            some { metricasNDVI := some { Tiempo := tiempoNDVI
                                          PixelesTotales := m.TotalPixels
                                          PixelesSinDatos := m.NoDataPixels
                                          Min := m.Min
                                          Max := m.Max
                                          Promedio := m.Average }
                   metricasColor := some { Tiempo := tiempoColor
                                           TamanoImagen := cm.ImageSize }
                   ndviColorImg := some img
                   err := none }) := by
  refine ⟨ndviColorOptimized_eq, ?_, ?_⟩
  · intro hd
    constructor
    · exact ⟨_, by unfold Calculate; rw [if_pos hd]⟩
    · exact ⟨_, by unfold Legacy.CalculateNDVI; rw [hn, hr, if_pos hd]⟩
  · rintro ⟨hW, hH⟩
    have hc := Calculate_eq nirBand redBand numThreads nirData redData hW hH hdn hdr hln.ge
      (by rw [hlr, hW, hH]) hw
    have hz := Colorize_eq ((List.range (nirBand.Image.Width * nirBand.Image.Height)).map
      (ndviAt nirData redData)) nirBand.Image.Width nirBand.Image.Height numThreads
      (by simp) hw
    exact ⟨_, _, _, _, hc, hz, CalculateNDVI_of_pipeline nirResultado redResultado nirBand redBand
      numThreads tiempoNDVI tiempoColor hn hr _ _ _ _ hc hz⟩

/-- C30 on two 2x1 rasters with 3 workers: the legacy function returns the statistics and the
image of the refactored pipeline. -/
theorem legacy_pipeline_equivalent_witness :
    ∃ (m : NDVIMetrics) (data : List ℚ) (cm : ColorMetrics) (img : RGBAImage),
      Calculate ⟨⟨2, 1, 1, [[4 / 5, 0]]⟩⟩ ⟨⟨2, 1, 1, [[1 / 5, 0]]⟩⟩ 3 =
        some ⟨some m, some data, none⟩ ∧
      Colorize data 2 1 3 = some (cm, img) ∧
      Legacy.CalculateNDVI ⟨⟨2, 1, 1, [[4 / 5, 0]]⟩⟩ ⟨⟨2, 1, 1, [[1 / 5, 0]]⟩⟩ 3 7 9 =
        some ⟨some ⟨7, m.TotalPixels, m.NoDataPixels, m.Min, m.Max, m.Average⟩,
          some ⟨9, cm.ImageSize⟩, some img, none⟩ :=
  (legacy_pipeline_equivalent ⟨⟨2, 1, 1, [[4 / 5, 0]]⟩⟩ ⟨⟨2, 1, 1, [[1 / 5, 0]]⟩⟩
    ⟨⟨2, 1, 1, [[4 / 5, 0]]⟩⟩ ⟨⟨2, 1, 1, [[1 / 5, 0]]⟩⟩ 3 7 9 [4 / 5, 0] [1 / 5, 0]
    rfl rfl rfl rfl rfl rfl (by decide)).2.2 ⟨rfl, rfl⟩

/-- C24 fails in the legacy `main`.  With three repetitions requested, of which the second
fails and the other two complete in 3 s each, the failed call adds nothing to the accumulator,
whose total time is 6 s, but the average is taken over the three requested repetitions: the
record appended has a total time of 2 s, where the two completed runs average 3 s. -/
theorem legacy_average_divides_by_requested :
    Legacy.completedRuns [Except.ok Legacy.sampleMetricas, Except.error "fallo",
        Except.ok Legacy.sampleMetricas] = [Legacy.sampleMetricas, Legacy.sampleMetricas] ∧
      ((([Except.ok Legacy.sampleMetricas, Except.error "fallo",
          Except.ok Legacy.sampleMetricas].foldl Legacy.repetitionStep (none, none)).1).map
        (fun acc => acc.TiempoTotal)) = some 6000000000 ∧
      (Legacy.cpuRepetitions [Except.ok Legacy.sampleMetricas, Except.error "fallo",
          Except.ok Legacy.sampleMetricas]).map (Option.map (fun r => r.TiempoTotal)) =
        some (some 2000000000) ∧
      int64Div 6000000000 2 = 3000000000 := by
  decide!

/-- C29: on well-formed input and with at least one worker, run the goroutines of `Calculate`
under any schedule, that is any interleaving of their steps in which every worker takes at
least one step for every iteration of its loop and one for the storing of its results.  No step
panics, all goroutines have returned when the schedule ends, and the reduction that follows
returns the statistics and the raster of the sequential model, whatever the schedule.  Likewise
`Colorize` under any schedule that gives every worker a step for every iteration of its loop
returns the size and the image of the sequential model.  Both sequential results exist and
depend on the inputs only. -/
theorem schedule_independence (nirBand redBand : BandResult) (numThreads : Int)
    (nirData redData ndviData : List ℚ) (width height : Nat)
    (hW : nirBand.Image.Width = redBand.Image.Width)
    (hH : nirBand.Image.Height = redBand.Image.Height)
    (hn : nirBand.Image.Data[0]? = some nirData) (hr : redBand.Image.Data[0]? = some redData)
    (hln : nirBand.Image.Width * nirBand.Image.Height ≤ nirData.length)
    (hlr : nirBand.Image.Width * nirBand.Image.Height ≤ redData.length)
    (hld : width * height ≤ ndviData.length) (hw : 1 ≤ numThreads)
    (sched colorSched : List Nat)
    (hs : ∀ w ∈ sched, w < numThreads.toNat)
    (hfair : ∀ w : Nat, w < numThreads.toNat →
      (chunkIdx
        ((nirBand.Image.Width * nirBand.Image.Height + numThreads.toNat - 1) / numThreads.toNat)
        (nirBand.Image.Width * nirBand.Image.Height) w).length + 1 ≤ sched.count w)
    (hcs : ∀ w ∈ colorSched, w < numThreads.toNat)
    (hcfair : ∀ w : Nat, w < numThreads.toNat →
      (chunkIdx ((width * height + numThreads.toNat - 1) / numThreads.toNat) (width * height)
        w).length ≤ colorSched.count w) :
    CalculatePar nirBand redBand numThreads sched = Calculate nirBand redBand numThreads ∧
      ColorizePar ndviData width height numThreads colorSched =
        Colorize ndviData width height numThreads ∧
      (∃ (m : NDVIMetrics) (data : List ℚ),
        Calculate nirBand redBand numThreads = some ⟨some m, some data, none⟩) ∧
      (∃ (cm : ColorMetrics) (img : RGBAImage),
        Colorize ndviData width height numThreads = some (cm, img)) :=
  ⟨CalculatePar_eq nirBand redBand numThreads nirData redData hW hH hn hr hln hlr hw sched hs
      hfair,
    ColorizePar_eq ndviData width height numThreads hld hw colorSched hcs hcfair,
    ⟨_, _, Calculate_eq nirBand redBand numThreads nirData redData hW hH hn hr hln hlr hw⟩,
    ⟨_, _, Colorize_eq ndviData width height numThreads hld hw⟩⟩

/-- C29 on two 3x1 rasters with 2 workers (chunks of 2 and 1 pixels): under the schedule
`1, 0, 1, 0, 0`, in which the steps of the two workers alternate, and under the colour schedule
`1, 0, 0`, the results are those of the sequential model. -/
theorem schedule_independence_witness :
    CalculatePar ⟨⟨3, 1, 1, [[4 / 5, 0, 1]]⟩⟩ ⟨⟨3, 1, 1, [[1 / 5, 0, 3]]⟩⟩ 2 [1, 0, 1, 0, 0] =
        Calculate ⟨⟨3, 1, 1, [[4 / 5, 0, 1]]⟩⟩ ⟨⟨3, 1, 1, [[1 / 5, 0, 3]]⟩⟩ 2 ∧
      ColorizePar [3 / 5, 0, -(1 / 2)] 3 1 2 [1, 0, 0] = Colorize [3 / 5, 0, -(1 / 2)] 3 1 2 := by
  have h := schedule_independence ⟨⟨3, 1, 1, [[4 / 5, 0, 1]]⟩⟩ ⟨⟨3, 1, 1, [[1 / 5, 0, 3]]⟩⟩ 2
    [4 / 5, 0, 1] [1 / 5, 0, 3] [3 / 5, 0, -(1 / 2)] 3 1 rfl rfl rfl rfl (by decide) (by decide)
    (by decide) (by decide) [1, 0, 1, 0, 0] [1, 0, 0] (by decide) (by decide) (by decide)
    (by decide)
  exact ⟨h.1, h.2.1⟩

end NDVI
